import Mathlib

/-!
# Fleet combat simulator: embedding of `combat.go`

The development follows the source file top to bottom.  Conventions of the
embedding:

* Go `int` is `Int`; no value that occurs here comes near the 64-bit bounds.
* Go `float64` is `ℚ`.  In `MaxAllocation` and `MakeFleetByAlloc` every conversion
  `float64(x)` and every operation is rounded by `fl64`, the rounding of IEEE 754.
  In `Total`, in the hull percentage of `AttackTargets` and in the quotient that
  `SimulateFight` returns the arithmetic is exact.
* Where `float64` results are compared for equality (the crossover `avg`, the score
  sums of `step`) the function takes the rounding `fl` of each operation as an
  argument: `fl64` is the rounding of IEEE 754, `id` is exact arithmetic.
* `*T` receivers that are mutated become values that are returned.
* A Go `panic` (explicit, or an index out of range) is a `Fault`.
* The global random source is an explicit `Rand` value that is threaded through.
-/

namespace Ogame

/-! ## Arithmetic of `float64`

A `float64` value is the rational number it stands for.  `fl64` is the rounding of
IEEE 754 (to nearest, ties to even, 53 binary digits; the exponent is not bounded, no
value here comes near the bounds): the result of a `float64` operation is `fl64` of
the exact result, each operation rounded on its own, as the compiler does on amd64,
and the conversion `float64(x)` of an `int` is `fl64 x`. -/

/-- Nearest integer, ties to the even one. -/
def roundEven (q : ℚ) : Int :=
  if q - (Int.floor q : ℚ) < 1 / 2 then Int.floor q
  else if 1 / 2 < q - (Int.floor q : ℚ) then Int.floor q + 1
  else if Int.floor q % 2 = 0 then Int.floor q else Int.floor q + 1

/-- Nearest `float64` of a positive number `q`: with `2 ^ k ≤ q < 2 ^ (k + 1)` the
values of that range are the multiples of `2 ^ (k - 52)`. -/
def fl64.pos (q : ℚ) : ℚ :=
  (roundEven (q / 2 ^ (Int.log 2 q - 52)) : ℚ) * 2 ^ (Int.log 2 q - 52)

/-- Nearest `float64`. -/
def fl64 (q : ℚ) : ℚ :=
  if 0 < q then fl64.pos q else if q < 0 then - fl64.pos (-q) else 0

/-! ## Resources -/

/-- Resource bundle `Resources` of the source: one `int` per resource. -/
structure Resources where
  Metal : Int
  Crystal : Int
  Deuterium : Int
deriving DecidableEq, Repr

/-- Ways in which a run stops without a result.  The first five are panics:
`overAllocated` is `panic("over allocated on resources")`, `indexOutOfRange` an index
outside a slice, `invalidArgument` a call `rand.Intn(n)` with `n <= 0`,
`lengthMismatch` is `panic("must have equal lengths")` and `badInput` is
`panic("bad input")`.  `outOfFuel` is not a Go value: it marks a loop of the
embedding that was cut off before the Go loop would have ended. -/
inductive Fault where
  | overAllocated
  | indexOutOfRange
  | invalidArgument
  | lengthMismatch
  | badInput
  | outOfFuel
deriving DecidableEq, Repr

/-- Variadic `min(inp ...int)`.  The source reads `inp[0]` first, so the argument
list is never empty: it is given as its first element and the remaining ones.
The loop of the source also visits `inp[0]`, which leaves the running minimum
unchanged. -/
def min (first : Int) (rest : List Int) : Int :=
  (first :: rest).foldl (fun m i => if i < m then i else m) first

/-- Method `(r *Resources) Add(other Resources)`.  The third assignment of the source
reads `r.Deuterium += other.Crystal`. -/
def Resources.Add (r other : Resources) : Resources :=
  { Metal := r.Metal + other.Metal
    Crystal := r.Crystal + other.Crystal
    Deuterium := r.Deuterium + other.Crystal }

/-- Method `(r *Resources) Total()`: weighted value, truncated by `int(...)`
(the sum is never negative for the bundles that occur, so truncation is `floor`
there; in general Go truncates toward zero). -/
def Resources.Total (r : Resources) : Int :=
  let v : ℚ := (r.Metal : ℚ) + 1505520505 / 1000000000 * (r.Crystal : ℚ)
    + 2666201117 / 1000000000 * (r.Deuterium : ℚ)
  if 0 ≤ v then Int.floor v else Int.ceil v

/-- Method `(r *Resources) AllocateN(other Resources, n int)`. -/
def Resources.AllocateN (r other : Resources) (n : Int) : Except Fault Resources :=
  let r1 : Resources :=
    { Metal := r.Metal - n * other.Metal
      Crystal := r.Crystal - n * other.Crystal
      Deuterium := r.Deuterium - n * other.Deuterium }
  if r1.Metal < 0 ∨ r1.Crystal < 0 ∨ r1.Deuterium < 0 then
    .error Fault.overAllocated
  else
    .ok r1

/-- Constant `math.MaxInt32`. -/
def MaxInt32 : Int := 2147483647

/-- Method `(r Resources) MaxAllocation(other Resources)`: each candidate is
`int(math.Floor(float64(r.X) / float64(other.X)))`, a quotient of `float64` values. -/
def Resources.MaxAllocation (r other : Resources) : Int :=
  let maxMetal : Int :=
    if other.Metal > 0 then
      Int.floor (fl64 (fl64 (r.Metal : ℚ) / fl64 (other.Metal : ℚ)))
    else MaxInt32
  let maxCrystal : Int :=
    if other.Crystal > 0 then
      Int.floor (fl64 (fl64 (r.Crystal : ℚ) / fl64 (other.Crystal : ℚ)))
    else MaxInt32
  let maxDeut : Int :=
    if other.Deuterium > 0 then
      Int.floor (fl64 (fl64 (r.Deuterium : ℚ) / fl64 (other.Deuterium : ℚ)))
    else MaxInt32
  min maxMetal [maxCrystal, maxDeut]

/-! ## Catalog -/

/-- Unit types of the source (`UnitType` with its nine constants). -/
inductive UnitType where
  | LightFighter
  | HeavyFighter
  | Cruiser
  | Battleship
  | RocketLauncher
  | LightLaser
  | HeavyLaser
  | GaussCannon
  | IonCannon
deriving DecidableEq, Repr

open UnitType

/-- Table `rapidFire`: a missing entry of a Go map reads as `0`. -/
def rapidFire : UnitType → UnitType → ℚ
  | Cruiser, LightFighter => 833333333 / 1000000000
  | Cruiser, RocketLauncher => 9 / 10
  | _, _ => 0

/-- Table `UnitCosts`. -/
def UnitCosts : UnitType → Resources
  | LightFighter => ⟨3000, 1000, 0⟩
  | HeavyFighter => ⟨6000, 4000, 0⟩
  | Cruiser => ⟨20000, 7000, 2000⟩
  | Battleship => ⟨45000, 15000, 0⟩
  | RocketLauncher => ⟨2000, 0, 0⟩
  | LightLaser => ⟨1500, 500, 0⟩
  | HeavyLaser => ⟨6000, 2000, 0⟩
  | GaussCannon => ⟨20000, 15000, 2000⟩
  | IonCannon => ⟨2000, 6000, 0⟩

/-- Table `initial_hull`. -/
def initial_hull : UnitType → Int
  | LightFighter => 800
  | HeavyFighter => 2000
  | Cruiser => 5400
  | Battleship => 12000
  | RocketLauncher => 400
  | LightLaser => 400
  | HeavyLaser => 1600
  | GaussCannon => 7000
  | IonCannon => 1600

/-- Table `shields`. -/
def shields : UnitType → Int
  | LightFighter => 20
  | HeavyFighter => 50
  | Cruiser => 100
  | Battleship => 400
  | RocketLauncher => 40
  | LightLaser => 50
  | HeavyLaser => 200
  | GaussCannon => 400
  | IonCannon => 1000

/-- Table `weaponry`. -/
def weaponry : UnitType → Int
  | LightFighter => 100
  | HeavyFighter => 300
  | Cruiser => 800
  | Battleship => 2000
  | RocketLauncher => 160
  | LightLaser => 200
  | HeavyLaser => 500
  | GaussCannon => 2200
  | IonCannon => 300

/-! ## Units and fleets -/

/-- Struct `Unit`.  The field `Type` of the source is `Typ` (`Type` is reserved). -/
structure Unit where
  Hull : Int
  Shields : Int
  Weaponry : Int
  Typ : UnitType
  Targets : List Int
deriving DecidableEq, Repr

/-- Struct `Fleet`.  The source holds `[]*Unit`; no unit is shared between two
slots or two fleets, so the units are held by value. -/
structure Fleet where
  Units : List Unit
  Lost : Resources
deriving DecidableEq, Repr

/-- Body of the `for _, u := range fleet.Units` loop of `RemoveDeadUnits`: `units` is
the slice being built, `lost` is `fleet.Lost`. -/
def RemoveDeadUnits.loop : List Unit → List Unit → Resources → List Unit × Resources
  | [], units, lost => (units, lost)
  | u :: rest, units, lost =>
    if u.Hull > 0 then
      RemoveDeadUnits.loop rest (units ++ [{ u with Shields := shields u.Typ }]) lost
    else
      RemoveDeadUnits.loop rest units (lost.Add (UnitCosts u.Typ))

/-- Function `RemoveDeadUnits(fleet *Fleet)`. -/
def RemoveDeadUnits (fleet : Fleet) : Fleet :=
  let r := RemoveDeadUnits.loop fleet.Units [] fleet.Lost
  { Units := r.1, Lost := r.2 }

/-- Function `MakeUnit(unitType)`; `Targets` is left at its zero value, `nil`. -/
def MakeUnit (unitType : UnitType) : Unit :=
  { Hull := initial_hull unitType
    Shields := shields unitType
    Weaponry := weaponry unitType
    Typ := unitType
    Targets := [] }

/-- Function `MakeMultipleUnits(unitType, num)`: `num` fresh units.  The only call
site passes `num > 0`. -/
def MakeMultipleUnits (unitType : UnitType) (num : Int) : List Unit :=
  List.replicate num.toNat (MakeUnit unitType)

/-! ## Random source -/

/-- One result of `rand.Float64()`: a number in the half-open interval `[0, 1)`. -/
structure Draw where
  val : ℚ
  nonneg : 0 ≤ val
  lt_one : val < 1

/-- The global source of `math/rand`, as the results it is going to give:
`floats k` is the result of the `k`-th call of `rand.Float64()`, and the `k`-th
call of `rand.Intn(n)` returns `ints k % n`, which ranges over all of `[0, n)`.
`fpos` and `ipos` count the calls made so far. -/
structure Rand where
  floats : Nat → Draw
  ints : Nat → Nat
  fpos : Nat
  ipos : Nat

/-- Call `rand.Float64()`. -/
def Rand.Float64 (rng : Rand) : ℚ × Rand :=
  ((rng.floats rng.fpos).val, { rng with fpos := rng.fpos + 1 })

/-- Call `rand.Intn(n)`, which panics unless `n > 0`. -/
def Rand.Intn (rng : Rand) (n : Int) : Except Fault (Int × Rand) :=
  if n ≤ 0 then .error Fault.invalidArgument
  else .ok ((rng.ints rng.ipos : Int) % n, { rng with ipos := rng.ipos + 1 })

/-! ## One exchange -/

/-- Function `PickAnotherAttacker(unit, target)`. -/
def PickAnotherAttacker (unit target : Unit) (rng : Rand) : Bool × Rand :=
  let x := rng.Float64
  (decide (x.1 < rapidFire unit.Typ target.Typ), x.2)

/-- Inner loop of `PickTargets`, `for ok := true; ok; ok = PickAnotherAttacker(..)`,
for the acting unit `u`: one unit of `fuel` per pass through the body.  The body
draws the target; the post statement reads `defender.Units[len(defender.Units)-1]`
and rolls for another pass. -/
def PickTargets.pick (u : Unit) (defender : Fleet) :
    Nat → List Int → Rand → Except Fault (List Int × Rand)
  | 0, _, _ => .error Fault.outOfFuel
  | fuel + 1, targets, rng =>
    match rng.Intn (defender.Units.length : Int) with
    | .error e => .error e
    | .ok (t, rng1) =>
      match defender.Units.getLast? with
      | none => .error Fault.indexOutOfRange
      | some last =>
        let r := PickAnotherAttacker u last rng1
        if r.1 then PickTargets.pick u defender fuel (targets ++ [t]) r.2
        else .ok (targets ++ [t], r.2)

/-- Outer loop of `PickTargets`, over the acting units: returns them with their new
`Targets`. -/
def PickTargets.loop (fuel : Nat) (defender : Fleet) :
    List Unit → Rand → Except Fault (List Unit × Rand)
  | [], rng => .ok ([], rng)
  | u :: rest, rng =>
    match PickTargets.pick u defender fuel [] rng with
    | .error e => .error e
    | .ok (targets, rng1) =>
      match PickTargets.loop fuel defender rest rng1 with
      | .error e => .error e
      | .ok (rest1, rng2) => .ok ({ u with Targets := targets } :: rest1, rng2)

/-- Function `PickTargets(attacker, defender)`: returns the acting fleet. -/
def PickTargets (fuel : Nat) (attacker defender : Fleet) (rng : Rand) :
    Except Fault (Fleet × Rand) :=
  match PickTargets.loop fuel defender attacker.Units rng with
  | .error e => .error e
  | .ok (units, rng1) => .ok ({ attacker with Units := units }, rng1)

/-- Body of the inner loop of `AttackTargets` once `target := defender.Units[t]` is
read: one shot of `u` at `target`.  `target.Shields/100` is Go's truncating
division. -/
def AttackTargets.shot (u target : Unit) (rng : Rand) : Unit × Rand :=
  if target.Hull > 0 ∧ u.Weaponry ≥ Int.tdiv target.Shields 100 then
    let target1 : Unit :=
      if u.Weaponry < target.Shields then
        { target with Shields := target.Shields - u.Weaponry }
      else
        { target with Hull := target.Hull - (u.Weaponry - target.Shields), Shields := 0 }
    let hullPct : ℚ := (target1.Hull : ℚ) / (initial_hull target1.Typ : ℚ)
    if hullPct < 7 / 10 then
      let x := rng.Float64
      if x.1 < 1 - hullPct then ({ target1 with Hull := 0 }, x.2) else (target1, x.2)
    else (target1, rng)
  else (target, rng)

/-- Inner loop of `AttackTargets`, `for _, t := range u.Targets`, on the units of the
fleet under fire. -/
def AttackTargets.volley (u : Unit) :
    List Int → List Unit → Rand → Except Fault (List Unit × Rand)
  | [], units, rng => .ok (units, rng)
  | t :: rest, units, rng =>
    if 0 ≤ t then
      match units[t.toNat]? with
      | none => .error Fault.indexOutOfRange
      | some target =>
        let r := AttackTargets.shot u target rng
        AttackTargets.volley u rest (units.set t.toNat r.1) r.2
    else .error Fault.indexOutOfRange

/-- Outer loop of `AttackTargets`, `for _, u := range attacker.Units`. -/
def AttackTargets.loop : List Unit → List Unit → Rand → Except Fault (List Unit × Rand)
  | [], units, rng => .ok (units, rng)
  | u :: rest, units, rng =>
    match AttackTargets.volley u u.Targets units rng with
    | .error e => .error e
    | .ok (units1, rng1) => AttackTargets.loop rest units1 rng1

/-- Function `AttackTargets(attacker, defender)`: returns the fleet under fire. -/
def AttackTargets (attacker defender : Fleet) (rng : Rand) : Except Fault (Fleet × Rand) :=
  match AttackTargets.loop attacker.Units defender.Units rng with
  | .error e => .error e
  | .ok (units, rng1) => .ok ({ defender with Units := units }, rng1)

/-- Function `Process(attacker, defender)`: returns both fleets, acting fleet first. -/
def Process (fuel : Nat) (attacker defender : Fleet) (rng : Rand) :
    Except Fault (Fleet × Fleet × Rand) :=
  match PickTargets fuel attacker defender rng with
  | .error e => .error e
  | .ok (attacker1, rng1) =>
    match AttackTargets attacker1 defender rng1 with
    | .error e => .error e
    | .ok (defender1, rng2) => .ok (attacker1, defender1, rng2)

/-! ## Battles -/

/-- State of a battle: the two fleets, the random source, and `rounds`, the number
of passes through the round loop completed so far (a counter of the embedding). -/
structure Battle where
  attacker : Fleet
  defender : Fleet
  rng : Rand
  rounds : Nat

/-- The four statements shared by the loop bodies of `SimulateCombat` and
`SimulateFight`: two `Process` calls and two `RemoveDeadUnits` calls. -/
def Round (fuel : Nat) (b : Battle) : Except Fault Battle :=
  match Process fuel b.attacker b.defender b.rng with
  | .error e => .error e
  | .ok (attacker1, defender1, rng1) =>
    match Process fuel defender1 attacker1 rng1 with
    | .error e => .error e
    | .ok (defender2, attacker2, rng2) =>
      .ok { attacker := RemoveDeadUnits attacker2
            defender := RemoveDeadUnits defender2
            rng := rng2
            rounds := b.rounds + 1 }

/-- Value returned by `SimulateCombat`: the constructor carries the `i` that the
source formats into the string. -/
inductive Outcome where
  | DrawBothLose (i : Nat)
  | Loss (i : Nat)
  | Win (i : Nat)
  | DrawTimeout
deriving DecidableEq, Repr

/-- The string that the source returns for an outcome. -/
def Outcome.toString : Outcome → String
  | .DrawBothLose i => "DRAW-BOTH-LOSE(" ++ Nat.repr i ++ ")"
  | .Loss i => "LOSS(" ++ Nat.repr i ++ ")"
  | .Win i => "WIN(" ++ Nat.repr i ++ ")"
  | .DrawTimeout => "DRAW-TIMEOUT"

/-- Loop `for i := 0; i < 6; i++` of `SimulateCombat`, with `left` passes to go. -/
def SimulateCombat.loop (fuel : Nat) : Nat → Nat → Battle → Except Fault (Outcome × Battle)
  | 0, _, b => .ok (Outcome.DrawTimeout, b)
  | left + 1, i, b =>
    match Round fuel b with
    | .error e => .error e
    | .ok b1 =>
      if b1.attacker.Units.length = 0 ∧ b1.defender.Units.length = 0 then
        .ok (Outcome.DrawBothLose i, b1)
      else if b1.attacker.Units.length = 0 ∧ b1.defender.Units.length > 0 then
        .ok (Outcome.Loss i, b1)
      else if b1.defender.Units.length = 0 ∧ b1.attacker.Units.length > 0 then
        .ok (Outcome.Win i, b1)
      else SimulateCombat.loop fuel left (i + 1) b1

/-- Function `SimulateCombat(attacker, defender)`. -/
def SimulateCombat (fuel : Nat) (attacker defender : Fleet) (rng : Rand) :
    Except Fault (Outcome × Battle) :=
  SimulateCombat.loop fuel 6 0 { attacker := attacker, defender := defender, rng := rng, rounds := 0 }

/-- A `float64` quotient: Go yields an infinity or NaN when the divisor is zero. -/
inductive Ratio where
  | finite (q : ℚ)
  | posInf
  | negInf
  | nan
deriving DecidableEq, Repr

/-- Quotient `float64(x) / float64(y)` of two `int`s. -/
def Ratio.ofInts (x y : Int) : Ratio :=
  if y = 0 then
    (if x > 0 then Ratio.posInf else if x < 0 then Ratio.negInf else Ratio.nan)
  else Ratio.finite ((x : ℚ) / (y : ℚ))

/-- Loop `for i := 0; i < 6; i++` of `SimulateFight`, with `left` passes to go. -/
def SimulateFight.loop (fuel : Nat) : Nat → Battle → Except Fault Battle
  | 0, b => .ok b
  | left + 1, b =>
    match Round fuel b with
    | .error e => .error e
    | .ok b1 =>
      if b1.attacker.Units.length = 0 ∨ b1.defender.Units.length = 0 then .ok b1
      else SimulateFight.loop fuel left b1

/-- Function `SimulateFight(attacker, defender)`. -/
def SimulateFight (fuel : Nat) (attacker defender : Fleet) (rng : Rand) :
    Except Fault (Ratio × Battle) :=
  match SimulateFight.loop fuel 6
      { attacker := attacker, defender := defender, rng := rng, rounds := 0 } with
  | .error e => .error e
  | .ok b => .ok (Ratio.ofInts b.defender.Lost.Total b.attacker.Lost.Total, b)

/-! ## Fleet builder -/

/-- Loop `for i, a := range allocation` of `MakeFleetByAlloc`; `i` is the loop index,
`units` the slice being built, `resources` the budget behind the pointer.  The count
`int(math.Floor(float64(maxUnits) * a))` is the floor of a `float64` product. -/
def MakeFleetByAlloc.loop (composition : List UnitType) :
    Nat → List ℚ → List Unit → Resources → Except Fault (List Unit × Resources)
  | _, [], units, resources => .ok (units, resources)
  | i, a :: rest, units, resources =>
    match composition[i]? with
    | none => .error Fault.indexOutOfRange
    | some unitType =>
      let unitCost := UnitCosts unitType
      let maxUnits := resources.MaxAllocation unitCost
      let numUnits : Int := Int.floor (fl64 (fl64 (maxUnits : ℚ) * a))
      if numUnits > 0 then
        match resources.AllocateN unitCost numUnits with
        | .error e => .error e
        | .ok resources1 =>
          MakeFleetByAlloc.loop composition (i + 1) rest
            (units ++ MakeMultipleUnits unitType numUnits) resources1
      else MakeFleetByAlloc.loop composition (i + 1) rest units resources

/-- Function `MakeFleetByAlloc(resources, composition, allocation)`: returns the fleet
and the budget as the call leaves it. -/
def MakeFleetByAlloc (resources : Resources) (composition : List UnitType)
    (allocation : List ℚ) : Except Fault (Fleet × Resources) :=
  match MakeFleetByAlloc.loop composition 0 allocation [] resources with
  | .error e => .error e
  | .ok (units, resources1) => .ok ({ Units := units, Lost := ⟨0, 0, 0⟩ }, resources1)


/-! ## Sums of `float64` values -/

/-- Sum `x + y` of two `float64` values, of which each may be an infinity or NaN. -/
def Ratio.add (fl : ℚ → ℚ) : Ratio → Ratio → Ratio
  | .finite a, .finite b => .finite (fl (a + b))
  | .nan, _ => .nan
  | _, .nan => .nan
  | .posInf, .negInf => .nan
  | .negInf, .posInf => .nan
  | .posInf, _ => .posInf
  | _, .posInf => .posInf
  | .negInf, _ => .negInf
  | _, .negInf => .negInf

/-! ## Crossover -/

/-- Loop `for i := 0; i < len(left); i++` of `avg` on the fields still to come; `out`
holds the fields written so far.  The constants `0.001` and `0.999` are the `float64`
values `fl (1 / 1000)` and `fl (999 / 1000)`; `1.0` and `2` are exact. -/
def avg.loop (fl : ℚ → ℚ) : List ℚ → List ℚ → List ℚ → Rand → List ℚ × Rand
  | l :: left, r :: right, out, rng =>
    let mc := rng.Float64
    if mc.1 < fl (1 / 1000) then
      avg.loop fl left right (out ++ [fl (1 / 1000)]) mc.2
    else if mc.1 > fl (999 / 1000) then
      avg.loop fl left right (out ++ [fl (999 / 1000)]) mc.2
    else
      let u1 := mc.2.Float64
      let u2 := u1.2.Float64
      let p := fl (fl (u1.1 + u2.1) / 2)
      avg.loop fl left right (out ++ [fl (fl (p * l) + fl (fl (1 - p) * r))]) u2.2
  | _, _, out, rng => (out, rng)

/-- Function `avg(left, right)`. -/
def avg (fl : ℚ → ℚ) (left right : List ℚ) (rng : Rand) : Except Fault (List ℚ × Rand) :=
  if left.length ≠ right.length then .error Fault.lengthMismatch
  else .ok (avg.loop fl left right [] rng)

/-! ## Genomes and scores -/

/-- Variable `AttackerComposition`. -/
def AttackerComposition : List UnitType :=
  [LightFighter, HeavyFighter, Cruiser, Battleship]

/-- Variable `DefenderComposition`. -/
def DefenderComposition : List UnitType :=
  [RocketLauncher, LightLaser, HeavyLaser, IonCannon, GaussCannon]

/-- Type `AttackerAlloc`, `[4]float64`. -/
structure AttackerAlloc where
  vals : List ℚ
  size : vals.length = 4

/-- Function `NewAttackerAlloc(f)`. -/
def NewAttackerAlloc (f : List ℚ) : Except Fault AttackerAlloc :=
  if h : f.length = 4 then .ok ⟨f, h⟩ else .error Fault.badInput

/-- Type `DefenderAlloc`, `[5]float64`. -/
structure DefenderAlloc where
  vals : List ℚ
  size : vals.length = 5

/-- Function `NewDefenderAlloc(f)`. -/
def NewDefenderAlloc (f : List ℚ) : Except Fault DefenderAlloc :=
  if h : f.length = 5 then .ok ⟨f, h⟩ else .error Fault.badInput

/-- Struct `Scores`: the embedded `sort.Float64Slice` and `idx`. -/
structure Scores where
  Float64Slice : List Ratio
  idx : List Int
deriving DecidableEq, Repr

/-- Function `NewScores(data)`.  The slice of the result is `data` itself. -/
def NewScores (data : List Ratio) : Scores :=
  { Float64Slice := data, idx := (List.range data.length).map Int.ofNat }

/-- The assignment `x[i], x[j] = x[j], x[i]` on a slice: both index expressions are
evaluated (and checked) before the assignment. -/
def swapAt {α : Type} (x : List α) (i j : Int) : Except Fault (List α) :=
  if 0 ≤ i ∧ 0 ≤ j then
    match x[i.toNat]?, x[j.toNat]? with
    | some a, some b => .ok ((x.set i.toNat b).set j.toNat a)
    | _, _ => .error Fault.indexOutOfRange
  else .error Fault.indexOutOfRange

/-- Method `(s Scores) Swap(i, j)`: `s.Float64Slice.Swap(i, j)`, which is
`x[i], x[j] = x[j], x[i]` in package `sort`, then the same on `s.idx`. -/
def Scores.Swap (s : Scores) (i j : Int) : Except Fault Scores :=
  match swapAt s.Float64Slice i j with
  | .error e => .error e
  | .ok values =>
    match swapAt s.idx i j with
    | .error e => .error e
    | .ok idx => .ok { Float64Slice := values, idx := idx }

/-! ## Fitness of one pairing -/

/-- Variables that hold a budget: the package variables `AttackerResources` and
`DefenderResources`, and the locals `ares` and `dres` of one call of `DoCombat`. -/
inductive Cell where
  | AttackerResources
  | DefenderResources
  | ares
  | dres
deriving DecidableEq, Repr

/-- The values of the budget variables. -/
abbrev Store := Cell → Resources

/-- The package variables as the source initialises them; the locals hold the zero
value. -/
def Store.initial : Store
  | Cell.AttackerResources => ⟨22449840, 14911680, 8420160⟩
  | Cell.DefenderResources => ⟨2244984, 1491168, 842016⟩
  | Cell.ares => ⟨0, 0, 0⟩
  | Cell.dres => ⟨0, 0, 0⟩

/-- The assignment `x = r` to a budget variable. -/
def Store.set (s : Store) (x : Cell) (r : Resources) : Store :=
  fun y => if y = x then r else s y

/-- The call `MakeFleetByAlloc(&x, composition, allocation)` for a budget variable
`x`: the function works on the value behind the pointer and leaves the budget there. -/
def MakeFleetByAlloc.ref (x : Cell) (s : Store) (composition : List UnitType)
    (allocation : List ℚ) : Except Fault (Fleet × Store) :=
  match MakeFleetByAlloc (s x) composition allocation with
  | .error e => .error e
  | .ok (fleet, r) => .ok (fleet, s.set x r)

/-- Function `DoCombat(atkComp, defComp)`. -/
def DoCombat (fuel : Nat) (s : Store) (atkComp : AttackerAlloc) (defComp : DefenderAlloc)
    (rng : Rand) : Except Fault (Ratio × Store × Rand) :=
  let s1 := s.set Cell.ares (s Cell.AttackerResources)
  match MakeFleetByAlloc.ref Cell.ares s1 AttackerComposition atkComp.vals with
  | .error e => .error e
  | .ok (attacker, s2) =>
    let s3 := s2.set Cell.dres (s2 Cell.DefenderResources)
    match MakeFleetByAlloc.ref Cell.dres s3 DefenderComposition defComp.vals with
    | .error e => .error e
    | .ok (defender, s4) =>
      match SimulateFight fuel attacker defender rng with
      | .error e => .error e
      | .ok (ratio, b) => .ok (ratio, s4, b.rng)

/-! ## One generation -/

/-- Type `task` of `step`. -/
structure task where
  i : Int
  j : Int
deriving DecidableEq, Repr

/-- Type `result` of `step`. -/
structure result where
  i : Int
  j : Int
  score : Ratio
deriving DecidableEq, Repr

/-- The loops `for i := 0; i < 100; i++ { for j := 0; j < 100; j++ {` of `step`: the
tasks in the order in which they are sent on `taskChan`. -/
def step.tasks : List task :=
  (List.range 100).flatMap fun i => (List.range 100).map fun j => ⟨Int.ofNat i, Int.ofNat j⟩

/-- The statement `x[i] += v` on a slice of `float64`. -/
def addAt (fl : ℚ → ℚ) (x : List Ratio) (i : Int) (v : Ratio) : Except Fault (List Ratio) :=
  if 0 ≤ i then
    match x[i.toNat]? with
    | some a => .ok (x.set i.toNat (Ratio.add fl a v))
    | none => .error Fault.indexOutOfRange
  else .error Fault.indexOutOfRange

/-- The aggregator goroutine of `step`: the loop `for r := range resultChan`, over the
results in the order in which the channel delivers them. -/
def step.aggregate (fl : ℚ → ℚ) :
    List result → List Ratio → List Ratio → Except Fault (List Ratio × List Ratio)
  | [], attackerScores, defenderScores => .ok (attackerScores, defenderScores)
  | r :: rest, attackerScores, defenderScores =>
    match addAt fl attackerScores r.i r.score with
    | .error e => .error e
    | .ok attackerScores1 =>
      match addAt fl defenderScores r.j r.score with
      | .error e => .error e
      | .ok defenderScores1 => step.aggregate fl rest attackerScores1 defenderScores1

/-- The score arrays of `step` when the aggregator has seen the results `delivered`:
both start as `make([]float64, 100)`.  The workers decide only the order of
`delivered`; `step` then hands each array to `NewScores` and `sort.Sort`. -/
def step.scores (fl : ℚ → ℚ) (delivered : List result) :
    Except Fault (List Ratio × List Ratio) :=
  step.aggregate fl delivered (List.replicate 100 (Ratio.finite 0))
    (List.replicate 100 (Ratio.finite 0))

/-- The element `x[i]` of an array. -/
def elemAt {α : Type} (x : List α) (i : Int) : Except Fault α :=
  if 0 ≤ i then
    match x[i.toNat]? with
    | some a => .ok a
    | none => .error Fault.indexOutOfRange
  else .error Fault.indexOutOfRange

/-- Loop `for i := 0; i < 100; i++` of `reproduceAtk`, with `left` passes to go;
`newAlloc` holds the genomes written so far. -/
def reproduceAtk.loop (fl : ℚ → ℚ) (atkComp : List AttackerAlloc) :
    Nat → List AttackerAlloc → Rand → Except Fault (List AttackerAlloc × Rand)
  | 0, newAlloc, rng => .ok (newAlloc, rng)
  | left + 1, newAlloc, rng =>
    match rng.Intn 20 with
    | .error e => .error e
    | .ok (p, rng1) =>
      match rng1.Intn 20 with
      | .error e => .error e
      | .ok (q, rng2) =>
        match elemAt atkComp (99 - p) with
        | .error e => .error e
        | .ok first =>
          match elemAt atkComp (99 - q) with
          | .error e => .error e
          | .ok second =>
            match avg fl first.vals second.vals rng2 with
            | .error e => .error e
            | .ok (dist, rng3) =>
              match NewAttackerAlloc dist with
              | .error e => .error e
              | .ok child => reproduceAtk.loop fl atkComp left (newAlloc ++ [child]) rng3

/-- Function `reproduceAtk(atkComp, scores)`.  The body does not read `scores`. -/
def reproduceAtk (fl : ℚ → ℚ) (atkComp : List AttackerAlloc) (_scores : Scores) (rng : Rand) :
    Except Fault (List AttackerAlloc × Rand) :=
  reproduceAtk.loop fl atkComp 100 [] rng

/-- Loop `for i := 0; i < 100; i++` of `reproduceDef`, with `left` passes to go. -/
def reproduceDef.loop (fl : ℚ → ℚ) (defComp : List DefenderAlloc) :
    Nat → List DefenderAlloc → Rand → Except Fault (List DefenderAlloc × Rand)
  | 0, newAlloc, rng => .ok (newAlloc, rng)
  | left + 1, newAlloc, rng =>
    match rng.Intn 20 with
    | .error e => .error e
    | .ok (p, rng1) =>
      match rng1.Intn 20 with
      | .error e => .error e
      | .ok (q, rng2) =>
        match elemAt defComp p with
        | .error e => .error e
        | .ok first =>
          match elemAt defComp q with
          | .error e => .error e
          | .ok second =>
            match avg fl first.vals second.vals rng2 with
            | .error e => .error e
            | .ok (dist, rng3) =>
              match NewDefenderAlloc dist with
              | .error e => .error e
              | .ok child => reproduceDef.loop fl defComp left (newAlloc ++ [child]) rng3

/-- Function `reproduceDef(defComp, scores)`.  The body does not read `scores`. -/
def reproduceDef (fl : ℚ → ℚ) (defComp : List DefenderAlloc) (_scores : Scores) (rng : Rand) :
    Except Fault (List DefenderAlloc × Rand) :=
  reproduceDef.loop fl defComp 100 [] rng
/-! ## Vocabulary of the statements -/

/-! ### Resource bundles -/

/-- All three fields are at least zero. -/
def Resources.NonNeg (r : Resources) : Prop :=
  0 ≤ r.Metal ∧ 0 ≤ r.Crystal ∧ 0 ≤ r.Deuterium

instance Resources.decidableNonNeg (r : Resources) : Decidable r.NonNeg := by
  unfold Resources.NonNeg; infer_instance

/-- All three fields are below `2 ^ 53`: the conversion `float64(x)` of a field that
is not negative is exact. -/
def Resources.Exact (r : Resources) : Prop :=
  r.Metal < 2 ^ 53 ∧ r.Crystal < 2 ^ 53 ∧ r.Deuterium < 2 ^ 53

instance Resources.decidableExact (r : Resources) : Decidable r.Exact := by
  unfold Resources.Exact; infer_instance

/-- The affordable count in the words of the specification: floor-division per
resource, the minimum across the three, and a field of cost `0` unconstrained (it
takes the default `MaxInt32`). -/
def Resources.quota (r other : Resources) : Int :=
  let maxMetal : Int :=
    if other.Metal > 0 then Int.floor ((r.Metal : ℚ) / (other.Metal : ℚ)) else MaxInt32
  let maxCrystal : Int :=
    if other.Crystal > 0 then Int.floor ((r.Crystal : ℚ) / (other.Crystal : ℚ)) else MaxInt32
  let maxDeut : Int :=
    if other.Deuterium > 0 then Int.floor ((r.Deuterium : ℚ) / (other.Deuterium : ℚ))
    else MaxInt32
  min maxMetal [maxCrystal, maxDeut]

/-- The cost of `n` units: `n` times each field. -/
def Resources.scale (n : Int) (c : Resources) : Resources :=
  { Metal := n * c.Metal, Crystal := n * c.Crystal, Deuterium := n * c.Deuterium }

/-- The budget `r` after `n` units of cost `c` are paid for. -/
def Resources.minus (r : Resources) (n : Int) (c : Resources) : Resources :=
  { Metal := r.Metal - n * c.Metal
    Crystal := r.Crystal - n * c.Crystal
    Deuterium := r.Deuterium - n * c.Deuterium }

/-- Component-wise `≤`. -/
def Resources.Le (a b : Resources) : Prop :=
  a.Metal ≤ b.Metal ∧ a.Crystal ≤ b.Crystal ∧ a.Deuterium ≤ b.Deuterium

instance Resources.decidableLe (a b : Resources) : Decidable (a.Le b) := by
  unfold Resources.Le; infer_instance

/-- Some field of `a` is greater than the same field of `b`. -/
def Resources.Exceeds (a b : Resources) : Prop :=
  b.Metal < a.Metal ∨ b.Crystal < a.Crystal ∨ b.Deuterium < a.Deuterium

instance Resources.decidableExceeds (a b : Resources) : Decidable (a.Exceeds b) := by
  unfold Resources.Exceeds; infer_instance

/-- Some field of the cost `c` is positive and bounds the count below `2 ^ 31`, so
that `MaxAllocation` returns a quotient and not its `MaxInt32` default. -/
def Resources.Constrains (c r : Resources) : Prop :=
  (0 < c.Metal ∧ r.Metal < 2 ^ 31 * c.Metal) ∨
  (0 < c.Crystal ∧ r.Crystal < 2 ^ 31 * c.Crystal) ∨
  (0 < c.Deuterium ∧ r.Deuterium < 2 ^ 31 * c.Deuterium)

instance Resources.decidableConstrains (c r : Resources) : Decidable (c.Constrains r) := by
  unfold Resources.Constrains; infer_instance

/-- Sum of the catalog costs of the units of a list, one field at a time: `field` is
`Resources.Metal`, `Resources.Crystal` or `Resources.Deuterium`. -/
def costSum (field : Resources → Int) (units : List Unit) : Int :=
  (units.map (fun u => field (UnitCosts u.Typ))).sum

/-! ### Units -/

/-- What `RemoveDeadUnits` does to a unit it keeps. -/
def restoreShields (u : Unit) : Unit :=
  { u with Shields := shields u.Typ }

/-- The unit of type `t` as `MakeUnit` builds it, after the shot that destroys it. -/
def destroyed (t : UnitType) : Unit :=
  { MakeUnit t with Hull := 0, Shields := 0 }

/-- Every unit has hull and shield at least zero. -/
def HullShieldNonNeg (units : List Unit) : Prop :=
  ∀ u ∈ units, 0 ≤ u.Hull ∧ 0 ≤ u.Shields

/-- Every target index held by a unit of `acting` is an index into `under`. -/
def TargetsInRange (acting under : List Unit) : Prop :=
  ∀ u ∈ acting, ∀ t ∈ u.Targets, 0 ≤ t ∧ t < (under.length : Int)

/-- The unit `v` is the unit `u` with a new target list, which is not empty and holds
indices below `len` only. -/
def Retargeted (len : Nat) (u v : Unit) : Prop :=
  v = { u with Targets := v.Targets } ∧ v.Targets ≠ [] ∧
    ∀ t ∈ v.Targets, 0 ≤ t ∧ t < (len : Int)

/-! ### Random sources -/

/-- The draw `0`. -/
def Draw.zero : Draw := ⟨0, le_refl 0, by norm_num⟩

/-- The draw `0.95`. -/
def Draw.high : Draw := ⟨19 / 20, by norm_num, by norm_num⟩

/-- The source that returns the same draw `d` from every `rand.Float64()` and
`k % n` from every `rand.Intn(n)`. -/
def Rand.constant (d : Draw) (k : Nat) : Rand :=
  { floats := fun _ => d, ints := fun _ => k, fpos := 0, ipos := 0 }

/-- A source in which draws of at least `0.9` keep coming: after every position
there is a later `rand.Float64()` result that fails every rapid-fire roll. -/
def Rand.Fair (rng : Rand) : Prop :=
  ∀ i, ∃ j, i ≤ j ∧ 9 / 10 ≤ (rng.floats j).val

/-- The source `b` is the source `a` after some more calls: same results to come. -/
def Rand.Continues (a b : Rand) : Prop :=
  b.floats = a.floats ∧ b.ints = a.ints

/-! ### Runs and battles -/

/-- The run `run`, given enough fuel, returns `a`: from some amount of fuel on, every
amount gives the result `a`. -/
def Returns {α : Type} (run : Nat → Except Fault α) (a : α) : Prop :=
  ∃ enough, ∀ fuel, enough ≤ fuel → run fuel = .ok a

/-- The battle after `k` more rounds. -/
def Rounds (fuel : Nat) : Nat → Battle → Except Fault Battle
  | 0, b => .ok b
  | k + 1, b =>
    match Round fuel b with
    | .error e => .error e
    | .ok b1 => Rounds fuel k b1

/-- Some fleet of the battle is empty. -/
def Battle.Decided (b : Battle) : Prop :=
  b.attacker.Units = [] ∨ b.defender.Units = []

instance Battle.decidableDecided (b : Battle) : Decidable b.Decided := by
  unfold Battle.Decided; infer_instance

/-- The tag for a battle decided in the round with index `i`, in the words of the
specification: draw if both fleets are empty, loss if only the attacker is, win if
only the defender is. -/
def verdict (i : Nat) (b : Battle) : Outcome :=
  if b.attacker.Units = [] ∧ b.defender.Units = [] then Outcome.DrawBothLose i
  else if b.attacker.Units = [] then Outcome.Loss i
  else Outcome.Win i

/-! ### Target selection -/

/-- What `PickTargets` does to an acting unit `u` that faces the units `under`: `v` is
`u` retargeted, and `v` holds exactly one target when the type of `u` has no rapid
fire against the type of the last unit of `under`. -/
def Picked (under : List Unit) (u v : Unit) : Prop :=
  Retargeted under.length u v ∧
    ∀ last, under.getLast? = some last → rapidFire u.Typ last.Typ = 0 →
      v.Targets.length = 1

/-! ### Runs that may stop -/

/-- The run `r` meets `post` and `fault`: a value it returns satisfies `post`, and a
fault it stops with satisfies `fault`. -/
def Meets {α : Type} (r : Except Fault α) (post : α → Prop) (fault : Fault → Prop) : Prop :=
  match r with
  | .ok a => post a
  | .error e => fault e

/-- Wear of a unit from `u` to `v`: the hull did not grow, weapon power and type are
the same. -/
def Worn (u v : Unit) : Prop :=
  v.Hull ≤ u.Hull ∧ v.Weaponry = u.Weaponry ∧ v.Typ = u.Typ

/-- The battle `b1` is the battle `b` one round later: each fleet is some worn copy of
itself (`midA`, `midD`: the fleets before the cleanup), from which `RemoveDeadUnits`
took the units without hull. -/
def RoundStep (b b1 : Battle) : Prop :=
  ∃ midA midD : List Unit,
    List.Forall₂ Worn b.attacker.Units midA ∧ List.Forall₂ Worn b.defender.Units midD ∧
    b1.attacker = RemoveDeadUnits ⟨midA, b.attacker.Lost⟩ ∧
    b1.defender = RemoveDeadUnits ⟨midD, b.defender.Lost⟩ ∧
    b1.rounds = b.rounds + 1 ∧ b.rng.Continues b1.rng

/-! ### Budgets -/

/-- A store with budgets for one Battleship and one RocketLauncher. -/
def Store.duel : Store
  | Cell.AttackerResources => ⟨45000, 15000, 0⟩
  | Cell.DefenderResources => ⟨2000, 0, 0⟩
  | Cell.ares => ⟨0, 0, 0⟩
  | Cell.dres => ⟨0, 0, 0⟩

/-! ### Scores -/

/-- A sequence of `Swap` calls on a `Scores` value, such as `sort.Sort` makes: each
pair holds the arguments of one call. -/
def Scores.swaps (s : Scores) : List (Int × Int) → Except Fault Scores
  | [] => .ok s
  | p :: rest =>
    match s.Swap p.1 p.2 with
    | .error e => .error e
    | .ok s1 => s1.swaps rest

/-- The score `v` is the entry of `data` at the index `i`. -/
def ScoreOf (data : List Ratio) (v : Ratio) (i : Int) : Prop :=
  0 ≤ i ∧ data[i.toNat]? = some v

/-! ### Generations -/

/-- The draw `0.5`. -/
def Draw.half : Draw := ⟨1 / 2, by norm_num, by norm_num⟩

/-- A population of attackers: the genome `{1, 1, 1, 1}` at the indices `0 .. 79` and
the genome `{0, 0, 0, 1}` at the indices `80 .. 99`. -/
def reproduceAtk.population : List AttackerAlloc :=
  List.replicate 80 ⟨[1, 1, 1, 1], rfl⟩ ++ List.replicate 20 ⟨[0, 0, 0, 1], rfl⟩

/-- A ranking in ascending order, the scores `0, 1, .., 99`, in which position `k`
holds the genome of index `99 - k`: the twenty best are the genomes `19, .., 0`. -/
def reproduceAtk.ranking : Scores :=
  { Float64Slice := (List.range 100).map fun k => Ratio.finite (k : ℚ),
    idx := (List.range 100).map fun k => 99 - (k : Int) }

/-- The draw `0.2`, the `float64` nearest to `1 / 5`. -/
def Draw.fifth : Draw :=
  ⟨3602879701896397 / 18014398509481984, by norm_num, by norm_num⟩

/-- The crossover rule for one field, in the words of the specification: forced to
`0.001` or `0.999` in the mutation bands of the roll `mc`, and `p*l + (1-p)*r` with
`p = (u1+u2)/2` otherwise; `fl` rounds the result of each operation. -/
def crossover (fl : ℚ → ℚ) (l r mc u1 u2 : ℚ) : ℚ :=
  if mc < fl (1 / 1000) then fl (1 / 1000)
  else if mc > fl (999 / 1000) then fl (999 / 1000)
  else fl (fl (fl (fl (u1 + u2) / 2) * l) + fl (fl (1 - fl (fl (u1 + u2) / 2)) * r))

/-- What the range of a child needs of the rounding `fl` of the `float64` operations:
it keeps `0` and `1`, does not take `2` upwards, is monotone and idempotent on the
numbers that are not negative, and `x + fl (1 - x)` does not round above `1`. -/
structure Rounding (fl : ℚ → ℚ) : Prop where
  zero : fl 0 = 0
  one : fl 1 = 1
  two : fl 2 ≤ 2
  mono : ∀ x y, 0 ≤ x → x ≤ y → fl x ≤ fl y
  idem : ∀ x, 0 ≤ x → fl (fl x) = fl x
  blend : ∀ x, 0 ≤ x → x ≤ 1 → fl (x + fl (1 - x)) ≤ 1

/-! ### Score arrays -/

/-- The results of all the pairings, in the order of the tasks, when the battle of the
attacker `i` with the defender `j` returns `score i j`. -/
def step.results (score : Int → Int → Ratio) : List result :=
  step.tasks.map fun t => ⟨t.i, t.j, score t.i t.j⟩

/-- The sum `0 + v1 + v2 + ..` of `float64` values, added from left to right. -/
def Ratio.sum (fl : ℚ → ℚ) (vs : List Ratio) : Ratio :=
  vs.foldl (Ratio.add fl) (Ratio.finite 0)

/-- Battle results for the example: against the defenders `0`, `1` and `2` every
attacker scores `0.1`, `0.2` and `0.3`, the `float64` values nearest to these numbers,
and `0` against the other defenders. -/
def step.sample (_i j : Int) : Ratio :=
  if j = 0 then Ratio.finite (3602879701896397 / 36028797018963968)
  else if j = 1 then Ratio.finite (3602879701896397 / 18014398509481984)
  else if j = 2 then Ratio.finite (5404319552844595 / 18014398509481984)
  else Ratio.finite 0

/-! ## Theorems -/

/-! ### The rounding `fl64` -/

section Rounding

/-- A number closer than a half to the integer `m` rounds to `m`. -/
theorem roundEven_near (q : ℚ) (m : Int) (h1 : (m : ℚ) - 1 / 2 < q) (h2 : q < m + 1 / 2) :
    roundEven q = m := by
  unfold roundEven
  rcases le_or_lt (m : ℚ) q with h | h
  · have hf : Int.floor q = m := by
      rw [Int.floor_eq_iff]; constructor <;> linarith
    rw [hf, if_pos (by linarith)]
  · have hf : Int.floor q = m - 1 := by
      rw [Int.floor_eq_iff]; push_cast; constructor <;> linarith
    rw [hf, if_neg (by push_cast; linarith), if_pos (by push_cast; linarith)]
    ring

/-- A number half way between two integers rounds to the even one. -/
theorem roundEven_tie (q : ℚ) (n m : Int) (hq : q = n + 1 / 2)
    (hm : (m = n ∧ n % 2 = 0) ∨ (m = n + 1 ∧ n % 2 = 1)) : roundEven q = m := by
  unfold roundEven
  have hf : Int.floor q = n := by
    rw [Int.floor_eq_iff]; constructor <;> linarith
  rw [hf, if_neg (by linarith), if_neg (by linarith)]
  rcases hm with ⟨rfl, h⟩ | ⟨rfl, h⟩
  · rw [if_pos h]
  · rw [if_neg (by omega)]

theorem log_two_eq (q : ℚ) (k : Int) (hlo : (2 : ℚ) ^ k ≤ q) (hhi : q < (2 : ℚ) ^ (k + 1)) :
    Int.log 2 q = k := by
  have hq : 0 < q := lt_of_lt_of_le (by positivity) hlo
  have h1 : k ≤ Int.log 2 q := by
    rw [← Int.zpow_le_iff_le_log (by norm_num) hq]; exact_mod_cast hlo
  have h2 : Int.log 2 q < k + 1 := by
    rw [← Int.lt_zpow_iff_log_lt (by norm_num) hq]; exact_mod_cast hhi
  omega

/-- The `float64` nearest to a positive number of the binade `[2 ^ k, 2 ^ (k + 1))`. -/
theorem fl64_of_binade (q : ℚ) (k m : Int) (hlo : (2 : ℚ) ^ k ≤ q)
    (hhi : q < (2 : ℚ) ^ (k + 1)) (hm : roundEven (q / 2 ^ (k - 52)) = m) :
    fl64 q = (m : ℚ) * 2 ^ (k - 52) := by
  have hq : 0 < q := lt_of_lt_of_le (by positivity) hlo
  rw [fl64, if_pos hq, fl64.pos, log_two_eq q k hlo hhi, hm]

theorem fl64_zero : fl64 0 = 0 := by simp [fl64]

theorem fl64_one : fl64 1 = 1 := by
  rw [fl64_of_binade 1 0 (2 ^ 52) (by norm_num) (by norm_num)
    (roundEven_near _ _ (by norm_num) (by norm_num))]
  norm_num

theorem fl64_half : fl64 (1 / 2) = 1 / 2 := by
  rw [fl64_of_binade (1 / 2) (-1) (2 ^ 52) (by norm_num) (by norm_num)
    (roundEven_near _ _ (by norm_num) (by norm_num))]
  norm_num

/-- The constant `0.001` as a `float64`. -/
theorem fl64_thousandth : fl64 (1 / 1000) = 1152921504606847 / 1152921504606846976 := by
  rw [fl64_of_binade (1 / 1000) (-10) 4611686018427388 (by norm_num) (by norm_num)
    (roundEven_near _ _ (by norm_num) (by norm_num))]
  norm_num

/-- The constant `0.999` as a `float64`. -/
theorem fl64_999 : fl64 (999 / 1000) = 8998192055486251 / 9007199254740992 := by
  rw [fl64_of_binade (999 / 1000) (-1) 8998192055486251 (by norm_num) (by norm_num)
    (roundEven_near _ _ (by norm_num) (by norm_num))]
  norm_num

end Rounding

section RoundingSteps

/-- The `float64` nearest to a number of the binade `[2 ^ k, 2 ^ (k + 1))` that is not
half way between two of them. -/
theorem fl64_near (q : ℚ) (k m : Int) (v : ℚ) (hlo : (2 : ℚ) ^ k ≤ q)
    (hhi : q < (2 : ℚ) ^ (k + 1)) (h1 : (m : ℚ) - 1 / 2 < q / 2 ^ (k - 52))
    (h2 : q / 2 ^ (k - 52) < m + 1 / 2) (hv : (m : ℚ) * 2 ^ (k - 52) = v) : fl64 q = v := by
  rw [fl64_of_binade q k m hlo hhi (roundEven_near _ _ h1 h2), hv]

end RoundingSteps

section RoundingLaws

theorem roundEven_int (n : Int) : roundEven (n : ℚ) = n :=
  roundEven_near _ _ (by linarith) (by linarith)

theorem roundEven_floor (t : ℚ) : roundEven t = Int.floor t ∨ roundEven t = Int.floor t + 1 := by
  unfold roundEven
  split_ifs <;> simp

theorem roundEven_mono (t u : ℚ) (h : t ≤ u) : roundEven t ≤ roundEven u := by
  have hf : Int.floor t ≤ Int.floor u := Int.floor_le_floor h
  rcases lt_or_eq_of_le hf with hlt | heq
  · have h1 := roundEven_floor t
    have h2 := roundEven_floor u
    omega
  · unfold roundEven
    rw [← heq]
    split_ifs <;> first | omega | (exfalso; linarith)

theorem roundEven_le (t : ℚ) : (roundEven t : ℚ) ≤ t + 1 / 2 := by
  have h0 : (Int.floor t : ℚ) ≤ t := Int.floor_le t
  unfold roundEven
  split_ifs <;> push_cast <;> linarith

/-- The scaled significand of a positive number lies in `[2 ^ 52, 2 ^ 53)`. -/
theorem scaled_bounds (q : ℚ) (hq : 0 < q) :
    (2 : ℚ) ^ (52 : Int) ≤ q / 2 ^ (Int.log 2 q - 52) ∧
      q / 2 ^ (Int.log 2 q - 52) < (2 : ℚ) ^ (53 : Int) := by
  have h1 : (2 : ℚ) ^ Int.log 2 q ≤ q := by
    have := Int.zpow_log_le_self (by norm_num : 1 < 2) hq
    exact_mod_cast this
  have h2 : q < (2 : ℚ) ^ (Int.log 2 q + 1) := by
    have := Int.lt_zpow_succ_log_self (by norm_num : 1 < 2) q
    exact_mod_cast this
  have hs : (0 : ℚ) < 2 ^ (Int.log 2 q - 52) := by positivity
  constructor
  · rw [le_div_iff₀ hs, ← zpow_add₀ (by norm_num : (2 : ℚ) ≠ 0)]
    simpa using h1
  · rw [div_lt_iff₀ hs, ← zpow_add₀ (by norm_num : (2 : ℚ) ≠ 0)]
    have e : (53 : Int) + (Int.log 2 q - 52) = Int.log 2 q + 1 := by ring
    rw [e]; exact h2

/-- The significand of the nearest `float64` lies in `[2 ^ 52, 2 ^ 53]`. -/
theorem significand_bounds (q : ℚ) (hq : 0 < q) :
    (2 : Int) ^ 52 ≤ roundEven (q / 2 ^ (Int.log 2 q - 52)) ∧
      roundEven (q / 2 ^ (Int.log 2 q - 52)) ≤ (2 : Int) ^ 53 := by
  obtain ⟨h1, h2⟩ := scaled_bounds q hq
  constructor
  · have := roundEven_mono _ _ (show (((2 : Int) ^ 52 : Int) : ℚ) ≤ _ by
      push_cast; exact_mod_cast h1)
    rwa [roundEven_int] at this
  · have := roundEven_mono _ _ (show _ ≤ (((2 : Int) ^ 53 : Int) : ℚ) by
      push_cast; exact_mod_cast h2.le)
    rwa [roundEven_int] at this

theorem fl64_pos_eq (q : ℚ) (hq : 0 < q) :
    fl64 q = (roundEven (q / 2 ^ (Int.log 2 q - 52)) : ℚ) * 2 ^ (Int.log 2 q - 52) := by
  rw [fl64, if_pos hq, fl64.pos]

/-- The nearest `float64` of a positive number stays in the closed binade. -/
theorem fl64_binade (q : ℚ) (hq : 0 < q) :
    (2 : ℚ) ^ Int.log 2 q ≤ fl64 q ∧ fl64 q ≤ (2 : ℚ) ^ (Int.log 2 q + 1) := by
  obtain ⟨h1, h2⟩ := significand_bounds q hq
  have hs : (0 : ℚ) < 2 ^ (Int.log 2 q - 52) := by positivity
  have e1 : (2 : ℚ) ^ Int.log 2 q = (2 : ℚ) ^ (52 : Int) * 2 ^ (Int.log 2 q - 52) := by
    rw [← zpow_add₀ (by norm_num : (2 : ℚ) ≠ 0)]; congr 1; ring
  have e2 : (2 : ℚ) ^ (Int.log 2 q + 1) = (2 : ℚ) ^ (53 : Int) * 2 ^ (Int.log 2 q - 52) := by
    rw [← zpow_add₀ (by norm_num : (2 : ℚ) ≠ 0)]; congr 1; ring
  rw [fl64_pos_eq q hq, e1, e2]
  constructor
  · apply mul_le_mul_of_nonneg_right _ hs.le
    exact_mod_cast h1
  · apply mul_le_mul_of_nonneg_right _ hs.le
    exact_mod_cast h2

theorem fl64_nonneg (q : ℚ) (hq : 0 ≤ q) : 0 ≤ fl64 q := by
  rcases eq_or_lt_of_le hq with h | h
  · rw [← h, fl64_zero]
  · exact le_trans (by positivity) (fl64_binade q h).1

/-- Rounding to `float64` is monotone on the numbers that are not negative. -/
theorem fl64_mono (x y : ℚ) (hx : 0 ≤ x) (hxy : x ≤ y) : fl64 x ≤ fl64 y := by
  rcases eq_or_lt_of_le hx with h | hx0
  · rw [← h, fl64_zero]; exact fl64_nonneg y (le_trans hx hxy)
  · have hy0 : 0 < y := lt_of_lt_of_le hx0 hxy
    have hlog : Int.log 2 x ≤ Int.log 2 y := Int.log_mono_right hx0 hxy
    rcases lt_or_eq_of_le hlog with hlt | heq
    · refine le_trans (fl64_binade x hx0).2 (le_trans ?_ (fl64_binade y hy0).1)
      exact zpow_le_zpow_right₀ (by norm_num) (by omega)
    · rw [fl64_pos_eq x hx0, fl64_pos_eq y hy0, heq]
      have hs : (0 : ℚ) < 2 ^ (Int.log 2 y - 52) := by positivity
      apply mul_le_mul_of_nonneg_right _ hs.le
      have : x / 2 ^ (Int.log 2 y - 52) ≤ y / 2 ^ (Int.log 2 y - 52) :=
        div_le_div_of_nonneg_right hxy hs.le
      exact_mod_cast roundEven_mono _ _ this

/-- Rounding to `float64` moves a positive number up by at most half a unit of its
binade. -/
theorem fl64_le_add (q : ℚ) (hq : 0 < q) : fl64 q ≤ q + 2 ^ (Int.log 2 q - 53) := by
  have hs : (0 : ℚ) < 2 ^ (Int.log 2 q - 52) := by positivity
  have e : (2 : ℚ) ^ (Int.log 2 q - 53) = 1 / 2 * 2 ^ (Int.log 2 q - 52) := by
    have : Int.log 2 q - 53 = (-1) + (Int.log 2 q - 52) := by ring
    rw [this, zpow_add₀ (by norm_num : (2 : ℚ) ≠ 0)]; norm_num
  have ht : q / 2 ^ (Int.log 2 q - 52) * 2 ^ (Int.log 2 q - 52) = q :=
    div_mul_cancel₀ q hs.ne'
  calc fl64 q
      = (roundEven (q / 2 ^ (Int.log 2 q - 52)) : ℚ) * 2 ^ (Int.log 2 q - 52) :=
        fl64_pos_eq q hq
    _ ≤ (q / 2 ^ (Int.log 2 q - 52) + 1 / 2) * 2 ^ (Int.log 2 q - 52) :=
        mul_le_mul_of_nonneg_right (roundEven_le _) hs.le
    _ = q + 2 ^ (Int.log 2 q - 53) := by rw [add_mul, ht, e]

/-- A `float64` rounds to itself. -/
theorem fl64_idem (q : ℚ) (hq : 0 ≤ q) : fl64 (fl64 q) = fl64 q := by
  rcases eq_or_lt_of_le hq with h | hq0
  · rw [← h, fl64_zero, fl64_zero]
  · obtain ⟨h1, h2⟩ := significand_bounds q hq0
    have hs : (0 : ℚ) < 2 ^ (Int.log 2 q - 52) := by positivity
    have e1 : (2 : ℚ) ^ Int.log 2 q = (2 : ℚ) ^ (52 : Int) * 2 ^ (Int.log 2 q - 52) := by
      rw [← zpow_add₀ (by norm_num : (2 : ℚ) ≠ 0)]; congr 1; ring
    have e2 : (2 : ℚ) ^ (Int.log 2 q + 1) = (2 : ℚ) ^ (53 : Int) * 2 ^ (Int.log 2 q - 52) := by
      rw [← zpow_add₀ (by norm_num : (2 : ℚ) ≠ 0)]; congr 1; ring
    rw [fl64_pos_eq q hq0]
    set m := roundEven (q / 2 ^ (Int.log 2 q - 52)) with hm
    set s : ℚ := 2 ^ (Int.log 2 q - 52) with hsdef
    rcases lt_or_eq_of_le h2 with hlt | heq
    · apply fl64_of_binade _ (Int.log 2 q) m
      · rw [e1]; apply mul_le_mul_of_nonneg_right _ hs.le; exact_mod_cast h1
      · rw [e2]; apply mul_lt_mul_of_pos_right _ hs; exact_mod_cast hlt
      · rw [mul_div_assoc, div_self hs.ne', mul_one, roundEven_int]
    · have hv : (m : ℚ) * s = 2 ^ (Int.log 2 q + 1) := by
        rw [e2, heq]; norm_num
      rw [hv]
      rw [fl64_of_binade _ (Int.log 2 q + 1) (2 ^ 52) (le_refl _)
        (zpow_lt_zpow_right₀ (by norm_num) (by omega))]
      · have h52 : (((2 : Int) ^ 52 : Int) : ℚ) = (2 : ℚ) ^ (52 : Int) := by norm_num
        rw [h52, ← zpow_add₀ (by norm_num : (2 : ℚ) ≠ 0)]
        congr 1; ring
      · rw [← zpow_sub₀ (by norm_num : (2 : ℚ) ≠ 0)]
        have : Int.log 2 q + 1 - (Int.log 2 q + 1 - 52) = 52 := by ring
        rw [this]
        exact roundEven_int (2 ^ 52) ▸ (by norm_num)

end RoundingLaws

section Contract

theorem fl64_two : fl64 2 = 2 :=
  fl64_near _ 1 (2 ^ 52) _ (by norm_num) (by norm_num) (by norm_num) (by norm_num) (by norm_num)

/-- In `float64` arithmetic `x + (1 - x)` does not come out above `1`. -/
theorem fl64_blend (x : ℚ) (h0 : 0 ≤ x) (h1 : x ≤ 1) : fl64 (x + fl64 (1 - x)) ≤ 1 := by
  rcases eq_or_lt_of_le h0 with h | hx
  · rw [← h]; norm_num [fl64_one]
  · rcases eq_or_lt_of_le h1 with h | hx1
    · rw [h]; norm_num [fl64_zero, fl64_one]
    · have hy : 0 < 1 - x := by linarith
      have hlog : Int.log 2 (1 - x) < 0 := by
        rw [← Int.lt_zpow_iff_log_lt (by norm_num) hy]
        norm_num; linarith
      have herr : fl64 (1 - x) ≤ 1 - x + 2 ^ (-54 : Int) := by
        refine le_trans (fl64_le_add _ hy) ?_
        have : (2 : ℚ) ^ (Int.log 2 (1 - x) - 53) ≤ 2 ^ (-54 : Int) :=
          zpow_le_zpow_right₀ (by norm_num) (by omega)
        linarith
      have htop : fl64 (1 + 2 ^ (-54 : Int)) = 1 :=
        fl64_near _ 0 (2 ^ 52) _ (by norm_num) (by norm_num) (by norm_num) (by norm_num)
          (by norm_num)
      exact le_trans (fl64_mono _ (1 + 2 ^ (-54 : Int)) (add_nonneg h0 (fl64_nonneg _ hy.le))
        (by linarith)) (le_of_eq htop)

/-- The rounding of IEEE 754 meets the contract. -/
theorem Rounding_fl64 : Rounding fl64 :=
  { zero := fl64_zero
    one := fl64_one
    two := le_of_eq fl64_two
    mono := fl64_mono
    idem := fl64_idem
    blend := fl64_blend }

/-- Exact arithmetic meets the contract. -/
theorem Rounding_id : Rounding id :=
  { zero := rfl
    one := rfl
    two := le_refl _
    mono := fun _ _ _ h => h
    idem := fun _ _ => rfl
    blend := fun x _ _ => by simp }

theorem Rounding.nonneg {fl : ℚ → ℚ} (hfl : Rounding fl) (x : ℚ) (hx : 0 ≤ x) : 0 ≤ fl x := by
  have := hfl.mono 0 x (le_refl 0) hx
  rwa [hfl.zero] at this

theorem Rounding.le_one {fl : ℚ → ℚ} (hfl : Rounding fl) (x : ℚ) (h0 : 0 ≤ x) (h1 : x ≤ 1) :
    fl x ≤ 1 := by
  have := hfl.mono x 1 h0 h1
  rwa [hfl.one] at this

/-- Under a rounding that meets the contract the crossover rule keeps a field in
`[0, 1]`, for parents in `[0, 1]` and blend draws in `[0, 1)`. -/
theorem crossover_range {fl : ℚ → ℚ} (hfl : Rounding fl) (l r mc u1 u2 : ℚ)
    (hl : 0 ≤ l ∧ l ≤ 1) (hr : 0 ≤ r ∧ r ≤ 1) (hu1 : 0 ≤ u1 ∧ u1 < 1) (hu2 : 0 ≤ u2 ∧ u2 < 1) :
    0 ≤ crossover fl l r mc u1 u2 ∧ crossover fl l r mc u1 u2 ≤ 1 := by
  unfold crossover
  split_ifs
  · exact ⟨hfl.nonneg _ (by norm_num), hfl.le_one _ (by norm_num) (by norm_num)⟩
  · exact ⟨hfl.nonneg _ (by norm_num), hfl.le_one _ (by norm_num) (by norm_num)⟩
  · have hs0 : 0 ≤ fl (u1 + u2) := hfl.nonneg _ (by linarith)
    have hs2 : fl (u1 + u2) ≤ 2 :=
      le_trans (hfl.mono _ 2 (by linarith) (by linarith)) hfl.two
    have hp0 : 0 ≤ fl (fl (u1 + u2) / 2) := hfl.nonneg _ (by linarith)
    have hp1 : fl (fl (u1 + u2) / 2) ≤ 1 := hfl.le_one _ (by linarith) (by linarith)
    have hpp : fl (fl (fl (u1 + u2) / 2)) = fl (fl (u1 + u2) / 2) := hfl.idem _ (by linarith)
    set p := fl (fl (u1 + u2) / 2) with hp
    have ha0 : 0 ≤ fl (p * l) := hfl.nonneg _ (mul_nonneg hp0 hl.1)
    have ha1 : fl (p * l) ≤ p := by
      have := hfl.mono (p * l) p (mul_nonneg hp0 hl.1) (by nlinarith)
      rwa [hpp] at this
    have hb0 : 0 ≤ fl (1 - p) := hfl.nonneg _ (by linarith)
    have hc0 : 0 ≤ fl (fl (1 - p) * r) := hfl.nonneg _ (mul_nonneg hb0 hr.1)
    have hc1 : fl (fl (1 - p) * r) ≤ fl (1 - p) := by
      have := hfl.mono (fl (1 - p) * r) (fl (1 - p)) (mul_nonneg hb0 hr.1) (by nlinarith)
      rwa [hfl.idem _ (by linarith)] at this
    exact ⟨hfl.nonneg _ (by linarith),
      le_trans (hfl.mono _ (p + fl (1 - p)) (by linarith) (by linarith)) (hfl.blend p hp0 hp1)⟩

/-- In exact arithmetic a field that does not mutate lies between the parents' fields. -/
theorem crossover_between (l r mc u1 u2 : ℚ) (hlo : 1 / 1000 ≤ mc) (hhi : mc ≤ 999 / 1000)
    (hu1 : 0 ≤ u1 ∧ u1 < 1) (hu2 : 0 ≤ u2 ∧ u2 < 1) :
    Min.min l r ≤ crossover id l r mc u1 u2 ∧ crossover id l r mc u1 u2 ≤ Max.max l r := by
  have e : crossover id l r mc u1 u2 = (u1 + u2) / 2 * l + (1 - (u1 + u2) / 2) * r := by
    simp only [crossover, id, if_neg (not_lt.mpr hlo), if_neg (not_lt.mpr hhi)]
  have hp0 : 0 ≤ (u1 + u2) / 2 := by linarith
  have hp1 : (u1 + u2) / 2 ≤ 1 := by linarith
  rw [e]
  rcases le_total l r with h | h
  · rw [min_eq_left h, max_eq_right h]
    constructor <;> nlinarith
  · rw [min_eq_right h, max_eq_left h]
    constructor <;> nlinarith

end Contract

/-! ### Facts about `min`, the floor of a quotient and `MaxAllocation` -/

section ResourcesFacts

theorem min_three_le (a b c : Int) :
    min a [b, c] ≤ a ∧ min a [b, c] ≤ b ∧ min a [b, c] ≤ c := by
  simp only [min, List.foldl]
  split_ifs <;> omega

theorem min_three_mem (a b c : Int) :
    min a [b, c] = a ∨ min a [b, c] = b ∨ min a [b, c] = c := by
  simp only [min, List.foldl]
  split_ifs <;> simp

theorem floor_div_eq (r c : Int) (hc : 0 < c) : Int.floor ((r : ℚ) / (c : ℚ)) = r / c := by
  obtain ⟨n, rfl⟩ := Int.eq_ofNat_of_zero_le hc.le
  exact_mod_cast Rat.floor_intCast_div_natCast r n

theorem floor_div_mul_le (r c : Int) (hc : 0 < c) :
    Int.floor ((r : ℚ) / (c : ℚ)) * c ≤ r := by
  rw [floor_div_eq r c hc]
  exact Int.ediv_mul_le r (ne_of_gt hc)

theorem lt_floor_div_succ_mul (r c : Int) (hc : 0 < c) :
    r < (Int.floor ((r : ℚ) / (c : ℚ)) + 1) * c := by
  rw [floor_div_eq r c hc]
  exact Int.lt_ediv_add_one_mul_self r hc

/-- A count that is at most the candidate of a field fits into that field. -/
theorem count_fits (r c n : Int) (hr : 0 ≤ r) (hc : 0 ≤ c)
    (hn : n ≤ (if c > 0 then Int.floor ((r : ℚ) / (c : ℚ)) else MaxInt32)) :
    n * c ≤ r := by
  rcases hc.lt_or_eq with hpos | hzero
  · rw [if_pos hpos] at hn
    calc n * c ≤ Int.floor ((r : ℚ) / (c : ℚ)) * c := Int.mul_le_mul_of_nonneg_right hn hc
      _ ≤ r := floor_div_mul_le r c hpos
  · rw [← hzero]; simpa using hr

/-- One more than a count that reaches the quotient of a field overshoots the field. -/
theorem count_succ_overshoots (r c n : Int) (hc : 0 < c)
    (hn : Int.floor ((r : ℚ) / (c : ℚ)) ≤ n) : r < (n + 1) * c := by
  calc r < (Int.floor ((r : ℚ) / (c : ℚ)) + 1) * c := lt_floor_div_succ_mul r c hc
    _ ≤ (n + 1) * c := Int.mul_le_mul_of_nonneg_right (by omega) hc.le

theorem floor_div_le_cap (r c : Int) (hc : 0 < c) (h : r < 2 ^ 31 * c) :
    Int.floor ((r : ℚ) / (c : ℚ)) ≤ MaxInt32 := by
  have h1 := floor_div_mul_le r c hc
  have h2 : Int.floor ((r : ℚ) / (c : ℚ)) * c < 2 ^ 31 * c := lt_of_le_of_lt h1 h
  have h3 : Int.floor ((r : ℚ) / (c : ℚ)) < 2 ^ 31 := lt_of_mul_lt_mul_right h2 hc.le
  simp only [MaxInt32]
  omega

end ResourcesFacts

section Conversions

/-- An `int` from `0` to `2 ^ 53` converts to `float64` exactly. -/
theorem fl64_int (n : Int) (h0 : 0 ≤ n) (h : n < 2 ^ 53) : fl64 (n : ℚ) = n := by
  rcases eq_or_lt_of_le h0 with hz | hpos
  · rw [← hz]; simpa using fl64_zero
  · have hq : (0 : ℚ) < (n : ℚ) := by exact_mod_cast hpos
    have hlog : Int.log 2 (n : ℚ) < 53 := by
      rw [← Int.lt_zpow_iff_log_lt (by norm_num) hq]
      have : (n : ℚ) < ((2 ^ 53 : Int) : ℚ) := by exact_mod_cast h
      norm_num at this ⊢
      exact this
    obtain ⟨k, hk⟩ : ∃ k : Nat, (52 : Int) - Int.log 2 (n : ℚ) = k :=
      ⟨(52 - Int.log 2 (n : ℚ)).toNat, by omega⟩
    have hs : (2 : ℚ) ^ (Int.log 2 (n : ℚ) - 52) = ((2 : ℚ) ^ k)⁻¹ := by
      have : Int.log 2 (n : ℚ) - 52 = -(k : Int) := by omega
      rw [this, zpow_neg, zpow_natCast]
    have hp : (0 : ℚ) < (2 : ℚ) ^ k := by positivity
    rw [fl64_pos_eq _ hq, hs, div_inv_eq_mul]
    have hcast : (n : ℚ) * 2 ^ k = ((n * 2 ^ k : Int) : ℚ) := by push_cast; ring
    rw [hcast, roundEven_int, ← hcast, mul_assoc, mul_inv_cancel₀ hp.ne', mul_one]

/-- The floor of the `float64` quotient of two `int`s is the floor of their exact
quotient, as long as the dividend converts exactly. -/
theorem floor_fl64_div (a b : Int) (ha0 : 0 ≤ a) (ha : a < 2 ^ 53) (hb : 0 < b) :
    Int.floor (fl64 ((a : ℚ) / (b : ℚ))) = Int.floor ((a : ℚ) / (b : ℚ)) := by
  rcases eq_or_lt_of_le ha0 with hz | hpos
  · rw [← hz]; simp [fl64_zero]
  · have hbq : (0 : ℚ) < (b : ℚ) := by exact_mod_cast hb
    have haq : (0 : ℚ) < (a : ℚ) := by exact_mod_cast hpos
    have hq : (0 : ℚ) < (a : ℚ) / (b : ℚ) := div_pos haq hbq
    set q : ℚ := (a : ℚ) / (b : ℚ) with hqdef
    have hn0 : 0 ≤ Int.floor q := Int.floor_nonneg.mpr hq.le
    have hnq : (Int.floor q : ℚ) ≤ q := Int.floor_le q
    have hqa : q ≤ (a : ℚ) := by
      rw [hqdef, div_le_iff₀ hbq]
      have : (1 : ℚ) ≤ (b : ℚ) := by exact_mod_cast hb
      nlinarith
    have hna : Int.floor q < 2 ^ 53 := by
      have : (Int.floor q : ℚ) < ((2 ^ 53 : Int) : ℚ) :=
        lt_of_le_of_lt (le_trans hnq hqa) (by exact_mod_cast ha)
      exact_mod_cast this
    -- from below: the floor is a `float64`, and the rounding is monotone
    have hlow : (Int.floor q : ℚ) ≤ fl64 q := by
      have := fl64_mono (Int.floor q : ℚ) q (by exact_mod_cast hn0) hnq
      rwa [fl64_int _ hn0 hna] at this
    -- from above: the quotient stays `1 / b` below the next integer
    have hnext : (a : ℚ) + 1 ≤ ((Int.floor q : ℚ) + 1) * (b : ℚ) := by
      have h2 : a + 1 ≤ (Int.floor q + 1) * b :=
        Int.add_one_le_iff.mpr (lt_floor_div_succ_mul a b hb)
      have h3 : ((a + 1 : Int) : ℚ) ≤ (((Int.floor q + 1) * b : Int) : ℚ) := Int.cast_le.mpr h2
      push_cast at h3
      exact h3
    have hpow : (2 : ℚ) ^ (Int.log 2 q - 53) * (b : ℚ) < 1 := by
      have h1 : (2 : ℚ) ^ Int.log 2 q ≤ q := by
        have := Int.zpow_log_le_self (by norm_num : 1 < 2) hq
        exact_mod_cast this
      have h2 : (2 : ℚ) ^ Int.log 2 q * (b : ℚ) ≤ (a : ℚ) := by
        have := mul_le_mul_of_nonneg_right h1 hbq.le
        rwa [hqdef, div_mul_cancel₀ _ hbq.ne'] at this
      have h3 : (a : ℚ) < (2 : ℚ) ^ (53 : Int) := by
        have : (a : ℚ) < ((2 ^ 53 : Int) : ℚ) := by exact_mod_cast ha
        norm_num at this ⊢
        exact this
      have e : (2 : ℚ) ^ (Int.log 2 q - 53) = (2 : ℚ) ^ Int.log 2 q / (2 : ℚ) ^ (53 : Int) := by
        rw [zpow_sub₀ (by norm_num : (2 : ℚ) ≠ 0)]
      rw [e, div_mul_eq_mul_div, div_lt_one (by positivity)]
      exact lt_of_le_of_lt h2 h3
    have hup : fl64 q < (Int.floor q : ℚ) + 1 := by
      have h1 := fl64_le_add q hq
      have h2 : q * (b : ℚ) = (a : ℚ) := by rw [hqdef, div_mul_cancel₀ _ hbq.ne']
      have h3 : (q + (2 : ℚ) ^ (Int.log 2 q - 53)) * (b : ℚ) < ((Int.floor q : ℚ) + 1) * (b : ℚ) := by
        rw [add_mul, h2]; linarith
      have h4 := lt_of_mul_lt_mul_right h3 hbq.le
      linarith
    rw [Int.floor_eq_iff]
    exact ⟨hlow, hup⟩

/-- The candidate of one field, for a budget and a cost that convert exactly. -/
theorem candidate_eq (r c : Int) (hr0 : 0 ≤ r) (hr : r < 2 ^ 53) (hc0 : 0 < c)
    (hc : c < 2 ^ 53) :
    Int.floor (fl64 (fl64 (r : ℚ) / fl64 (c : ℚ))) = Int.floor ((r : ℚ) / (c : ℚ)) := by
  rw [fl64_int r hr0 hr, fl64_int c hc0.le hc, floor_fl64_div r c hr0 hr hc0]

/-- For a budget and a cost with fields from `0` to `2 ^ 53`, `MaxAllocation` is the
count of the specification. -/
theorem MaxAllocation_eq_quota (R C : Resources) (hR : R.NonNeg) (hRx : R.Exact)
    (hCx : C.Exact) : R.MaxAllocation C = R.quota C := by
  obtain ⟨hRm, hRc, hRd⟩ := hR
  obtain ⟨hRm1, hRc1, hRd1⟩ := hRx
  obtain ⟨hCm1, hCc1, hCd1⟩ := hCx
  have e : ∀ r c : Int, 0 ≤ r → r < 2 ^ 53 → c < 2 ^ 53 →
      (if c > 0 then Int.floor (fl64 (fl64 (r : ℚ) / fl64 (c : ℚ))) else MaxInt32)
        = (if c > 0 then Int.floor ((r : ℚ) / (c : ℚ)) else MaxInt32) := by
    intro r c h0 h1 h2
    split_ifs with h
    · exact candidate_eq r c h0 h1 h h2
    · rfl
  simp only [Resources.MaxAllocation, Resources.quota, e _ _ hRm hRm1 hCm1,
    e _ _ hRc hRc1 hCc1, e _ _ hRd hRd1 hCd1]

end Conversions

section C1

/-- C1 (as amended): for a bundle `R` and a cost `C` with fields from `0` to `2 ^ 53`
(every field converts to `float64` exactly), where some positive field of `C` keeps the
count below `2 ^ 31`, the count `n = R.MaxAllocation C` satisfies `n * C ≤ R` in every
field and `(n + 1) * C` exceeds `R` in some field. -/
theorem MaxAllocation_boundary (R C : Resources)
    (hR : R.NonNeg) (hC : C.NonNeg) (hRx : R.Exact) (hCx : C.Exact)
    (hcap : C.Constrains R) :
    (Resources.scale (R.MaxAllocation C) C).Le R ∧
      (Resources.scale (R.MaxAllocation C + 1) C).Exceeds R := by
  rw [MaxAllocation_eq_quota R C hR hRx hCx]
  obtain ⟨hRm, hRc, hRd⟩ := hR
  obtain ⟨hCm, hCc, hCd⟩ := hC
  have hle := min_three_le
    (if C.Metal > 0 then Int.floor ((R.Metal : ℚ) / (C.Metal : ℚ)) else MaxInt32)
    (if C.Crystal > 0 then Int.floor ((R.Crystal : ℚ) / (C.Crystal : ℚ)) else MaxInt32)
    (if C.Deuterium > 0 then Int.floor ((R.Deuterium : ℚ) / (C.Deuterium : ℚ)) else MaxInt32)
  have hmem := min_three_mem
    (if C.Metal > 0 then Int.floor ((R.Metal : ℚ) / (C.Metal : ℚ)) else MaxInt32)
    (if C.Crystal > 0 then Int.floor ((R.Crystal : ℚ) / (C.Crystal : ℚ)) else MaxInt32)
    (if C.Deuterium > 0 then Int.floor ((R.Deuterium : ℚ) / (C.Deuterium : ℚ)) else MaxInt32)
  change R.quota C ≤ _ ∧ R.quota C ≤ _ ∧ R.quota C ≤ _ at hle
  change R.quota C = _ ∨ R.quota C = _ ∨ R.quota C = _ at hmem
  generalize R.quota C = n at hle hmem ⊢
  obtain ⟨hm, hc, hd⟩ := hle
  refine ⟨⟨count_fits _ _ n hRm hCm hm, count_fits _ _ n hRc hCc hc,
    count_fits _ _ n hRd hCd hd⟩, ?_⟩
  -- the count reaches the quotient of some positive field
  have key : (0 < C.Metal ∧ Int.floor ((R.Metal : ℚ) / (C.Metal : ℚ)) ≤ n) ∨
      (0 < C.Crystal ∧ Int.floor ((R.Crystal : ℚ) / (C.Crystal : ℚ)) ≤ n) ∨
      (0 < C.Deuterium ∧ Int.floor ((R.Deuterium : ℚ) / (C.Deuterium : ℚ)) ≤ n) := by
    have hbig : MaxInt32 ≤ n →
        (0 < C.Metal ∧ Int.floor ((R.Metal : ℚ) / (C.Metal : ℚ)) ≤ n) ∨
        (0 < C.Crystal ∧ Int.floor ((R.Crystal : ℚ) / (C.Crystal : ℚ)) ≤ n) ∨
        (0 < C.Deuterium ∧ Int.floor ((R.Deuterium : ℚ) / (C.Deuterium : ℚ)) ≤ n) := by
      intro hn
      rcases hcap with ⟨h0, h1⟩ | ⟨h0, h1⟩ | ⟨h0, h1⟩
      · exact Or.inl ⟨h0, le_trans (floor_div_le_cap _ _ h0 h1) hn⟩
      · exact Or.inr (Or.inl ⟨h0, le_trans (floor_div_le_cap _ _ h0 h1) hn⟩)
      · exact Or.inr (Or.inr ⟨h0, le_trans (floor_div_le_cap _ _ h0 h1) hn⟩)
    rcases hmem with h | h | h
    · by_cases h0 : C.Metal > 0
      · rw [if_pos h0] at h; exact Or.inl ⟨h0, h.ge⟩
      · rw [if_neg h0] at h; exact hbig h.ge
    · by_cases h0 : C.Crystal > 0
      · rw [if_pos h0] at h; exact Or.inr (Or.inl ⟨h0, h.ge⟩)
      · rw [if_neg h0] at h; exact hbig h.ge
    · by_cases h0 : C.Deuterium > 0
      · rw [if_pos h0] at h; exact Or.inr (Or.inr ⟨h0, h.ge⟩)
      · rw [if_neg h0] at h; exact hbig h.ge
  rcases key with ⟨h0, h1⟩ | ⟨h0, h1⟩ | ⟨h0, h1⟩
  · exact Or.inl (count_succ_overshoots _ _ n h0 h1)
  · exact Or.inr (Or.inl (count_succ_overshoots _ _ n h0 h1))
  · exact Or.inr (Or.inr (count_succ_overshoots _ _ n h0 h1))

/-- C1, witness: the attacker budget of the source against the cost of a Battleship. -/
theorem MaxAllocation_boundary_witness :
    (Resources.scale
        ((⟨22449840, 14911680, 8420160⟩ : Resources).MaxAllocation (UnitCosts Battleship))
        (UnitCosts Battleship)).Le ⟨22449840, 14911680, 8420160⟩ ∧
      (Resources.scale
        ((⟨22449840, 14911680, 8420160⟩ : Resources).MaxAllocation (UnitCosts Battleship) + 1)
        (UnitCosts Battleship)).Exceeds ⟨22449840, 14911680, 8420160⟩ :=
  MaxAllocation_boundary ⟨22449840, 14911680, 8420160⟩ (UnitCosts Battleship)
    (by simp [Resources.NonNeg]) (by simp [Resources.NonNeg, UnitCosts])
    (by norm_num [Resources.Exact]) (by norm_num [Resources.Exact, UnitCosts])
    (by simp [Resources.Constrains, UnitCosts])

/-- C1, counterexample: two inputs with fields `≥ 0` at which the claim fails.  With
the all-zero cost the count is `MaxInt32` and the cost of one more unit exceeds the
bundle in no field.  With `2 ^ 54 - 1` metal and the cost `{2 ^ 24, 0, 0}` the
conversion `float64(r.Metal)` rounds up to `2 ^ 54`, the count is `2 ^ 30`, and
`2 ^ 30` units cost `2 ^ 54` metal, more than the bundle holds. -/
theorem MaxAllocation_boundary_counterexample :
    ((⟨0, 0, 0⟩ : Resources).NonNeg ∧
      (⟨22449840, 14911680, 8420160⟩ : Resources).MaxAllocation ⟨0, 0, 0⟩ = 2147483647 ∧
      ¬ (Resources.scale
          ((⟨22449840, 14911680, 8420160⟩ : Resources).MaxAllocation ⟨0, 0, 0⟩ + 1)
          ⟨0, 0, 0⟩).Exceeds ⟨22449840, 14911680, 8420160⟩) ∧
    ((⟨18014398509481983, 0, 0⟩ : Resources).NonNeg ∧
      (⟨16777216, 0, 0⟩ : Resources).NonNeg ∧
      (⟨16777216, 0, 0⟩ : Resources).Constrains ⟨18014398509481983, 0, 0⟩ ∧
      (⟨18014398509481983, 0, 0⟩ : Resources).MaxAllocation ⟨16777216, 0, 0⟩ = 1073741824 ∧
      ¬ (Resources.scale 1073741824 ⟨16777216, 0, 0⟩).Le ⟨18014398509481983, 0, 0⟩) := by
  have h1 : fl64 (18014398509481983) = 18014398509481984 := by
    rw [fl64_of_binade _ 53 9007199254740992 (by norm_num) (by norm_num)
      (roundEven_tie _ 9007199254740991 9007199254740992 (by norm_num) (Or.inr ⟨rfl, by decide⟩))]
    norm_num
  have h2 : fl64 (16777216) = 16777216 :=
    fl64_near _ 24 4503599627370496 _ (by norm_num) (by norm_num) (by norm_num) (by norm_num)
      (by norm_num)
  have h3 : fl64 (18014398509481984 / 16777216) = 1073741824 :=
    fl64_near _ 30 4503599627370496 _ (by norm_num) (by norm_num) (by norm_num) (by norm_num)
      (by norm_num)
  refine ⟨?_, by simp [Resources.NonNeg], by simp [Resources.NonNeg],
    by norm_num [Resources.Constrains], ?_, by norm_num [Resources.scale, Resources.Le]⟩
  · simp [Resources.NonNeg, Resources.MaxAllocation, min, MaxInt32, Resources.scale,
      Resources.Exceeds]
  · simp only [Resources.MaxAllocation, Int.cast_ofNat, h1, h2, h3]
    norm_num [min, MaxInt32, Int.floor_eq_iff]

/-- The default also wins over a quotient above it: with cost `{1, 0, 0}` and
`2 ^ 32` metal the count is `MaxInt32` and one more unit is still affordable. -/
theorem MaxAllocation_capped :
    (⟨4294967296, 0, 0⟩ : Resources).MaxAllocation ⟨1, 0, 0⟩ = 2147483647 ∧
      ¬ (Resources.scale ((⟨4294967296, 0, 0⟩ : Resources).MaxAllocation ⟨1, 0, 0⟩ + 1)
          ⟨1, 0, 0⟩).Exceeds ⟨4294967296, 0, 0⟩ := by
  rw [MaxAllocation_eq_quota _ _ (by simp [Resources.NonNeg]) (by norm_num [Resources.Exact])
    (by norm_num [Resources.Exact])]
  simp [Resources.quota, min, MaxInt32, Resources.scale, Resources.Exceeds]

end C1

/-! ### `RemoveDeadUnits` -/

section Cleanup

theorem RemoveDeadUnits_loop_units (us acc : List Unit) (lost : Resources) :
    (RemoveDeadUnits.loop us acc lost).1 =
      acc ++ (us.filter (fun u => decide (u.Hull > 0))).map restoreShields := by
  induction us generalizing acc lost with
  | nil => simp [RemoveDeadUnits.loop]
  | cons u rest ih =>
    by_cases h : u.Hull > 0
    · simp [RemoveDeadUnits.loop, h, ih, restoreShields]
    · simp [RemoveDeadUnits.loop, h, ih]

/-- The loop of `RemoveDeadUnits` on `lost`: metal and crystal grow by the metal and
crystal costs of the units without hull, and deuterium grows by their crystal costs. -/
theorem RemoveDeadUnits_loop_lost (us acc : List Unit) (lost : Resources) :
    (RemoveDeadUnits.loop us acc lost).2 =
      ⟨lost.Metal + costSum Resources.Metal (us.filter (fun u => decide (u.Hull ≤ 0))),
       lost.Crystal + costSum Resources.Crystal (us.filter (fun u => decide (u.Hull ≤ 0))),
       lost.Deuterium
         + costSum Resources.Crystal (us.filter (fun u => decide (u.Hull ≤ 0)))⟩ := by
  induction us generalizing acc lost with
  | nil => simp [RemoveDeadUnits.loop, costSum]
  | cons u rest ih =>
    by_cases h : u.Hull > 0
    · have h1 : ¬ u.Hull ≤ 0 := by omega
      simp [RemoveDeadUnits.loop, h, ih, h1]
    · have h1 : u.Hull ≤ 0 := by omega
      have hf : List.filter (fun u => decide (u.Hull ≤ 0)) (u :: rest)
          = u :: List.filter (fun u => decide (u.Hull ≤ 0)) rest := by
        simp [List.filter_cons, h1]
      simp only [RemoveDeadUnits.loop, if_neg h, ih, costSum, Resources.Add, hf, List.map_cons,
        List.sum_cons, Resources.mk.injEq]
      refine ⟨?_, ?_, ?_⟩ <;> ring

/-- What `RemoveDeadUnits` does to `Lost`: the metal and crystal costs of the removed
units are added to metal and crystal, and their crystal costs to deuterium. -/
theorem RemoveDeadUnits_lost (fleet : Fleet) :
    (RemoveDeadUnits fleet).Lost =
      ⟨fleet.Lost.Metal
         + costSum Resources.Metal (fleet.Units.filter (fun u => decide (u.Hull ≤ 0))),
       fleet.Lost.Crystal
         + costSum Resources.Crystal (fleet.Units.filter (fun u => decide (u.Hull ≤ 0))),
       fleet.Lost.Deuterium
         + costSum Resources.Crystal (fleet.Units.filter (fun u => decide (u.Hull ≤ 0)))⟩ := by
  simp only [RemoveDeadUnits, RemoveDeadUnits_loop_lost]

/-- The units that `RemoveDeadUnits` keeps: those with hull, in order, shields
restored. -/
theorem RemoveDeadUnits_units (fleet : Fleet) :
    (RemoveDeadUnits fleet).Units =
      (fleet.Units.filter (fun u => decide (u.Hull > 0))).map restoreShields := by
  simp [RemoveDeadUnits, RemoveDeadUnits_loop_units]

end Cleanup

section C2

/-- C2, the code at the failing input: one destroyed Cruiser (catalog cost
`{20000, 7000, 2000}`) in a fleet without prior losses leaves `Lost` at
`{20000, 7000, 7000}`: the deuterium field received the crystal cost. -/
theorem RemoveDeadUnits_lost_deuterium :
    UnitCosts Cruiser = ⟨20000, 7000, 2000⟩ ∧
      RemoveDeadUnits ⟨[{ MakeUnit Cruiser with Hull := 0 }], ⟨0, 0, 0⟩⟩
        = ⟨[], ⟨20000, 7000, 7000⟩⟩ ∧
      (⟨0, 0, 0⟩ : Resources).Add ⟨20000, 7000, 2000⟩ = ⟨20000, 7000, 7000⟩ := by
  decide

end C2

section C3

/-- C3: after `RemoveDeadUnits` the units of the fleet are the input units with
`Hull > 0`, in their order, each with its shield set to the catalog value; so every
remaining unit has `Hull > 0` and `Shields = shields` of its type. -/
theorem RemoveDeadUnits_survivors (fleet : Fleet) :
    (RemoveDeadUnits fleet).Units =
        (fleet.Units.filter (fun u => decide (u.Hull > 0))).map restoreShields ∧
      ∀ u ∈ (RemoveDeadUnits fleet).Units, u.Hull > 0 ∧ u.Shields = shields u.Typ := by
  have h : (RemoveDeadUnits fleet).Units =
      (fleet.Units.filter (fun u => decide (u.Hull > 0))).map restoreShields := by
    simp [RemoveDeadUnits, RemoveDeadUnits_loop_units]
  refine ⟨h, ?_⟩
  intro u hu
  rw [h] at hu
  obtain ⟨v, hv, rfl⟩ := List.mem_map.1 hu
  have hv2 := (List.mem_filter.1 hv).2
  simp only [decide_eq_true_eq] at hv2
  exact ⟨hv2, rfl⟩

end C3

/-! ### The loop of `MakeFleetByAlloc` -/

section FleetBuilder

theorem UnitCosts_nonneg (t : UnitType) : (UnitCosts t).NonNeg := by
  cases t <;> simp [UnitCosts, Resources.NonNeg]

theorem MaxAllocation_nonneg (R C : Resources) (hR : R.NonNeg) :
    0 ≤ R.MaxAllocation C := by
  obtain ⟨hRm, hRc, hRd⟩ := hR
  have cand : ∀ r c : Int, 0 ≤ r →
      0 ≤ (if c > 0 then Int.floor (fl64 (fl64 (r : ℚ) / fl64 (c : ℚ))) else MaxInt32) := by
    intro r c hr
    split_ifs with h
    · have h1 : (0 : ℚ) ≤ fl64 (r : ℚ) := fl64_nonneg _ (by exact_mod_cast hr)
      have h2 : (0 : ℚ) ≤ fl64 (c : ℚ) := fl64_nonneg _ (by exact_mod_cast h.le)
      exact Int.floor_nonneg.mpr (fl64_nonneg _ (div_nonneg h1 h2))
    · simp [MaxInt32]
  have hmem := min_three_mem
    (if C.Metal > 0 then Int.floor (fl64 (fl64 (R.Metal : ℚ) / fl64 (C.Metal : ℚ)))
      else MaxInt32)
    (if C.Crystal > 0 then Int.floor (fl64 (fl64 (R.Crystal : ℚ) / fl64 (C.Crystal : ℚ)))
      else MaxInt32)
    (if C.Deuterium > 0 then
      Int.floor (fl64 (fl64 (R.Deuterium : ℚ) / fl64 (C.Deuterium : ℚ)))
      else MaxInt32)
  change R.MaxAllocation C = _ ∨ R.MaxAllocation C = _ ∨ R.MaxAllocation C = _ at hmem
  rcases hmem with h | h | h <;> rw [h]
  · exact cand _ _ hRm
  · exact cand _ _ hRc
  · exact cand _ _ hRd

/-- A count of the specification stays below `2 ^ 53`. -/
theorem quota_lt (R C : Resources) (hR : R.NonNeg) (hRx : R.Exact) : R.quota C < 2 ^ 53 := by
  have hle := (min_three_le
    (if C.Metal > 0 then Int.floor ((R.Metal : ℚ) / (C.Metal : ℚ)) else MaxInt32)
    (if C.Crystal > 0 then Int.floor ((R.Crystal : ℚ) / (C.Crystal : ℚ)) else MaxInt32)
    (if C.Deuterium > 0 then Int.floor ((R.Deuterium : ℚ) / (C.Deuterium : ℚ))
      else MaxInt32)).1
  change R.quota C ≤ _ at hle
  refine lt_of_le_of_lt hle ?_
  split_ifs with h
  · rw [floor_div_eq _ _ h]
    exact lt_of_le_of_lt (Int.ediv_le_self _ hR.1) hRx.1
  · norm_num [MaxInt32]

/-- Paying for at most `MaxAllocation` units never reaches the panic of `AllocateN`
and leaves a budget with fields `≥ 0`. -/
theorem AllocateN_ok (R C : Resources) (hR : R.NonNeg) (hC : C.NonNeg) (hRx : R.Exact)
    (hCx : C.Exact) (n : Int) (hn : n ≤ R.MaxAllocation C) :
    R.AllocateN C n = .ok (R.minus n C) ∧ (R.minus n C).NonNeg := by
  rw [MaxAllocation_eq_quota R C hR hRx hCx] at hn
  have hle := min_three_le
    (if C.Metal > 0 then Int.floor ((R.Metal : ℚ) / (C.Metal : ℚ)) else MaxInt32)
    (if C.Crystal > 0 then Int.floor ((R.Crystal : ℚ) / (C.Crystal : ℚ)) else MaxInt32)
    (if C.Deuterium > 0 then Int.floor ((R.Deuterium : ℚ) / (C.Deuterium : ℚ)) else MaxInt32)
  change R.quota C ≤ _ ∧ R.quota C ≤ _ ∧ R.quota C ≤ _ at hle
  obtain ⟨hm, hc, hd⟩ := hle
  have h1 := count_fits R.Metal C.Metal n hR.1 hC.1 (le_trans hn hm)
  have h2 := count_fits R.Crystal C.Crystal n hR.2.1 hC.2.1 (le_trans hn hc)
  have h3 := count_fits R.Deuterium C.Deuterium n hR.2.2 hC.2.2 (le_trans hn hd)
  have hnn : (R.minus n C).NonNeg := by
    simp only [Resources.NonNeg, Resources.minus]; omega
  refine ⟨?_, hnn⟩
  have hno : ¬ (R.Metal - n * C.Metal < 0 ∨ R.Crystal - n * C.Crystal < 0 ∨
      R.Deuterium - n * C.Deuterium < 0) := by omega
  simp only [Resources.AllocateN, Resources.minus]
  rw [if_neg hno]

theorem UnitCosts_exact (t : UnitType) : (UnitCosts t).Exact := by
  cases t <;> norm_num [UnitCosts, Resources.Exact]

/-- The count `int(math.Floor(float64(maxUnits) * a))` of a slot with a fraction in
`[0, 1]` lies between `0` and `maxUnits`. -/
theorem count_le (m : Int) (a : ℚ) (hm0 : 0 ≤ m) (hm : m < 2 ^ 53) (ha0 : 0 ≤ a)
    (ha : a ≤ 1) :
    0 ≤ Int.floor (fl64 (fl64 (m : ℚ) * a)) ∧ Int.floor (fl64 (fl64 (m : ℚ) * a)) ≤ m := by
  have hmq : (0 : ℚ) ≤ (m : ℚ) := by exact_mod_cast hm0
  rw [fl64_int m hm0 hm]
  constructor
  · exact Int.floor_nonneg.mpr (fl64_nonneg _ (mul_nonneg hmq ha0))
  · have h1 : (m : ℚ) * a ≤ (m : ℚ) := by nlinarith
    have h2 := fl64_mono _ _ (mul_nonneg hmq ha0) h1
    rw [fl64_int m hm0 hm] at h2
    have h3 : Int.floor (fl64 ((m : ℚ) * a)) ≤ Int.floor ((m : ℚ)) := Int.floor_le_floor h2
    simpa using h3

/-- Paying for units leaves every field at or below what it was. -/
theorem minus_exact (R C : Resources) (hC : C.NonNeg) (hRx : R.Exact) (n : Int)
    (hn : 0 ≤ n) : (R.minus n C).Exact := by
  obtain ⟨h1, h2, h3⟩ := hC
  obtain ⟨h4, h5, h6⟩ := hRx
  have e1 := Int.mul_nonneg hn h1
  have e2 := Int.mul_nonneg hn h2
  have e3 := Int.mul_nonneg hn h3
  simp only [Resources.Exact, Resources.minus]
  omega

theorem costSum_append (field : Resources → Int) (xs ys : List Unit) :
    costSum field (xs ++ ys) = costSum field xs + costSum field ys := by
  simp [costSum]

theorem costSum_MakeMultipleUnits (field : Resources → Int) (t : UnitType) (n : Int)
    (hn : 0 ≤ n) : costSum field (MakeMultipleUnits t n) = n * field (UnitCosts t) := by
  simp [costSum, MakeMultipleUnits, MakeUnit, List.map_replicate, List.sum_replicate,
    Int.toNat_of_nonneg hn]

/-- Invariant of the loop of `MakeFleetByAlloc`: from a budget with fields from `0` to
`2 ^ 53`, with the rest of the composition long enough and fractions in `[0, 1]`, the
loop returns,
leaves a budget with fields `≥ 0`, and what it took from the budget is the cost of
the units it appended. -/
theorem MakeFleetByAlloc_loop_ok (composition : List UnitType) (allocation : List ℚ) :
    ∀ (i : Nat) (units : List Unit) (resources : Resources),
      i + allocation.length ≤ composition.length →
      (∀ a ∈ allocation, 0 ≤ a ∧ a ≤ 1) →
      resources.NonNeg → resources.Exact →
      ∃ units1 resources1,
        MakeFleetByAlloc.loop composition i allocation units resources
          = .ok (units1, resources1) ∧
        resources1.NonNeg ∧
        resources.Metal + costSum Resources.Metal units
          = resources1.Metal + costSum Resources.Metal units1 ∧
        resources.Crystal + costSum Resources.Crystal units
          = resources1.Crystal + costSum Resources.Crystal units1 ∧
        resources.Deuterium + costSum Resources.Deuterium units
          = resources1.Deuterium + costSum Resources.Deuterium units1 := by
  induction allocation with
  | nil =>
    intro i units resources _ _ hres _
    exact ⟨units, resources, rfl, hres, rfl, rfl, rfl⟩
  | cons a rest ih =>
    intro i units resources hlen hfrac hres hexact
    have hi : i < composition.length := by
      simp only [List.length_cons] at hlen; omega
    have hget : composition[i]? = some composition[i] := List.getElem?_eq_getElem hi
    have hrest : i + 1 + rest.length ≤ composition.length := by
      simp only [List.length_cons] at hlen; omega
    have hfrac1 : ∀ b ∈ rest, 0 ≤ b ∧ b ≤ 1 := fun b hb => hfrac b (List.mem_cons_of_mem _ hb)
    obtain ⟨ha0, ha1⟩ := hfrac a (List.mem_cons_self _ _)
    simp only [MakeFleetByAlloc.loop, hget]
    have hmax := MaxAllocation_nonneg resources (UnitCosts composition[i]) hres
    have hmaxlt : resources.MaxAllocation (UnitCosts composition[i]) < 2 ^ 53 := by
      rw [MaxAllocation_eq_quota _ _ hres hexact (UnitCosts_exact _)]
      exact quota_lt _ _ hres hexact
    obtain ⟨hn0, hle⟩ := count_le _ a hmax hmaxlt ha0 ha1
    by_cases hnum : Int.floor (fl64 (fl64
        ((resources.MaxAllocation (UnitCosts composition[i]) : Int) : ℚ) * a)) > 0
    · rw [if_pos hnum]
      obtain ⟨hok, hnn⟩ := AllocateN_ok resources (UnitCosts composition[i]) hres
        (UnitCosts_nonneg _) hexact (UnitCosts_exact _) _ hle
      rw [hok]
      obtain ⟨units1, resources1, hrun, hnn1, hm, hc, hd⟩ :=
        ih (i + 1) (units ++ MakeMultipleUnits composition[i] (Int.floor (fl64 (fl64
          ((resources.MaxAllocation (UnitCosts composition[i]) : Int) : ℚ) * a))))
          (resources.minus (Int.floor (fl64 (fl64
          ((resources.MaxAllocation (UnitCosts composition[i]) : Int) : ℚ) * a)))
          (UnitCosts composition[i])) hrest hfrac1 hnn
          (minus_exact _ _ (UnitCosts_nonneg _) hexact _ hn0)
      refine ⟨units1, resources1, hrun, hnn1, ?_, ?_, ?_⟩
      · rw [← hm, costSum_append, costSum_MakeMultipleUnits _ _ _ hnum.le]
        simp only [Resources.minus]; ring
      · rw [← hc, costSum_append, costSum_MakeMultipleUnits _ _ _ hnum.le]
        simp only [Resources.minus]; ring
      · rw [← hd, costSum_append, costSum_MakeMultipleUnits _ _ _ hnum.le]
        simp only [Resources.minus]; ring
    · rw [if_neg hnum]
      exact ih (i + 1) units resources hrest hfrac1 hres hexact

/-- A slot with fraction `0` builds nothing and leaves the budget as it is. -/
theorem MakeFleetByAlloc_loop_zeros (composition : List UnitType) (k : Nat)
    (rest : List ℚ) :
    ∀ (i : Nat) (units : List Unit) (resources : Resources),
      i + k ≤ composition.length →
      MakeFleetByAlloc.loop composition i (List.replicate k 0 ++ rest) units resources
        = MakeFleetByAlloc.loop composition (i + k) rest units resources := by
  induction k with
  | zero => intro i units resources _; simp
  | succ k ih =>
    intro i units resources hlen
    have hi : i < composition.length := by omega
    have hget : composition[i]? = some composition[i] := List.getElem?_eq_getElem hi
    rw [List.replicate_succ, List.cons_append]
    simp only [MakeFleetByAlloc.loop, hget, mul_zero, fl64_zero, Int.floor_zero, gt_iff_lt,
      lt_self_iff_false, if_false]
    rw [ih (i + 1) units resources (by omega)]
    congr 1
    omega

/-- The run of `MakeFleetByAlloc` when only the last slot has a share, the whole of
it, and the count `n` that `MaxAllocation` returns is more than the budget pays for:
the call stops in the panic of `AllocateN`. -/
theorem MakeFleetByAlloc_last_slot_panics (budget : Resources) (front : List UnitType)
    (last : UnitType) (n : Int) (hn : budget.MaxAllocation (UnitCosts last) = n)
    (hm : fl64 (n : ℚ) = n) (hpos : n > 0)
    (halloc : budget.AllocateN (UnitCosts last) n = .error Fault.overAllocated) :
    MakeFleetByAlloc budget (front ++ [last]) (List.replicate front.length 0 ++ [1])
      = .error Fault.overAllocated := by
  have hz := MakeFleetByAlloc_loop_zeros (front ++ [last]) front.length [1] 0 []
    budget (by simp)
  have hget : (front ++ [last])[front.length]? = some last := by simp
  simp only [MakeFleetByAlloc, hz, zero_add, MakeFleetByAlloc.loop, hget, mul_one, hn, hm,
    Int.floor_intCast, if_pos hpos, halloc]

end FleetBuilder

section C4

/-- C4 (as amended): for a budget with fields from `0` to `2 ^ 53`, a composition and an
allocation of the same length with every fraction in `[0, 1]`, `MakeFleetByAlloc`
returns (the panic of `AllocateN` is not reached), the budget it leaves has fields
`≥ 0`, and the budget it was given is the budget it leaves plus the catalog costs of
the units built, field by field. -/
theorem MakeFleetByAlloc_never_overspends (budget : Resources)
    (composition : List UnitType) (allocation : List ℚ)
    (hbudget : budget.NonNeg) (hexact : budget.Exact)
    (hlen : allocation.length = composition.length)
    (hfrac : ∀ a ∈ allocation, 0 ≤ a ∧ a ≤ 1) :
    ∃ fleet remaining,
      MakeFleetByAlloc budget composition allocation = .ok (fleet, remaining) ∧
      remaining.NonNeg ∧
      budget.Metal = remaining.Metal + costSum Resources.Metal fleet.Units ∧
      budget.Crystal = remaining.Crystal + costSum Resources.Crystal fleet.Units ∧
      budget.Deuterium = remaining.Deuterium + costSum Resources.Deuterium fleet.Units := by
  obtain ⟨units1, resources1, hrun, hnn, hm, hc, hd⟩ :=
    MakeFleetByAlloc_loop_ok composition allocation 0 [] budget (by omega) hfrac hbudget
      hexact
  refine ⟨⟨units1, ⟨0, 0, 0⟩⟩, resources1, ?_, hnn, ?_, ?_, ?_⟩
  · simp only [MakeFleetByAlloc, hrun]
  · simpa [costSum] using hm
  · simpa [costSum] using hc
  · simpa [costSum] using hd

/-- C4, witness: the attacker budget and composition of the source with the
allocation `[1/2, 1/4, 1/3, 1]`. -/
theorem MakeFleetByAlloc_never_overspends_witness :
    ∃ fleet remaining,
      MakeFleetByAlloc ⟨22449840, 14911680, 8420160⟩
        [LightFighter, HeavyFighter, Cruiser, Battleship] [1 / 2, 1 / 4, 1 / 3, 1]
          = .ok (fleet, remaining) ∧
      remaining.NonNeg ∧
      (22449840 : Int) = remaining.Metal + costSum Resources.Metal fleet.Units ∧
      (14911680 : Int) = remaining.Crystal + costSum Resources.Crystal fleet.Units ∧
      (8420160 : Int) = remaining.Deuterium + costSum Resources.Deuterium fleet.Units :=
  MakeFleetByAlloc_never_overspends ⟨22449840, 14911680, 8420160⟩
    [LightFighter, HeavyFighter, Cruiser, Battleship] [1 / 2, 1 / 4, 1 / 3, 1]
    (by simp [Resources.NonNeg]) (by norm_num [Resources.Exact]) (by simp) (by
      intro a ha
      simp only [List.mem_cons, List.mem_singleton, List.not_mem_nil, or_false] at ha
      rcases ha with rfl | rfl | rfl | rfl <;> norm_num)

/-- C4, counterexample: the budget `{20000 * 2 ^ 43 - 1, 7000 * 2 ^ 43, 2000 * 2 ^ 43}`
(fields `≥ 0`), the composition `[Cruiser]` and the allocation `[1]`.  The conversion
`float64(resources.Metal)` rounds up to `20000 * 2 ^ 43`, so `MaxAllocation` returns
`2 ^ 43`, one Cruiser more than the metal pays for, and `AllocateN` panics. -/
theorem MakeFleetByAlloc_overspends_counterexample :
    (⟨175921860444159999, 61572651155456000, 17592186044416000⟩ : Resources).NonNeg ∧
    ([1] : List ℚ).length = [Cruiser].length ∧
    (∀ a ∈ ([1] : List ℚ), 0 ≤ a ∧ a ≤ 1) ∧
    (⟨175921860444159999, 61572651155456000, 17592186044416000⟩ : Resources).MaxAllocation
      (UnitCosts Cruiser) = 8796093022208 ∧
    MakeFleetByAlloc ⟨175921860444159999, 61572651155456000, 17592186044416000⟩ [Cruiser] [1]
      = .error Fault.overAllocated := by
  have h0a : fl64 (175921860444159999) = 175921860444160000 :=
    fl64_near _ 57 5497558138880000 _ (by norm_num) (by norm_num) (by norm_num) (by norm_num)
      (by norm_num)
  have h0b : fl64 (20000) = 20000 :=
    fl64_near _ 14 5497558138880000 _ (by norm_num) (by norm_num) (by norm_num) (by norm_num)
      (by norm_num)
  have h0c : fl64 (175921860444160000 / 20000) = 8796093022208 :=
    fl64_near _ 43 4503599627370496 _ (by norm_num) (by norm_num) (by norm_num) (by norm_num)
      (by norm_num)
  have h1a : fl64 (61572651155456000) = 61572651155456000 :=
    fl64_near _ 55 7696581394432000 _ (by norm_num) (by norm_num) (by norm_num) (by norm_num)
      (by norm_num)
  have h1b : fl64 (7000) = 7000 :=
    fl64_near _ 12 7696581394432000 _ (by norm_num) (by norm_num) (by norm_num) (by norm_num)
      (by norm_num)
  have h1c : fl64 (61572651155456000 / 7000) = 8796093022208 :=
    fl64_near _ 43 4503599627370496 _ (by norm_num) (by norm_num) (by norm_num) (by norm_num)
      (by norm_num)
  have h2a : fl64 (17592186044416000) = 17592186044416000 :=
    fl64_near _ 53 8796093022208000 _ (by norm_num) (by norm_num) (by norm_num) (by norm_num)
      (by norm_num)
  have h2b : fl64 (2000) = 2000 :=
    fl64_near _ 10 8796093022208000 _ (by norm_num) (by norm_num) (by norm_num) (by norm_num)
      (by norm_num)
  have h2c : fl64 (17592186044416000 / 2000) = 8796093022208 :=
    fl64_near _ 43 4503599627370496 _ (by norm_num) (by norm_num) (by norm_num) (by norm_num)
      (by norm_num)
  have hm : fl64 (8796093022208) = 8796093022208 :=
    fl64_near _ 43 4503599627370496 _ (by norm_num) (by norm_num) (by norm_num) (by norm_num)
      (by norm_num)
  have hn : (⟨175921860444159999, 61572651155456000, 17592186044416000⟩ : Resources).MaxAllocation (UnitCosts Cruiser) = 8796093022208 := by
    simp only [Resources.MaxAllocation, UnitCosts, Int.cast_ofNat, h0a, h0b, h0c, h1a, h1b, h1c,
      h2a, h2b, h2c]
    norm_num [min, MaxInt32, Int.floor_eq_iff]
  have halloc : (⟨175921860444159999, 61572651155456000, 17592186044416000⟩ : Resources).AllocateN (UnitCosts Cruiser) 8796093022208
      = .error Fault.overAllocated := by
    norm_num [Resources.AllocateN, UnitCosts]
  exact ⟨by simp [Resources.NonNeg], rfl, by simp, hn,
    MakeFleetByAlloc_last_slot_panics _ [] Cruiser 8796093022208 hn
      (by rw [Int.cast_ofNat]; exact hm) (by decide) halloc⟩

end C4

section C5

/-- The run of `MakeFleetByAlloc` when only the last slot has a share, the whole of
it: `MaxAllocation` units of the last type are built and paid for. -/
theorem MakeFleetByAlloc_last_slot_run (budget : Resources) (front : List UnitType)
    (last : UnitType) (hbudget : budget.NonNeg) (hexact : budget.Exact) :
    MakeFleetByAlloc budget (front ++ [last]) (List.replicate front.length 0 ++ [1])
        = .ok (⟨List.replicate (budget.MaxAllocation (UnitCosts last)).toNat (MakeUnit last),
                ⟨0, 0, 0⟩⟩,
              budget.minus (budget.MaxAllocation (UnitCosts last)) (UnitCosts last)) := by
  have hmax := MaxAllocation_nonneg budget (UnitCosts last) hbudget
  have hmaxlt : budget.MaxAllocation (UnitCosts last) < 2 ^ 53 := by
    rw [MaxAllocation_eq_quota _ _ hbudget hexact (UnitCosts_exact _)]
    exact quota_lt _ _ hbudget hexact
  have hz := MakeFleetByAlloc_loop_zeros (front ++ [last]) front.length [1] 0 []
    budget (by simp)
  have hget : (front ++ [last])[front.length]? = some last := by simp
  simp only [MakeFleetByAlloc, hz, zero_add, MakeFleetByAlloc.loop, hget, mul_one,
    fl64_int _ hmax hmaxlt, Int.floor_intCast]
  by_cases hpos : budget.MaxAllocation (UnitCosts last) > 0
  · rw [if_pos hpos]
    obtain ⟨hok, -⟩ := AllocateN_ok budget (UnitCosts last) hbudget (UnitCosts_nonneg _)
      hexact (UnitCosts_exact _) (budget.MaxAllocation (UnitCosts last)) le_rfl
    simp [hok, MakeMultipleUnits]
  · rw [if_neg hpos]
    have h0 : budget.MaxAllocation (UnitCosts last) = 0 := by omega
    simp [h0, Resources.minus]

/-- The run of `MakeFleetByAlloc` when only the first slot has a share, the whole of
it: `MaxAllocation` units of the first type are built and paid for. -/
theorem MakeFleetByAlloc_first_slot_run (budget : Resources) (first : UnitType)
    (back : List UnitType) (hbudget : budget.NonNeg) (hexact : budget.Exact) :
    MakeFleetByAlloc budget (first :: back) (1 :: List.replicate back.length 0)
        = .ok (⟨List.replicate (budget.MaxAllocation (UnitCosts first)).toNat (MakeUnit first),
                ⟨0, 0, 0⟩⟩,
              budget.minus (budget.MaxAllocation (UnitCosts first)) (UnitCosts first)) := by
  have hmax := MaxAllocation_nonneg budget (UnitCosts first) hbudget
  have hmaxlt : budget.MaxAllocation (UnitCosts first) < 2 ^ 53 := by
    rw [MaxAllocation_eq_quota _ _ hbudget hexact (UnitCosts_exact _)]
    exact quota_lt _ _ hbudget hexact
  have hz : ∀ (units : List Unit) (resources : Resources),
      MakeFleetByAlloc.loop (first :: back) 1 (List.replicate back.length 0) units resources
        = .ok (units, resources) := by
    intro units resources
    have := MakeFleetByAlloc_loop_zeros (first :: back) back.length [] 1 units resources
      (by simp; omega)
    rw [List.append_nil] at this
    rw [this]
    rfl
  simp only [MakeFleetByAlloc, MakeFleetByAlloc.loop, List.getElem?_cons_zero, mul_one,
    fl64_int _ hmax hmaxlt, Int.floor_intCast, zero_add]
  by_cases hpos : budget.MaxAllocation (UnitCosts first) > 0
  · rw [if_pos hpos]
    obtain ⟨hok, -⟩ := AllocateN_ok budget (UnitCosts first) hbudget (UnitCosts_nonneg _)
      hexact (UnitCosts_exact _) (budget.MaxAllocation (UnitCosts first)) le_rfl
    simp [hok, hz, MakeMultipleUnits]
  · rw [if_neg hpos]
    have h0 : budget.MaxAllocation (UnitCosts first) = 0 := by omega
    simp [h0, hz, Resources.minus]

/-- C5 (as amended): for a budget with fields from `0` to `2 ^ 53` and a composition
`front ++ [last]`, the allocation that is `0` at every position of `front` and `1` at
the last position yields a fleet of exactly `n = MaxAllocation(budget, UnitCosts last)`
units, all of type `last` with catalog hull, shield and weapon power, with
`Lost = {0, 0, 0}`; the budget is left at `budget - n * UnitCosts last`. -/
theorem MakeFleetByAlloc_last_slot (budget : Resources) (front : List UnitType)
    (last : UnitType) (hbudget : budget.NonNeg) (hexact : budget.Exact) :
    MakeFleetByAlloc budget (front ++ [last]) (List.replicate front.length 0 ++ [1])
        = .ok (⟨List.replicate (budget.MaxAllocation (UnitCosts last)).toNat (MakeUnit last),
                ⟨0, 0, 0⟩⟩,
              budget.minus (budget.MaxAllocation (UnitCosts last)) (UnitCosts last)) ∧
      ((List.replicate (budget.MaxAllocation (UnitCosts last)).toNat (MakeUnit last)).length
          : Int) = budget.MaxAllocation (UnitCosts last) ∧
      ∀ u ∈ List.replicate (budget.MaxAllocation (UnitCosts last)).toNat (MakeUnit last),
        u.Typ = last ∧ u.Hull = initial_hull last ∧ u.Shields = shields last ∧
          u.Weaponry = weaponry last := by
  have hmax := MaxAllocation_nonneg budget (UnitCosts last) hbudget
  refine ⟨MakeFleetByAlloc_last_slot_run budget front last hbudget hexact, ?_, ?_⟩
  · simp [Int.toNat_of_nonneg hmax]
  · intro u hu
    rw [List.eq_of_mem_replicate hu]
    simp [MakeUnit]

/-- C5, witness: the scenario of the specification.  The attacker budget with the
composition `[LightFighter, HeavyFighter, Cruiser, Battleship]` and the allocation
`[0, 0, 0, 1]` yields 498 Battleships and nothing else. -/
theorem MakeFleetByAlloc_last_slot_witness :
    (⟨22449840, 14911680, 8420160⟩ : Resources).NonNeg ∧
      MakeFleetByAlloc ⟨22449840, 14911680, 8420160⟩
        [LightFighter, HeavyFighter, Cruiser, Battleship] [0, 0, 0, 1]
        = .ok (⟨List.replicate 498 (MakeUnit Battleship), ⟨0, 0, 0⟩⟩,
              ⟨39840, 7441680, 8420160⟩) := by
  have hn : (⟨22449840, 14911680, 8420160⟩ : Resources).MaxAllocation (UnitCosts Battleship)
      = 498 := by
    rw [MaxAllocation_eq_quota _ _ (by simp [Resources.NonNeg]) (by norm_num [Resources.Exact])
      (UnitCosts_exact _)]
    norm_num [Resources.quota, UnitCosts, min, Int.floor_eq_iff, MaxInt32]
  have h := (MakeFleetByAlloc_last_slot ⟨22449840, 14911680, 8420160⟩
    [LightFighter, HeavyFighter, Cruiser] Battleship (by simp [Resources.NonNeg])
    (by norm_num [Resources.Exact])).1
  rw [hn] at h
  refine ⟨by simp [Resources.NonNeg], ?_⟩
  have hrem : (⟨22449840, 14911680, 8420160⟩ : Resources).minus 498 (UnitCosts Battleship)
      = ⟨39840, 7441680, 8420160⟩ := by decide
  rw [hrem] at h
  exact h

/-- C5, counterexample: the budget `{20000 * 2 ^ 43 - 1, 15000 * 2 ^ 43, 2000 * 2 ^ 43}`
(fields `≥ 0`), the composition `[LightFighter, GaussCannon]` and the allocation
`[0, 1]`.  No fleet is returned: `float64(resources.Metal)` rounds up to
`20000 * 2 ^ 43`, `MaxAllocation` returns `2 ^ 43`, one GaussCannon more than the metal
pays for, and `AllocateN` panics. -/
theorem MakeFleetByAlloc_last_slot_counterexample :
    (⟨175921860444159999, 131941395333120000, 17592186044416000⟩ : Resources).NonNeg ∧
    (⟨175921860444159999, 131941395333120000, 17592186044416000⟩ : Resources).MaxAllocation
      (UnitCosts GaussCannon) = 8796093022208 ∧
    MakeFleetByAlloc ⟨175921860444159999, 131941395333120000, 17592186044416000⟩
        [LightFighter, GaussCannon] [0, 1]
      = .error Fault.overAllocated := by
  have h0a : fl64 (175921860444159999) = 175921860444160000 :=
    fl64_near _ 57 5497558138880000 _ (by norm_num) (by norm_num) (by norm_num) (by norm_num)
      (by norm_num)
  have h0b : fl64 (20000) = 20000 :=
    fl64_near _ 14 5497558138880000 _ (by norm_num) (by norm_num) (by norm_num) (by norm_num)
      (by norm_num)
  have h0c : fl64 (175921860444160000 / 20000) = 8796093022208 :=
    fl64_near _ 43 4503599627370496 _ (by norm_num) (by norm_num) (by norm_num) (by norm_num)
      (by norm_num)
  have h1a : fl64 (131941395333120000) = 131941395333120000 :=
    fl64_near _ 56 8246337208320000 _ (by norm_num) (by norm_num) (by norm_num) (by norm_num)
      (by norm_num)
  have h1b : fl64 (15000) = 15000 :=
    fl64_near _ 13 8246337208320000 _ (by norm_num) (by norm_num) (by norm_num) (by norm_num)
      (by norm_num)
  have h1c : fl64 (131941395333120000 / 15000) = 8796093022208 :=
    fl64_near _ 43 4503599627370496 _ (by norm_num) (by norm_num) (by norm_num) (by norm_num)
      (by norm_num)
  have h2a : fl64 (17592186044416000) = 17592186044416000 :=
    fl64_near _ 53 8796093022208000 _ (by norm_num) (by norm_num) (by norm_num) (by norm_num)
      (by norm_num)
  have h2b : fl64 (2000) = 2000 :=
    fl64_near _ 10 8796093022208000 _ (by norm_num) (by norm_num) (by norm_num) (by norm_num)
      (by norm_num)
  have h2c : fl64 (17592186044416000 / 2000) = 8796093022208 :=
    fl64_near _ 43 4503599627370496 _ (by norm_num) (by norm_num) (by norm_num) (by norm_num)
      (by norm_num)
  have hm : fl64 (8796093022208) = 8796093022208 :=
    fl64_near _ 43 4503599627370496 _ (by norm_num) (by norm_num) (by norm_num) (by norm_num)
      (by norm_num)
  have hn : (⟨175921860444159999, 131941395333120000, 17592186044416000⟩ : Resources).MaxAllocation (UnitCosts GaussCannon) = 8796093022208 := by
    simp only [Resources.MaxAllocation, UnitCosts, Int.cast_ofNat, h0a, h0b, h0c, h1a, h1b, h1c,
      h2a, h2b, h2c]
    norm_num [min, MaxInt32, Int.floor_eq_iff]
  have halloc : (⟨175921860444159999, 131941395333120000, 17592186044416000⟩ : Resources).AllocateN (UnitCosts GaussCannon) 8796093022208
      = .error Fault.overAllocated := by
    norm_num [Resources.AllocateN, UnitCosts]
  exact ⟨by simp [Resources.NonNeg], hn,
    MakeFleetByAlloc_last_slot_panics _ [LightFighter] GaussCannon 8796093022208 hn
      (by rw [Int.cast_ofNat]; exact hm) (by decide) halloc⟩

end C5

/-! ### Random sources -/

section RandomSource

theorem Rand.Continues.refl (a : Rand) : a.Continues a := ⟨rfl, rfl⟩

theorem Rand.Continues.trans {a b c : Rand} (h1 : a.Continues b) (h2 : b.Continues c) :
    a.Continues c := ⟨h2.1.trans h1.1, h2.2.trans h1.2⟩

theorem Rand.Fair.of_continues {a b : Rand} (h : a.Fair) (hc : a.Continues b) : b.Fair := by
  intro i
  obtain ⟨j, hj, hv⟩ := h i
  exact ⟨j, hj, by rw [hc.1]; exact hv⟩

theorem Rand.constant_high_fair (k : Nat) : (Rand.constant Draw.high k).Fair := by
  intro i
  exact ⟨i, le_refl i, by simp [Rand.constant, Draw.high]; norm_num⟩

end RandomSource

/-! ### One shot -/

section Shots

theorem initial_hull_pos (t : UnitType) : 0 < initial_hull t := by
  cases t <;> simp [initial_hull]

theorem shields_nonneg (t : UnitType) : 0 ≤ shields t := by
  cases t <;> decide

theorem tdiv_shields_le (t : UnitType) : Int.tdiv (shields t) 100 ≤ shields t := by
  cases t <;> decide

/-- A draw is below `1 - pct` whenever `pct ≤ 0`. -/
theorem draw_lt_of_nonpos (rng : Rand) (pct : ℚ) (h : pct ≤ 0) :
    rng.Float64.1 < 1 - pct := by
  have := (rng.floats rng.fpos).lt_one
  simp only [Rand.Float64]
  linarith

/-- One shot makes no call of `rand.Intn` and at most one of `rand.Float64`. -/
theorem shot_continues (u target : Unit) (rng : Rand) :
    rng.Continues (AttackTargets.shot u target rng).2 := by
  simp only [AttackTargets.shot]
  split_ifs <;> exact ⟨rfl, rfl⟩

/-- The test that decides whether a shot counts, without the division: for a shield
`≥ 0`, `Weaponry >= Shields/100` says `Shields < 100 * Weaponry + 100`. -/
theorem shot_counts_iff (u target : Unit) (hs : 0 ≤ target.Shields) :
    (target.Hull > 0 ∧ u.Weaponry ≥ Int.tdiv target.Shields 100) ↔
      (target.Hull > 0 ∧ target.Shields < 100 * u.Weaponry + 100) := by
  rw [Int.tdiv_eq_ediv hs (by decide)]
  constructor <;> rintro ⟨h1, h2⟩ <;> exact ⟨h1, by omega⟩

/-- One shot keeps hull and shield of the target at least zero. -/
theorem shot_nonneg (u target : Unit) (rng : Rand)
    (h : 0 ≤ target.Hull ∧ 0 ≤ target.Shields) :
    0 ≤ (AttackTargets.shot u target rng).1.Hull ∧
      0 ≤ (AttackTargets.shot u target rng).1.Shields := by
  obtain ⟨hh, hs⟩ := h
  have hbase := initial_hull_pos target.Typ
  have hbaseq : (0 : ℚ) < (initial_hull target.Typ : ℚ) := by exact_mod_cast hbase
  unfold AttackTargets.shot
  by_cases hc : target.Hull > 0 ∧ u.Weaponry ≥ Int.tdiv target.Shields 100
  · rw [if_pos hc]
    by_cases hw : u.Weaponry < target.Shields
    · simp only [if_pos hw]
      split_ifs <;> simp <;> omega
    · simp only [if_neg hw]
      by_cases hneg : target.Hull - (u.Weaponry - target.Shields) ≤ 0
      · have hq : ((target.Hull - (u.Weaponry - target.Shields) : Int) : ℚ)
            / (initial_hull target.Typ : ℚ) ≤ 0 := by
          apply div_nonpos_of_nonpos_of_nonneg _ hbaseq.le
          exact_mod_cast hneg
        have h1 : ((target.Hull - (u.Weaponry - target.Shields) : Int) : ℚ)
            / (initial_hull target.Typ : ℚ) < 7 / 10 := by linarith
        have h2 := draw_lt_of_nonpos rng _ hq
        simp only [if_pos h1, if_pos h2, le_refl, and_self]
      · split_ifs <;> simp <;> omega
  · rw [if_neg hc]
    exact ⟨hh, hs⟩

/-- A penetrating hit that takes the hull to zero or below ends with hull `0`. -/
theorem shot_overkill (u target : Unit) (rng : Rand)
    (hhull : target.Hull > 0) (hcount : u.Weaponry ≥ Int.tdiv target.Shields 100)
    (hpen : ¬ u.Weaponry < target.Shields)
    (hneg : target.Hull - (u.Weaponry - target.Shields) ≤ 0) :
    (AttackTargets.shot u target rng).1.Hull = 0 ∧
      (AttackTargets.shot u target rng).1.Shields = 0 := by
  have hbase := initial_hull_pos target.Typ
  have hbaseq : (0 : ℚ) < (initial_hull target.Typ : ℚ) := by exact_mod_cast hbase
  have hc : target.Hull > 0 ∧ u.Weaponry ≥ Int.tdiv target.Shields 100 := ⟨hhull, hcount⟩
  have hq : ((target.Hull - (u.Weaponry - target.Shields) : Int) : ℚ)
      / (initial_hull target.Typ : ℚ) ≤ 0 := by
    apply div_nonpos_of_nonpos_of_nonneg _ hbaseq.le
    exact_mod_cast hneg
  have h1 : ((target.Hull - (u.Weaponry - target.Shields) : Int) : ℚ)
      / (initial_hull target.Typ : ℚ) < 7 / 10 := by linarith
  have h2 := draw_lt_of_nonpos rng _ hq
  simp only [AttackTargets.shot, if_pos hc, if_neg hpen, if_pos h1, if_pos h2, and_self]

/-- A unit without hull is not shot at. -/
theorem shot_skips_dead (u target : Unit) (rng : Rand) (h : target.Hull ≤ 0) :
    AttackTargets.shot u target rng = (target, rng) := by
  have hc : ¬ (target.Hull > 0 ∧ u.Weaponry ≥ Int.tdiv target.Shields 100) := by
    intro hh; omega
  simp only [AttackTargets.shot, if_neg hc]

/-- A shot with weapon power of at least base shield plus base hull destroys a fresh
unit, after one draw. -/
theorem shot_destroys (u : Unit) (t : UnitType) (rng : Rand)
    (hw : u.Weaponry ≥ shields t + initial_hull t) :
    AttackTargets.shot u (MakeUnit t) rng = (destroyed t, rng.Float64.2) := by
  have hbase := initial_hull_pos t
  have hs := shields_nonneg t
  have hdiv := tdiv_shields_le t
  have hbaseq : (0 : ℚ) < (initial_hull t : ℚ) := by exact_mod_cast hbase
  have hc : (MakeUnit t).Hull > 0 ∧ u.Weaponry ≥ Int.tdiv (MakeUnit t).Shields 100 := by
    simp only [MakeUnit]; constructor <;> omega
  have hpen : ¬ u.Weaponry < (MakeUnit t).Shields := by
    simp only [MakeUnit]; omega
  have hneg : initial_hull t - (u.Weaponry - shields t) ≤ 0 := by omega
  have hq : ((initial_hull t - (u.Weaponry - shields t) : Int) : ℚ)
      / (initial_hull t : ℚ) ≤ 0 := by
    apply div_nonpos_of_nonpos_of_nonneg _ hbaseq.le
    exact_mod_cast hneg
  have h1 : ((initial_hull t - (u.Weaponry - shields t) : Int) : ℚ)
      / (initial_hull t : ℚ) < 7 / 10 := by linarith
  have h2 := draw_lt_of_nonpos rng _ hq
  simp only [AttackTargets.shot, if_pos hc, if_neg hpen]
  simp only [MakeUnit, if_pos h1, if_pos h2, destroyed]

end Shots

section C6

/-- C6 (as amended): a shot that is not skipped (`Hull > 0`, weapon power at least
`Shields / 100`) and does not penetrate (weapon power below the shield) lowers the
shield by the weapon power.  When the hull is at least 70% of the base hull no draw is
made and the hull is unchanged; when it is below, one draw `x` is made and the hull
becomes `0` if `x < 1 - hull / base` and is unchanged otherwise. -/
theorem shot_absorbed (u target : Unit) (rng : Rand)
    (hhull : target.Hull > 0) (hcount : u.Weaponry ≥ Int.tdiv target.Shields 100)
    (hweak : u.Weaponry < target.Shields) :
    (AttackTargets.shot u target rng).1.Shields = target.Shields - u.Weaponry ∧
    (¬ ((target.Hull : ℚ) / (initial_hull target.Typ : ℚ) < 7 / 10) →
      (AttackTargets.shot u target rng).1.Hull = target.Hull ∧
      (AttackTargets.shot u target rng).2 = rng) ∧
    ((target.Hull : ℚ) / (initial_hull target.Typ : ℚ) < 7 / 10 →
      (AttackTargets.shot u target rng).2 = rng.Float64.2 ∧
      (AttackTargets.shot u target rng).1.Hull =
        if rng.Float64.1 < 1 - (target.Hull : ℚ) / (initial_hull target.Typ : ℚ) then 0
        else target.Hull) := by
  have hc : target.Hull > 0 ∧ u.Weaponry ≥ Int.tdiv target.Shields 100 := ⟨hhull, hcount⟩
  refine ⟨?_, ?_, ?_⟩
  · simp only [AttackTargets.shot, if_pos hc, if_pos hweak]
    split_ifs <;> rfl
  · intro hpct
    simp only [AttackTargets.shot, if_pos hc, if_pos hweak, if_neg hpct, and_self]
  · intro hpct
    simp only [AttackTargets.shot, if_pos hc, if_pos hweak, if_pos hpct]
    split_ifs <;> exact ⟨rfl, rfl⟩

/-- C6, witness: a LightFighter (weapon 100) fires at an IonCannon with full shield
(1000) and hull 600 of 1600. -/
theorem shot_absorbed_witness :
    (AttackTargets.shot (MakeUnit LightFighter) { MakeUnit IonCannon with Hull := 600 }
        (Rand.constant Draw.zero 0)).1.Shields = 1000 - 100 :=
  (shot_absorbed (MakeUnit LightFighter) { MakeUnit IonCannon with Hull := 600 }
    (Rand.constant Draw.zero 0) (by decide) (by decide) (by decide)).1

/-- C6, counterexample: in `AttackTargets` a LightFighter (weapon 100) fires at an
IonCannon with shield 1000 and hull 600 of 1600.  The hit does not penetrate, yet with
the draw `0` the hull ends at `0`: the roll follows a hit that the shield absorbed. -/
theorem AttackTargets_absorbed_hit_counterexample :
    weaponry LightFighter < shields IonCannon ∧
      AttackTargets ⟨[{ MakeUnit LightFighter with Targets := [0] }], ⟨0, 0, 0⟩⟩
          ⟨[{ MakeUnit IonCannon with Hull := 600 }], ⟨0, 0, 0⟩⟩ (Rand.constant Draw.zero 0)
        = .ok (⟨[{ MakeUnit IonCannon with Hull := 0, Shields := 900 }], ⟨0, 0, 0⟩⟩,
            { Rand.constant Draw.zero 0 with fpos := 1 }) := by
  refine ⟨by decide, ?_⟩
  have hdiv : Int.tdiv 1000 100 = 10 := by decide
  simp [AttackTargets, AttackTargets.loop, AttackTargets.volley, AttackTargets.shot,
    MakeUnit, initial_hull, shields, weaponry, Rand.constant, Rand.Float64, Draw.zero, hdiv]
  norm_num

end C6

section C7

/-- C7, counterexample: weapon power 1 against shield 150 and a full hull, integer
values that no unit of a battle has (`MakeUnit` builds no unit with a weapon power
below 100).  The weapon power is below 1% of the shield (`100 * 1 < 150`), but
`150 / 100` truncates to `1`, the test `1 >= 1` holds and the shot counts: the shield
drops to 149. -/
theorem AttackTargets_weak_shot_counterexample :
    (100 * 1 < (150 : Int)) ∧ Int.tdiv 150 100 = 1 ∧
      AttackTargets ⟨[⟨800, 20, 1, LightFighter, [0]⟩], ⟨0, 0, 0⟩⟩
          ⟨[⟨800, 150, 100, LightFighter, []⟩], ⟨0, 0, 0⟩⟩ (Rand.constant Draw.zero 0)
        = .ok (⟨[⟨800, 149, 100, LightFighter, []⟩], ⟨0, 0, 0⟩⟩, Rand.constant Draw.zero 0) := by
  have hdiv : Int.tdiv 150 100 = 1 := by decide
  refine ⟨by decide, hdiv, ?_⟩
  simp [AttackTargets, AttackTargets.loop, AttackTargets.volley, AttackTargets.shot,
    initial_hull, Rand.constant, hdiv]
  norm_num

/-- A unit with the weapon power of its type, as `MakeUnit` builds it, and a target
whose shield is at most the shield of its type: the shield is at most 100 times the
weapon power (weapon power is at least 100, a shield at most 1000). -/
theorem catalog_shield_le (u target : Unit) (hw : u.Weaponry = weaponry u.Typ)
    (hs : target.Shields ≤ shields target.Typ) :
    0 < u.Weaponry ∧ target.Shields ≤ 100 * u.Weaponry := by
  have h1 : 100 ≤ weaponry u.Typ := by cases u.Typ <;> decide
  have h2 : shields target.Typ ≤ 1000 := by cases target.Typ <;> decide
  omega

/-- C7 (as amended): for an acting unit with a positive weapon power and a target with
hull `> 0` and a shield `≥ 0` that does not lie strictly between `100 * Weaponry` and
`100 * Weaponry + 100`, the shot leaves hull and shield of the target as they are if and
only if `100 * Weaponry < Shields`.  Every unit of a battle is in this range: `MakeUnit`
gives a weapon power of at least 100 and a shield of at most 1000, and no shot raises a
shield, so the shield is at most `100 * Weaponry`. -/
theorem shot_no_effect_iff (u target : Unit) (rng : Rand)
    (hw : 0 < u.Weaponry) (hs : 0 ≤ target.Shields) (hh : target.Hull > 0)
    (hgap : target.Shields ≤ 100 * u.Weaponry ∨ 100 * u.Weaponry + 100 ≤ target.Shields) :
    (((AttackTargets.shot u target rng).1.Hull = target.Hull ∧
        (AttackTargets.shot u target rng).1.Shields = target.Shields) ↔
      100 * u.Weaponry < target.Shields) ∧
    (u.Weaponry = weaponry u.Typ → target.Shields ≤ shields target.Typ →
      target.Shields ≤ 100 * u.Weaponry) := by
  refine ⟨?_, fun h1 h2 => (catalog_shield_le u target h1 h2).2⟩
  have hiff := shot_counts_iff u target hs
  constructor
  · intro hsame
    by_contra hnot
    have hc : target.Hull > 0 ∧ u.Weaponry ≥ Int.tdiv target.Shields 100 :=
      hiff.mpr ⟨hh, by omega⟩
    obtain ⟨hhull, hshield⟩ := hsame
    simp only [AttackTargets.shot, if_pos hc] at hhull hshield
    by_cases hpen : u.Weaponry < target.Shields
    · simp only [if_pos hpen] at hshield
      split_ifs at hshield <;> simp only at hshield <;> omega
    · simp only [if_neg hpen] at hhull hshield
      split_ifs at hhull hshield <;> simp only at hhull hshield <;> omega
  · intro hweak
    have hc : ¬ (target.Hull > 0 ∧ u.Weaponry ≥ Int.tdiv target.Shields 100) := by
      intro h
      have := (hiff.mp h).2
      omega
    simp only [AttackTargets.shot, if_neg hc, and_self]

/-- C7, witness: a LightFighter (weapon power 100) shoots at a fresh IonCannon (shield
1000). -/
theorem shot_no_effect_iff_witness :
    ((AttackTargets.shot (MakeUnit LightFighter) (MakeUnit IonCannon)
          (Rand.constant Draw.zero 0)).1.Hull = (MakeUnit IonCannon).Hull ∧
        (AttackTargets.shot (MakeUnit LightFighter) (MakeUnit IonCannon)
          (Rand.constant Draw.zero 0)).1.Shields = (MakeUnit IonCannon).Shields) ↔
      100 * (MakeUnit LightFighter).Weaponry < (MakeUnit IonCannon).Shields :=
  (shot_no_effect_iff (MakeUnit LightFighter) (MakeUnit IonCannon) (Rand.constant Draw.zero 0)
    (by decide) (by decide) (by decide) (Or.inl (by decide))).1

end C7

/-! ### The loops of `AttackTargets` -/

section Volleys

/-- With one acting unit that holds one target index, `AttackTargets` is one shot. -/
theorem AttackTargets_single_shot (u target : Unit) (lost : Resources) (defender : Fleet)
    (t : Nat) (rng : Rand) (hT : u.Targets = [(t : Int)])
    (ht : defender.Units[t]? = some target) :
    AttackTargets ⟨[u], lost⟩ defender rng =
      .ok ({ defender with Units := defender.Units.set t (AttackTargets.shot u target rng).1 },
        (AttackTargets.shot u target rng).2) := by
  simp [AttackTargets, AttackTargets.loop, hT, AttackTargets.volley, ht]

/-- The loop over the targets of one unit returns when the indices are in range;
a property of units that every shot keeps is kept. -/
theorem volley_returns (P : Unit → Prop)
    (hP : ∀ (u target : Unit) (rng : Rand), P target → P (AttackTargets.shot u target rng).1)
    (u : Unit) (ts : List Int) :
    ∀ (units : List Unit) (rng : Rand),
      (∀ t ∈ ts, 0 ≤ t ∧ t < (units.length : Int)) → (∀ v ∈ units, P v) →
      ∃ units1 rng1, AttackTargets.volley u ts units rng = .ok (units1, rng1) ∧
        units1.length = units.length ∧ (∀ v ∈ units1, P v) ∧ rng.Continues rng1 := by
  induction ts with
  | nil => intro units rng _ h; exact ⟨units, rng, rfl, rfl, h, Rand.Continues.refl rng⟩
  | cons t rest ih =>
    intro units rng hin h
    obtain ⟨ht0, ht1⟩ := hin t (List.mem_cons_self _ _)
    have hlt : t.toNat < units.length := by omega
    have hget : units[t.toNat]? = some units[t.toNat] := List.getElem?_eq_getElem hlt
    have hmem : units[t.toNat] ∈ units := List.getElem_mem hlt
    simp only [AttackTargets.volley, if_pos ht0, hget]
    obtain ⟨units1, rng1, hrun, hlen, hinv, hcont⟩ := ih
      (units.set t.toNat (AttackTargets.shot u units[t.toNat] rng).1)
      (AttackTargets.shot u units[t.toNat] rng).2
      (by
        intro t1 ht1m
        rw [List.length_set]
        exact hin t1 (List.mem_cons_of_mem _ ht1m))
      (by
        intro v hv
        rcases List.mem_or_eq_of_mem_set hv with h1 | h1
        · exact h v h1
        · rw [h1]; exact hP u _ rng (h _ hmem))
    exact ⟨units1, rng1, hrun, by rw [hlen, List.length_set], hinv,
      (shot_continues u _ rng).trans hcont⟩

/-- The loop of `AttackTargets` over the acting units returns when the indices are in
range; a property of units that every shot keeps is kept. -/
theorem AttackTargets_loop_returns (P : Unit → Prop)
    (hP : ∀ (u target : Unit) (rng : Rand), P target → P (AttackTargets.shot u target rng).1)
    (acting : List Unit) :
    ∀ (units : List Unit) (rng : Rand),
      TargetsInRange acting units → (∀ v ∈ units, P v) →
      ∃ units1 rng1, AttackTargets.loop acting units rng = .ok (units1, rng1) ∧
        units1.length = units.length ∧ (∀ v ∈ units1, P v) ∧ rng.Continues rng1 := by
  induction acting with
  | nil => intro units rng _ h; exact ⟨units, rng, rfl, rfl, h, Rand.Continues.refl rng⟩
  | cons u rest ih =>
    intro units rng hin h
    obtain ⟨units1, rng1, hrun, hlen, hinv, hcont⟩ :=
      volley_returns P hP u u.Targets units rng (hin u (List.mem_cons_self _ _)) h
    obtain ⟨units2, rng2, hrun2, hlen2, hinv2, hcont2⟩ := ih units1 rng1
      (by
        intro v hv t ht
        rw [hlen]
        exact hin v (List.mem_cons_of_mem _ hv) t ht)
      hinv
    refine ⟨units2, rng2, ?_, by rw [hlen2, hlen], hinv2, hcont.trans hcont2⟩
    simp only [AttackTargets.loop, hrun, hrun2]

end Volleys

section C8

/-- C8: when every unit of the fleet under fire has hull and shield `≥ 0` and the
acting units hold target indices of that fleet, `AttackTargets` returns, for every
random source, a fleet of the same size in which every unit has `Hull ≥ 0` and
`Shields ≥ 0`; and every penetrating shot that takes the hull of its target to zero
or below leaves that hull at exactly `0`. -/
theorem AttackTargets_hull_shield_nonneg (attacker defender : Fleet) (rng : Rand)
    (htargets : TargetsInRange attacker.Units defender.Units)
    (hstart : HullShieldNonNeg defender.Units) :
    (∃ defender1 rng1, AttackTargets attacker defender rng = .ok (defender1, rng1) ∧
      defender1.Units.length = defender.Units.length ∧
      HullShieldNonNeg defender1.Units) ∧
    ∀ (u target : Unit) (r : Rand), target.Hull > 0 →
      u.Weaponry ≥ Int.tdiv target.Shields 100 → ¬ u.Weaponry < target.Shields →
      target.Hull - (u.Weaponry - target.Shields) ≤ 0 →
      (AttackTargets.shot u target r).1.Hull = 0 := by
  obtain ⟨units1, rng1, hrun, hlen, hinv, -⟩ :=
    AttackTargets_loop_returns (fun v => 0 ≤ v.Hull ∧ 0 ≤ v.Shields)
      (fun u target r h => shot_nonneg u target r h) attacker.Units defender.Units rng
      htargets hstart
  refine ⟨⟨{ defender with Units := units1 }, rng1, ?_, hlen, hinv⟩, ?_⟩
  · simp only [AttackTargets, hrun]
  · intro u target r h1 h2 h3 h4
    exact (shot_overkill u target r h1 h2 h3 h4).1

/-- C8, witness: a Battleship that holds the target index `0` twice fires at a
single RocketLauncher. -/
theorem AttackTargets_hull_shield_nonneg_witness :
    ∃ defender1 rng1,
      AttackTargets ⟨[{ MakeUnit Battleship with Targets := [0, 0] }], ⟨0, 0, 0⟩⟩
        ⟨[MakeUnit RocketLauncher], ⟨0, 0, 0⟩⟩ (Rand.constant Draw.zero 0)
          = .ok (defender1, rng1) ∧
      defender1.Units.length = [MakeUnit RocketLauncher].length ∧
      HullShieldNonNeg defender1.Units :=
  (AttackTargets_hull_shield_nonneg
    ⟨[{ MakeUnit Battleship with Targets := [0, 0] }], ⟨0, 0, 0⟩⟩
    ⟨[MakeUnit RocketLauncher], ⟨0, 0, 0⟩⟩ (Rand.constant Draw.zero 0)
    (by simp [TargetsInRange]) (by simp [HullShieldNonNeg, MakeUnit, initial_hull, shields])).1

end C8

/-! ### Target selection, `Process` and one round under a fair source -/

section Termination

theorem rapidFire_le (a b : UnitType) : rapidFire a b ≤ 9 / 10 := by
  cases a <;> cases b <;> simp [rapidFire] <;> norm_num

/-- The inner loop of `PickTargets` ends once a draw of at least `0.9` comes up: with
such a draw `d` calls ahead, `d + 1` units of fuel are enough. -/
theorem pick_returns (u : Unit) (defender : Fleet) (hne : defender.Units ≠ []) :
    ∀ (d : Nat) (ts : List Int) (rng : Rand),
      9 / 10 ≤ (rng.floats (rng.fpos + d)).val →
      ∃ ts1 rng1,
        (∀ fuel, d + 1 ≤ fuel → PickTargets.pick u defender fuel ts rng = .ok (ts1, rng1)) ∧
        rng.Continues rng1 ∧ ts1 ≠ [] ∧
        ∀ t ∈ ts1, t ∈ ts ∨ (0 ≤ t ∧ t < (defender.Units.length : Int)) := by
  have hlen : 0 < defender.Units.length := List.length_pos.2 hne
  have hlenz : ¬ ((defender.Units.length : Int) ≤ 0) := by omega
  obtain ⟨last, hlast⟩ : ∃ last, defender.Units.getLast? = some last := by
    cases hd : defender.Units with
    | nil => exact absurd hd hne
    | cons x xs => exact ⟨_, List.getLast?_eq_getLast _ (by simp)⟩
  intro d
  induction d with
  | zero =>
    intro ts rng hd
    have hno : ¬ ((rng.floats rng.fpos).val < rapidFire u.Typ last.Typ) := by
      have := rapidFire_le u.Typ last.Typ
      simp only [Nat.add_zero] at hd
      linarith
    refine ⟨ts ++ [(rng.ints rng.ipos : Int) % (defender.Units.length : Int)],
      { rng with fpos := rng.fpos + 1, ipos := rng.ipos + 1 }, ?_, ⟨rfl, rfl⟩, by simp, ?_⟩
    · intro fuel hfuel
      obtain ⟨f, rfl⟩ : ∃ f, fuel = f + 1 := ⟨fuel - 1, by omega⟩
      simp [PickTargets.pick, Rand.Intn, hlenz, hlast, PickAnotherAttacker, Rand.Float64, hno]
    · intro t ht
      rcases List.mem_append.1 ht with h | h
      · exact Or.inl h
      · right
        rw [List.mem_singleton.1 h]
        exact ⟨Int.emod_nonneg _ (by omega), Int.emod_lt_of_pos _ (by omega)⟩
  | succ d ih =>
    intro ts rng hd
    by_cases hroll : (rng.floats rng.fpos).val < rapidFire u.Typ last.Typ
    · obtain ⟨ts1, rng1, hrun, hcont, hne1, hmem⟩ :=
        ih (ts ++ [(rng.ints rng.ipos : Int) % (defender.Units.length : Int)])
          { rng with fpos := rng.fpos + 1, ipos := rng.ipos + 1 }
          (by
            have : rng.fpos + 1 + d = rng.fpos + (d + 1) := by omega
            simpa [this] using hd)
      refine ⟨ts1, rng1, ?_, ⟨hcont.1, hcont.2⟩, hne1, ?_⟩
      · intro fuel hfuel
        obtain ⟨f, rfl⟩ : ∃ f, fuel = f + 1 := ⟨fuel - 1, by omega⟩
        have := hrun f (by omega)
        simpa [PickTargets.pick, Rand.Intn, hlenz, hlast, PickAnotherAttacker, Rand.Float64,
          hroll] using this
      · intro t ht
        rcases hmem t ht with h | h
        · rcases List.mem_append.1 h with h1 | h1
          · exact Or.inl h1
          · right
            rw [List.mem_singleton.1 h1]
            exact ⟨Int.emod_nonneg _ (by omega), Int.emod_lt_of_pos _ (by omega)⟩
        · exact Or.inr h
    · refine ⟨ts ++ [(rng.ints rng.ipos : Int) % (defender.Units.length : Int)],
        { rng with fpos := rng.fpos + 1, ipos := rng.ipos + 1 }, ?_, ⟨rfl, rfl⟩, by simp, ?_⟩
      · intro fuel hfuel
        obtain ⟨f, rfl⟩ : ∃ f, fuel = f + 1 := ⟨fuel - 1, by omega⟩
        simp [PickTargets.pick, Rand.Intn, hlenz, hlast, PickAnotherAttacker, Rand.Float64,
          hroll]
      · intro t ht
        rcases List.mem_append.1 ht with h | h
        · exact Or.inl h
        · right
          rw [List.mem_singleton.1 h]
          exact ⟨Int.emod_nonneg _ (by omega), Int.emod_lt_of_pos _ (by omega)⟩

/-- With every draw `0` a Cruiser that faces a fleet ending in a RocketLauncher wins
every rapid-fire roll (`0 < 0.9`): its target loop uses up any amount of fuel. -/
theorem pick_cruiser_never_ends (lost : Resources) :
    ∀ (fuel : Nat) (ts : List Int) (f i : Nat),
      PickTargets.pick (MakeUnit Cruiser) ⟨[MakeUnit RocketLauncher], lost⟩ fuel ts
        ⟨fun _ => Draw.zero, fun _ => 0, f, i⟩ = .error Fault.outOfFuel := by
  intro fuel
  induction fuel with
  | zero => intro ts f i; rfl
  | succ fuel ih =>
    intro ts f i
    have hroll : (0 : ℚ) < rapidFire Cruiser RocketLauncher := by
      simp [rapidFire]
    simp [PickTargets.pick, Rand.Intn, PickAnotherAttacker, Rand.Float64, MakeUnit, Draw.zero,
      hroll]
    exact ih _ _ _

/-- Under a fair source the loop of `PickTargets` over the acting units returns: every
unit gets a target list that is not empty and indexes the opposing fleet. -/
theorem PickTargets_loop_returns (defender : Fleet) (hne : defender.Units ≠ [])
    (acting : List Unit) :
    ∀ rng : Rand, rng.Fair →
      ∃ acting1 rng1,
        Returns (fun fuel => PickTargets.loop fuel defender acting rng) (acting1, rng1) ∧
        rng.Continues rng1 ∧
        List.Forall₂ (Retargeted defender.Units.length) acting acting1 := by
  induction acting with
  | nil =>
    intro rng _
    exact ⟨[], rng, ⟨0, fun _ _ => rfl⟩, Rand.Continues.refl rng, List.Forall₂.nil⟩
  | cons u rest ih =>
    intro rng hfair
    obtain ⟨j, hj, hv⟩ := hfair rng.fpos
    obtain ⟨ts1, rng1, hrun, hcont, hne1, hmem⟩ :=
      pick_returns u defender hne (j - rng.fpos) [] rng
        (by rw [Nat.add_sub_cancel' hj]; exact hv)
    obtain ⟨rest1, rng2, ⟨F2, hrun2⟩, hcont2, hall⟩ := ih rng1 (hfair.of_continues hcont)
    refine ⟨{ u with Targets := ts1 } :: rest1, rng2,
      ⟨Nat.max (j - rng.fpos + 1) F2, ?_⟩, hcont.trans hcont2, List.Forall₂.cons ?_ hall⟩
    · intro fuel hfuel
      have h1 := hrun fuel (le_trans (Nat.le_max_left _ _) hfuel)
      have h2 := hrun2 fuel (le_trans (Nat.le_max_right _ _) hfuel)
      simp only [PickTargets.loop, h1, h2]
    · refine ⟨rfl, hne1, ?_⟩
      intro t ht
      rcases hmem t ht with h | h
      · exact absurd h (List.not_mem_nil _)
      · exact h

theorem Retargeted.targetsInRange {len : Nat} {acting acting1 : List Unit}
    (h : List.Forall₂ (Retargeted len) acting acting1) (under : List Unit)
    (hlen : under.length = len) : TargetsInRange acting1 under := by
  induction h with
  | nil => intro v hv; exact absurd hv (List.not_mem_nil _)
  | cons hr _ ih =>
    intro v hv t ht
    rcases List.mem_cons.1 hv with h1 | h1
    · rw [h1] at ht; rw [hlen]; exact hr.2.2 t ht
    · exact ih v h1 t ht

theorem Retargeted.length_eq {len : Nat} {acting acting1 : List Unit}
    (h : List.Forall₂ (Retargeted len) acting acting1) : acting1.length = acting.length :=
  (List.Forall₂.length_eq h).symm

theorem Retargeted.of_mem {len : Nat} {acting acting1 : List Unit}
    (h : List.Forall₂ (Retargeted len) acting acting1) :
    ∀ v ∈ acting1, ∃ u ∈ acting, Retargeted len u v := by
  induction h with
  | nil => intro v hv; exact absurd hv (List.not_mem_nil _)
  | cons hr _ ih =>
    intro v hv
    rcases List.mem_cons.1 hv with h1 | h1
    · rw [h1]; exact ⟨_, List.mem_cons_self _ _, hr⟩
    · obtain ⟨u, hu, hret⟩ := ih v h1
      exact ⟨u, List.mem_cons_of_mem _ hu, hret⟩

/-- Under a fair source `Process` returns when the fleet under fire is not empty: the
acting units are retargeted, the fleet under fire keeps its size and its `Lost`. -/
theorem Process_returns (attacker defender : Fleet) (rng : Rand)
    (hne : defender.Units ≠ []) (hfair : rng.Fair) :
    ∃ attacker1 defender1 rng1,
      Returns (fun fuel => Process fuel attacker defender rng) (attacker1, defender1, rng1) ∧
      rng.Continues rng1 ∧
      List.Forall₂ (Retargeted defender.Units.length) attacker.Units attacker1.Units ∧
      attacker1.Lost = attacker.Lost ∧
      defender1.Units.length = defender.Units.length ∧ defender1.Lost = defender.Lost := by
  obtain ⟨acting1, rng1, ⟨F, hrun⟩, hcont, hall⟩ :=
    PickTargets_loop_returns defender hne attacker.Units rng hfair
  obtain ⟨units1, rng2, hrun2, hlen2, -, hcont2⟩ :=
    AttackTargets_loop_returns (fun _ => True) (fun _ _ _ _ => trivial) acting1
      defender.Units rng1 (Retargeted.targetsInRange hall defender.Units rfl)
      (fun _ _ => trivial)
  refine ⟨{ attacker with Units := acting1 }, { defender with Units := units1 }, rng2,
    ⟨F, ?_⟩, hcont.trans hcont2, hall, rfl, hlen2, rfl⟩
  intro fuel hfuel
  simp only [Process, PickTargets, hrun fuel hfuel, AttackTargets, hrun2]

/-- Under a fair source one round returns when both fleets are not empty. -/
theorem Round_returns (b : Battle) (ha : b.attacker.Units ≠ []) (hd : b.defender.Units ≠ [])
    (hfair : b.rng.Fair) :
    ∃ b1, Returns (fun fuel => Round fuel b) b1 ∧ b.rng.Continues b1.rng ∧
      b1.rounds = b.rounds + 1 := by
  obtain ⟨attacker1, defender1, rng1, ⟨F1, hrun1⟩, hcont1, hall1, -, hlen1, -⟩ :=
    Process_returns b.attacker b.defender b.rng hd hfair
  have ha1 : attacker1.Units ≠ [] := by
    intro h
    have := Retargeted.length_eq hall1
    rw [h] at this
    exact ha (List.length_eq_zero.1 this.symm)
  obtain ⟨defender2, attacker2, rng2, ⟨F2, hrun2⟩, hcont2, -, -, -, -⟩ :=
    Process_returns defender1 attacker1 rng1 ha1 (hfair.of_continues hcont1)
  refine ⟨{ attacker := RemoveDeadUnits attacker2, defender := RemoveDeadUnits defender2,
            rng := rng2, rounds := b.rounds + 1 },
    ⟨Nat.max F1 F2, ?_⟩, hcont1.trans hcont2, rfl⟩
  intro fuel hfuel
  have h1 := hrun1 fuel (le_trans (Nat.le_max_left _ _) hfuel)
  have h2 := hrun2 fuel (le_trans (Nat.le_max_right _ _) hfuel)
  simp only [Round, h1, h2]

theorem Round_rounds (fuel : Nat) (b b1 : Battle) (h : Round fuel b = .ok b1) :
    b1.rounds = b.rounds + 1 := by
  unfold Round at h
  split at h
  · exact absurd h (by simp)
  · split at h
    · exact absurd h (by simp)
    · simp only [Except.ok.injEq] at h
      rw [← h]

end Termination

section C9

/-- What a returned value of the round loop of `SimulateCombat` says about the rounds:
the loop made `n` rounds, no battle before the last one was decided, a decided last
battle gets the verdict of the index of its round, and the timeout tag is given
exactly when all passes were used and the last battle is undecided. -/
theorem SimulateCombat_loop_spec (fuel : Nat) :
    ∀ (left i : Nat) (b : Battle) (outcome : Outcome) (b1 : Battle),
      SimulateCombat.loop fuel left i b = .ok (outcome, b1) →
      ∃ n, n ≤ left ∧ (0 < left → 0 < n) ∧ Rounds fuel n b = .ok b1 ∧
        b1.rounds = b.rounds + n ∧
        (∀ k bk, 0 < k → k < n → Rounds fuel k b = .ok bk → ¬ bk.Decided) ∧
        (0 < n → b1.Decided → outcome = verdict (i + n - 1) b1) ∧
        (outcome = Outcome.DrawTimeout ↔ n = left ∧ (0 < n → ¬ b1.Decided)) ∧
        (n < left → b1.Decided) := by
  intro left
  induction left with
  | zero =>
    intro i b outcome b1 h
    simp only [SimulateCombat.loop, Except.ok.injEq, Prod.mk.injEq] at h
    obtain ⟨h1, h2⟩ := h
    subst h1; subst h2
    exact ⟨0, le_refl 0, fun h => absurd h (lt_irrefl 0), rfl, rfl,
      fun k _ hk hk0 => absurd hk0 (by omega), fun h => absurd h (lt_irrefl 0),
      ⟨fun _ => ⟨rfl, fun h => absurd h (lt_irrefl 0)⟩, fun _ => rfl⟩,
      fun h => absurd h (lt_irrefl 0)⟩
  | succ left ih =>
    intro i b outcome b1 h
    unfold SimulateCombat.loop at h
    cases hr : Round fuel b with
    | error e => rw [hr] at h; exact absurd h (by simp)
    | ok b2 =>
      rw [hr] at h
      have hrounds := Round_rounds fuel b b2 hr
      have hone : Rounds fuel 1 b = .ok b2 := by simp [Rounds, hr]
      simp only [List.length_eq_zero, List.length_pos] at h
      by_cases hA : b2.attacker.Units = [] <;> by_cases hD : b2.defender.Units = []
      · -- both fleets are empty
        simp only [hA, hD, and_self, if_true, Except.ok.injEq, Prod.mk.injEq] at h
        obtain ⟨h1, h2⟩ := h
        subst h1; subst h2
        refine ⟨1, by omega, fun _ => Nat.one_pos, hone, hrounds,
          fun k _ hk hk0 => absurd hk0 (by omega), ?_, ?_, fun _ => Or.inl hA⟩
        · intro _ _; simp [verdict, hA, hD]
        · constructor
          · intro h; exact absurd h (by simp)
          · intro h; exact absurd (Or.inl hA) (h.2 Nat.one_pos)
      · -- only the attacker is empty
        simp only [hA, hD, and_false, if_false, ne_eq, not_false_eq_true, and_self, if_true,
          Except.ok.injEq, Prod.mk.injEq] at h
        obtain ⟨h1, h2⟩ := h
        subst h1; subst h2
        refine ⟨1, by omega, fun _ => Nat.one_pos, hone, hrounds,
          fun k _ hk hk0 => absurd hk0 (by omega), ?_, ?_, fun _ => Or.inl hA⟩
        · intro _ _; simp [verdict, hA, hD]
        · constructor
          · intro h; exact absurd h (by simp)
          · intro h; exact absurd (Or.inl hA) (h.2 Nat.one_pos)
      · -- only the defender is empty
        simp only [hA, hD, false_and, if_false, ne_eq, not_false_eq_true, and_self, if_true,
          Except.ok.injEq, Prod.mk.injEq] at h
        obtain ⟨h1, h2⟩ := h
        subst h1; subst h2
        refine ⟨1, by omega, fun _ => Nat.one_pos, hone, hrounds,
          fun k _ hk hk0 => absurd hk0 (by omega), ?_, ?_, fun _ => Or.inr hD⟩
        · intro _ _; simp [verdict, hA, hD]
        · constructor
          · intro h; exact absurd h (by simp)
          · intro h; exact absurd (Or.inr hD) (h.2 Nat.one_pos)
      · -- no fleet is empty: next pass
        simp only [hA, hD, false_and, and_false, if_false] at h
        have hund : ¬ b2.Decided := by
          intro hdec; rcases hdec with h1 | h1
          · exact hA h1
          · exact hD h1
        obtain ⟨n, hn, hpos, hrun, hcount, hbefore, hdec, htime, hearly⟩ :=
          ih (i + 1) b2 outcome b1 h
        have hsucc : ∀ k, Rounds fuel (k + 1) b = Rounds fuel k b2 := by
          intro k; simp [Rounds, hr]
        refine ⟨n + 1, by omega, fun _ => Nat.succ_pos n, by rw [hsucc]; exact hrun,
          by rw [hcount, hrounds]; omega, ?_, ?_, ?_, fun hlt => hearly (by omega)⟩
        · intro k bk hk0 hk1 hk
          obtain ⟨k1, rfl⟩ : ∃ k1, k = k1 + 1 := ⟨k - 1, by omega⟩
          rw [hsucc] at hk
          rcases Nat.eq_zero_or_pos k1 with hz | hp
          · subst hz
            simp only [Rounds, Except.ok.injEq] at hk
            rw [← hk]; exact hund
          · exact hbefore k1 bk hp (by omega) hk
        · intro _ hb1
          rcases Nat.eq_zero_or_pos n with hz | hp
          · subst hz
            simp only [Rounds, Except.ok.injEq] at hrun
            rw [← hrun] at hb1; exact absurd hb1 hund
          · have := hdec hp hb1
            rw [this]
            congr 1
            omega
        · rw [htime]
          constructor
          · rintro ⟨h1, h2⟩
            refine ⟨by omega, fun _ => ?_⟩
            rcases Nat.eq_zero_or_pos n with hz | hp
            · subst hz
              simp only [Rounds, Except.ok.injEq] at hrun
              rw [← hrun]; exact hund
            · exact h2 hp
          · rintro ⟨h1, h2⟩
            exact ⟨by omega, fun _ => h2 (Nat.succ_pos n)⟩

/-- Under a fair source the round loop of `SimulateCombat` returns from every battle
in which both fleets hold a unit. -/
theorem SimulateCombat_loop_returns :
    ∀ (left i : Nat) (b : Battle), b.attacker.Units ≠ [] → b.defender.Units ≠ [] →
      b.rng.Fair → ∃ r, Returns (fun fuel => SimulateCombat.loop fuel left i b) r := by
  intro left
  induction left with
  | zero =>
    intro i b _ _ _
    exact ⟨(Outcome.DrawTimeout, b), 0, fun _ _ => rfl⟩
  | succ left ih =>
    intro i b ha hd hfair
    obtain ⟨b2, ⟨F1, hrun1⟩, hcont, -⟩ := Round_returns b ha hd hfair
    by_cases hA : b2.attacker.Units = [] <;> by_cases hD : b2.defender.Units = []
    · refine ⟨(Outcome.DrawBothLose i, b2), F1, fun fuel hfuel => ?_⟩
      simp [SimulateCombat.loop, hrun1 fuel hfuel, hA, hD]
    · refine ⟨(Outcome.Loss i, b2), F1, fun fuel hfuel => ?_⟩
      simp [SimulateCombat.loop, hrun1 fuel hfuel, hA, hD, List.length_pos]
    · refine ⟨(Outcome.Win i, b2), F1, fun fuel hfuel => ?_⟩
      simp [SimulateCombat.loop, hrun1 fuel hfuel, hA, hD, List.length_pos]
    · obtain ⟨r, F2, hrun2⟩ := ih (i + 1) b2 hA hD (hfair.of_continues hcont)
      refine ⟨r, Nat.max F1 F2, fun fuel hfuel => ?_⟩
      have h1 := hrun1 fuel (le_trans (Nat.le_max_left _ _) hfuel)
      have h2 := hrun2 fuel (le_trans (Nat.le_max_right _ _) hfuel)
      simp [SimulateCombat.loop, h1, hA, hD, h2]

/-- C9 (as amended): for two fleets that are not empty and a fair random source,
`SimulateCombat` returns once the fuel is enough.  It makes between 1 and 6 rounds; no
fleet is empty after a round before the last one; when fewer than 6 rounds were made, a
fleet is empty after the last one, so the last round is the first after which a fleet is
empty; if a fleet is empty after the last round, the tag is the verdict (draw, loss or
win) with the index of that round, and if none is, the tag is `DRAW-TIMEOUT`; the tag is
`DRAW-TIMEOUT` exactly when 6 rounds were made and both fleets still hold a unit. -/
theorem SimulateCombat_terminal_tag (attacker defender : Fleet) (rng : Rand)
    (ha : attacker.Units ≠ []) (hd : defender.Units ≠ []) (hfair : rng.Fair) :
    ∃ enough, ∀ fuel, enough ≤ fuel → ∃ outcome b,
      SimulateCombat fuel attacker defender rng = .ok (outcome, b) ∧
      1 ≤ b.rounds ∧ b.rounds ≤ 6 ∧
      Rounds fuel b.rounds ⟨attacker, defender, rng, 0⟩ = .ok b ∧
      (∀ k bk, 0 < k → k < b.rounds →
        Rounds fuel k ⟨attacker, defender, rng, 0⟩ = .ok bk → ¬ bk.Decided) ∧
      (b.rounds < 6 → b.Decided) ∧
      (b.Decided → outcome = verdict (b.rounds - 1) b) ∧
      (¬ b.Decided → outcome = Outcome.DrawTimeout) ∧
      (outcome = Outcome.DrawTimeout ↔ b.rounds = 6 ∧ ¬ b.Decided) := by
  obtain ⟨⟨outcome, b⟩, F, hrun⟩ :=
    SimulateCombat_loop_returns 6 0 ⟨attacker, defender, rng, 0⟩ ha hd hfair
  refine ⟨F, fun fuel hfuel => ⟨outcome, b, hrun fuel hfuel, ?_⟩⟩
  obtain ⟨n, hn, hpos, hrounds, hcount, hbefore, hdec, htime, hearly⟩ :=
    SimulateCombat_loop_spec fuel 6 0 ⟨attacker, defender, rng, 0⟩ outcome b (hrun fuel hfuel)
  have hn0 : 0 < n := hpos (by omega)
  have hbn : b.rounds = n := by simpa using hcount
  rw [hbn]
  refine ⟨hn0, hn, hrounds, hbefore, hearly, ?_, ?_, ?_⟩
  · intro hb
    have := hdec hn0 hb
    simpa using this
  · intro hb
    rw [htime]
    refine ⟨?_, fun _ => hb⟩
    by_contra hne
    exact hb (hearly (by omega))
  · rw [htime]
    constructor
    · rintro ⟨h1, h2⟩; exact ⟨h1, h2 hn0⟩
    · rintro ⟨h1, h2⟩; exact ⟨h1, fun _ => h2⟩

/-- C9, witness: one Battleship against one RocketLauncher under the source whose
every draw is `0.95`. -/
theorem SimulateCombat_terminal_tag_witness :
    ∃ enough, ∀ fuel, enough ≤ fuel → ∃ outcome b,
      SimulateCombat fuel ⟨[MakeUnit Battleship], ⟨0, 0, 0⟩⟩
        ⟨[MakeUnit RocketLauncher], ⟨0, 0, 0⟩⟩ (Rand.constant Draw.high 0)
          = .ok (outcome, b) ∧
      1 ≤ b.rounds ∧ b.rounds ≤ 6 ∧
      Rounds fuel b.rounds ⟨⟨[MakeUnit Battleship], ⟨0, 0, 0⟩⟩,
        ⟨[MakeUnit RocketLauncher], ⟨0, 0, 0⟩⟩, Rand.constant Draw.high 0, 0⟩ = .ok b ∧
      (∀ k bk, 0 < k → k < b.rounds →
        Rounds fuel k ⟨⟨[MakeUnit Battleship], ⟨0, 0, 0⟩⟩,
          ⟨[MakeUnit RocketLauncher], ⟨0, 0, 0⟩⟩, Rand.constant Draw.high 0, 0⟩ = .ok bk →
        ¬ bk.Decided) ∧
      (b.rounds < 6 → b.Decided) ∧
      (b.Decided → outcome = verdict (b.rounds - 1) b) ∧
      (¬ b.Decided → outcome = Outcome.DrawTimeout) ∧
      (outcome = Outcome.DrawTimeout ↔ b.rounds = 6 ∧ ¬ b.Decided) :=
  SimulateCombat_terminal_tag ⟨[MakeUnit Battleship], ⟨0, 0, 0⟩⟩
    ⟨[MakeUnit RocketLauncher], ⟨0, 0, 0⟩⟩ (Rand.constant Draw.high 0)
    (by simp) (by simp) (Rand.constant_high_fair 0)

/-- C9, counterexample: one Cruiser against one RocketLauncher (two fleets that are
not empty) under the source whose every draw is `0`.  Whatever the fuel,
`SimulateCombat` does not return: the target loop of the Cruiser in the first round
never ends. -/
theorem SimulateCombat_never_returns_counterexample :
    [MakeUnit Cruiser] ≠ [] ∧ [MakeUnit RocketLauncher] ≠ [] ∧
      ∀ fuel, SimulateCombat fuel ⟨[MakeUnit Cruiser], ⟨0, 0, 0⟩⟩
        ⟨[MakeUnit RocketLauncher], ⟨0, 0, 0⟩⟩ (Rand.constant Draw.zero 0)
          = .error Fault.outOfFuel := by
  refine ⟨by simp, by simp, fun fuel => ?_⟩
  have h := pick_cruiser_never_ends ⟨0, 0, 0⟩ fuel [] 0 0
  simp only [SimulateCombat, SimulateCombat.loop, Round, Process, PickTargets,
    PickTargets.loop, Rand.constant, h]

end C9

section C10

theorem volley_on_dead (u x : Unit) (hx : x.Hull ≤ 0) (ts : List Int) :
    ∀ rng : Rand, (∀ t ∈ ts, 0 ≤ t ∧ t < (1 : Int)) →
      AttackTargets.volley u ts [x] rng = .ok ([x], rng) := by
  induction ts with
  | nil => intro rng _; rfl
  | cons t rest ih =>
    intro rng hin
    obtain ⟨h0, h1⟩ := hin t (List.mem_cons_self _ _)
    have ht : t = 0 := by omega
    subst ht
    simp only [AttackTargets.volley, le_refl, if_true, Int.toNat_zero, List.getElem?_cons_zero,
      shot_skips_dead u x rng hx, List.set_cons_zero]
    exact ih rng (fun t1 ht1 => hin t1 (List.mem_cons_of_mem _ ht1))

theorem loop_on_dead (x : Unit) (hx : x.Hull ≤ 0) (acting : List Unit) :
    ∀ rng : Rand, TargetsInRange acting [x] →
      AttackTargets.loop acting [x] rng = .ok ([x], rng) := by
  induction acting with
  | nil => intro rng _; rfl
  | cons u rest ih =>
    intro rng hin
    have h1 := volley_on_dead u x hx u.Targets rng
      (by simpa using hin u (List.mem_cons_self _ _))
    simp only [AttackTargets.loop, h1]
    exact ih rng (fun v hv => hin v (List.mem_cons_of_mem _ hv))

/-- Acting units that all have overwhelming weapon power and at least one target
destroy a lone fresh unit. -/
theorem loop_destroys (t : UnitType) (acting : List Unit) (rng : Rand)
    (hne : acting ≠ []) (hin : TargetsInRange acting [MakeUnit t])
    (hts : ∀ u ∈ acting, u.Targets ≠ [])
    (hw : ∀ u ∈ acting, u.Weaponry ≥ shields t + initial_hull t) :
    ∃ rng1, AttackTargets.loop acting [MakeUnit t] rng = .ok ([destroyed t], rng1) ∧
      rng.Continues rng1 := by
  cases acting with
  | nil => exact absurd rfl hne
  | cons u rest =>
    have hu := List.mem_cons_self u rest
    have hdead : (destroyed t).Hull ≤ 0 := by simp [destroyed]
    cases hT : u.Targets with
    | nil => exact absurd hT (hts u hu)
    | cons t0 ts =>
      have hin0 := hin u hu
      rw [hT] at hin0
      obtain ⟨h0, h1⟩ := hin0 t0 (List.mem_cons_self _ _)
      have ht0 : t0 = 0 := by simp only [List.length_singleton, Nat.cast_one] at h1; omega
      subst ht0
      have hrest := volley_on_dead u (destroyed t) hdead ts rng.Float64.2
        (by
          intro t1 ht1
          simpa using hin0 t1 (List.mem_cons_of_mem _ ht1))
      have hloop := loop_on_dead (destroyed t) hdead rest rng.Float64.2
        (by
          intro v hv t1 ht1
          simpa using hin v (List.mem_cons_of_mem _ hv) t1 ht1)
      refine ⟨rng.Float64.2, ?_, ⟨rfl, rfl⟩⟩
      simp only [AttackTargets.loop, hT, AttackTargets.volley, le_refl, if_true, Int.toNat_zero,
        List.getElem?_cons_zero, shot_destroys u t rng (hw u hu), List.set_cons_zero, hrest,
        hloop]

/-- C10 (as amended): under a fair random source, a fitness battle between a fleet that
is not empty, in which every unit has weapon power of at least the base shield plus
the base hull of the type `t`, and a fleet of one fresh unit of type `t`, returns once
the fuel is enough; it makes exactly one round, leaves the defending fleet empty, and
raises the metal and crystal fields of the defender's `Lost` by the metal and crystal
cost of the unit. -/
theorem SimulateFight_overwhelming (attacker : Fleet) (t : UnitType) (lost : Resources)
    (rng : Rand) (ha : attacker.Units ≠ [])
    (hw : ∀ u ∈ attacker.Units, u.Weaponry ≥ shields t + initial_hull t)
    (hfair : rng.Fair) :
    ∃ enough, ∀ fuel, enough ≤ fuel → ∃ ratio b,
      SimulateFight fuel attacker ⟨[MakeUnit t], lost⟩ rng = .ok (ratio, b) ∧
      b.rounds = 1 ∧ b.defender.Units = [] ∧
      b.defender.Lost.Metal = lost.Metal + (UnitCosts t).Metal ∧
      b.defender.Lost.Crystal = lost.Crystal + (UnitCosts t).Crystal := by
  -- the attacker picks its targets
  obtain ⟨acting1, rng1, ⟨F1, hrun1⟩, hcont1, hall1⟩ :=
    PickTargets_loop_returns ⟨[MakeUnit t], lost⟩ (by simp) attacker.Units rng hfair
  have hne1 : acting1 ≠ [] := by
    intro h
    have := Retargeted.length_eq hall1
    rw [h] at this
    exact ha (List.length_eq_zero.1 this.symm)
  have hin1 : TargetsInRange acting1 [MakeUnit t] :=
    Retargeted.targetsInRange hall1 [MakeUnit t] rfl
  have hts1 : ∀ v ∈ acting1, v.Targets ≠ [] := by
    intro v hv
    obtain ⟨u, _, hret⟩ := Retargeted.of_mem hall1 v hv
    exact hret.2.1
  have hw1 : ∀ v ∈ acting1, v.Weaponry ≥ shields t + initial_hull t := by
    intro v hv
    obtain ⟨u, hu, hret⟩ := Retargeted.of_mem hall1 v hv
    rw [hret.1]
    exact hw u hu
  -- and destroys the lone unit
  obtain ⟨rng2, hshoot, hcont2⟩ := loop_destroys t acting1 rng1 hne1 hin1 hts1 hw1
  -- the destroyed unit still acts in this round
  obtain ⟨defender2, attacker2, rng3, ⟨F2, hrun2⟩, -, hall2, hlost2, -, -⟩ :=
    Process_returns ⟨[destroyed t], lost⟩ { attacker with Units := acting1 } rng2 hne1
      (hfair.of_continues (hcont1.trans hcont2))
  obtain ⟨v, hv⟩ : ∃ v, defender2.Units = [v] := by
    have := Retargeted.length_eq hall2
    simp only [List.length_singleton] at this
    exact List.length_eq_one.1 this
  have hvdead : v.Hull = 0 ∧ v.Typ = t := by
    obtain ⟨u, hu, hret⟩ := Retargeted.of_mem hall2 v (by rw [hv]; exact List.mem_singleton_self v)
    rw [List.mem_singleton.1 hu] at hret
    rw [hret.1]
    simp [destroyed, MakeUnit]
  have hclean : RemoveDeadUnits defender2 = ⟨[], lost.Add (UnitCosts t)⟩ := by
    have hnot : ¬ v.Hull > 0 := by rw [hvdead.1]; exact lt_irrefl 0
    have hl : defender2.Lost = lost := hlost2
    simp only [RemoveDeadUnits, hv, RemoveDeadUnits.loop, if_neg hnot, hvdead.2, hl]
  refine ⟨Nat.max F1 F2, fun fuel hfuel => ?_⟩
  have h1 : PickTargets.loop fuel ⟨[MakeUnit t], lost⟩ attacker.Units rng
      = .ok (acting1, rng1) := hrun1 fuel (le_trans (Nat.le_max_left _ _) hfuel)
  have h2 : Process fuel ⟨[destroyed t], lost⟩ { attacker with Units := acting1 } rng2
      = .ok (defender2, attacker2, rng3) := hrun2 fuel (le_trans (Nat.le_max_right _ _) hfuel)
  have hfirst : Process fuel attacker ⟨[MakeUnit t], lost⟩ rng
      = .ok ({ attacker with Units := acting1 }, ⟨[destroyed t], lost⟩, rng2) := by
    simp only [Process, PickTargets, h1, AttackTargets, hshoot]
  have hround : Round fuel ⟨attacker, ⟨[MakeUnit t], lost⟩, rng, 0⟩
      = .ok ⟨RemoveDeadUnits attacker2, ⟨[], lost.Add (UnitCosts t)⟩, rng3, 1⟩ := by
    simp only [Round, hfirst, h2, hclean, zero_add]
  refine ⟨Ratio.ofInts (lost.Add (UnitCosts t)).Total (RemoveDeadUnits attacker2).Lost.Total,
    ⟨RemoveDeadUnits attacker2, ⟨[], lost.Add (UnitCosts t)⟩, rng3, 1⟩, ?_, rfl, rfl, rfl, rfl⟩
  simp only [SimulateFight, SimulateFight.loop, hround, List.length_nil, or_true, if_true]

/-- C10, witness: three Battleships (weapon 2000) against one RocketLauncher (hull
400, shield 40) under the source whose every draw is `0.95`. -/
theorem SimulateFight_overwhelming_witness :
    ∃ enough, ∀ fuel, enough ≤ fuel → ∃ ratio b,
      SimulateFight fuel ⟨List.replicate 3 (MakeUnit Battleship), ⟨0, 0, 0⟩⟩
        ⟨[MakeUnit RocketLauncher], ⟨0, 0, 0⟩⟩ (Rand.constant Draw.high 0) = .ok (ratio, b) ∧
      b.rounds = 1 ∧ b.defender.Units = [] ∧
      b.defender.Lost.Metal = (0 : Int) + (UnitCosts RocketLauncher).Metal ∧
      b.defender.Lost.Crystal = (0 : Int) + (UnitCosts RocketLauncher).Crystal :=
  SimulateFight_overwhelming ⟨List.replicate 3 (MakeUnit Battleship), ⟨0, 0, 0⟩⟩
    RocketLauncher ⟨0, 0, 0⟩ (Rand.constant Draw.high 0) (by simp)
    (by
      intro u hu
      rw [List.eq_of_mem_replicate hu]
      decide)
    (Rand.constant_high_fair 0)

/-- C10, counterexample, in two parts.  (1) One Cruiser (weapon 800) against one
RocketLauncher (shield 40, hull 400) under the source whose every draw is `0`:
whatever the fuel, the battle does not return.  (2) One Battleship (weapon 2000)
against one LightFighter (shield 20, hull 800, cost `{3000, 1000, 0}`) under the
source whose every draw is `0.95`: the battle ends after one round with the defender
empty, and the defender's `Lost` is `{3000, 1000, 1000}`, not the cost of the unit. -/
theorem SimulateFight_overwhelming_counterexample :
    (weaponry Cruiser ≥ shields RocketLauncher + initial_hull RocketLauncher ∧
      ∀ fuel, SimulateFight fuel ⟨[MakeUnit Cruiser], ⟨0, 0, 0⟩⟩
        ⟨[MakeUnit RocketLauncher], ⟨0, 0, 0⟩⟩ (Rand.constant Draw.zero 0)
          = .error Fault.outOfFuel) ∧
    (weaponry Battleship ≥ shields LightFighter + initial_hull LightFighter ∧
      UnitCosts LightFighter = ⟨3000, 1000, 0⟩ ∧
      SimulateFight 1 ⟨[MakeUnit Battleship], ⟨0, 0, 0⟩⟩
        ⟨[MakeUnit LightFighter], ⟨0, 0, 0⟩⟩ (Rand.constant Draw.high 0)
          = .ok (Ratio.posInf,
              { attacker := ⟨[{ MakeUnit Battleship with Targets := [0] }], ⟨0, 0, 0⟩⟩
                defender := ⟨[], ⟨3000, 1000, 1000⟩⟩
                rng := { Rand.constant Draw.high 0 with fpos := 3, ipos := 2 }
                rounds := 1 })) := by
  refine ⟨⟨by decide, fun fuel => ?_⟩, by decide, rfl, ?_⟩
  · have h := pick_cruiser_never_ends ⟨0, 0, 0⟩ fuel [] 0 0
    simp only [SimulateFight, SimulateFight.loop, Round, Process, PickTargets,
      PickTargets.loop, Rand.constant, h]
  · have hd1 : Int.tdiv 20 100 = 0 := by decide
    have hd2 : Int.tdiv 400 100 = 4 := by decide
    have hfirst : Process 1 ⟨[MakeUnit Battleship], ⟨0, 0, 0⟩⟩
        ⟨[MakeUnit LightFighter], ⟨0, 0, 0⟩⟩ (Rand.constant Draw.high 0)
        = .ok (⟨[{ MakeUnit Battleship with Targets := [0] }], ⟨0, 0, 0⟩⟩,
            ⟨[destroyed LightFighter], ⟨0, 0, 0⟩⟩,
            { Rand.constant Draw.high 0 with fpos := 2, ipos := 1 }) := by
      norm_num [Process, PickTargets, PickTargets.loop, PickTargets.pick, PickAnotherAttacker,
        Rand.Intn, Rand.Float64, Rand.constant, AttackTargets, AttackTargets.loop,
        AttackTargets.volley, AttackTargets.shot, MakeUnit, destroyed, initial_hull, shields,
        weaponry, rapidFire, Draw.high, hd1]
    have hsecond : Process 1 ⟨[destroyed LightFighter], ⟨0, 0, 0⟩⟩
        ⟨[{ MakeUnit Battleship with Targets := [0] }], ⟨0, 0, 0⟩⟩
        { Rand.constant Draw.high 0 with fpos := 2, ipos := 1 }
        = .ok (⟨[{ destroyed LightFighter with Targets := [0] }], ⟨0, 0, 0⟩⟩,
            ⟨[{ MakeUnit Battleship with Targets := [0], Shields := 300 }], ⟨0, 0, 0⟩⟩,
            { Rand.constant Draw.high 0 with fpos := 3, ipos := 2 }) := by
      norm_num [Process, PickTargets, PickTargets.loop, PickTargets.pick, PickAnotherAttacker,
        Rand.Intn, Rand.Float64, Rand.constant, AttackTargets, AttackTargets.loop,
        AttackTargets.volley, AttackTargets.shot, MakeUnit, destroyed, initial_hull, shields,
        weaponry, rapidFire, Draw.high, hd2]
    have hround : Round 1 ⟨⟨[MakeUnit Battleship], ⟨0, 0, 0⟩⟩,
        ⟨[MakeUnit LightFighter], ⟨0, 0, 0⟩⟩, Rand.constant Draw.high 0, 0⟩
        = .ok { attacker := ⟨[{ MakeUnit Battleship with Targets := [0] }], ⟨0, 0, 0⟩⟩
                defender := ⟨[], ⟨3000, 1000, 1000⟩⟩
                rng := { Rand.constant Draw.high 0 with fpos := 3, ipos := 2 }
                rounds := 1 } := by
      simp only [Round, hfirst, hsecond]
      simp [RemoveDeadUnits, RemoveDeadUnits.loop, MakeUnit, destroyed, initial_hull, shields,
        weaponry, UnitCosts, Resources.Add]
    simp only [SimulateFight, SimulateFight.loop, hround, List.length_nil, or_true, if_true]
    simp [Resources.Total, Ratio.ofInts]
    norm_num [Int.floor_eq_iff]

end C10

section C14

theorem rapidFire_eq_zero_iff (a b : UnitType) :
    rapidFire a b = 0 ↔ ¬ (a = Cruiser ∧ (b = LightFighter ∨ b = RocketLauncher)) := by
  cases a <;> cases b <;> simp [rapidFire]

/-- Without rapid fire the target loop makes one pass, whatever the source. -/
theorem pick_single (u : Unit) (defender : Fleet) (last : Unit)
    (hlast : defender.Units.getLast? = some last)
    (hzero : rapidFire u.Typ last.Typ = 0) (fuel : Nat) (ts : List Int) (rng : Rand) :
    PickTargets.pick u defender (fuel + 1) ts rng =
      .ok (ts ++ [(rng.ints rng.ipos : Int) % (defender.Units.length : Int)],
        { rng with fpos := rng.fpos + 1, ipos := rng.ipos + 1 }) := by
  have hne : defender.Units ≠ [] := by
    intro h; rw [h] at hlast; simp at hlast
  have hlen : 0 < defender.Units.length := List.length_pos.2 hne
  have hlenz : ¬ ((defender.Units.length : Int) ≤ 0) := by omega
  have hno : ¬ ((rng.floats rng.fpos).val < 0) := not_lt.2 (rng.floats rng.fpos).nonneg
  simp [PickTargets.pick, Rand.Intn, hlenz, hlast, PickAnotherAttacker, Rand.Float64, hzero, hno]

/-- Under a fair source the loop of `PickTargets` returns, and every acting unit is
`Picked`. -/
theorem PickTargets_loop_picks (defender : Fleet) (hne : defender.Units ≠ [])
    (acting : List Unit) :
    ∀ rng : Rand, rng.Fair →
      ∃ acting1 rng1,
        Returns (fun fuel => PickTargets.loop fuel defender acting rng) (acting1, rng1) ∧
        rng.Continues rng1 ∧
        List.Forall₂ (Picked defender.Units) acting acting1 := by
  induction acting with
  | nil =>
    intro rng _
    exact ⟨[], rng, ⟨0, fun _ _ => rfl⟩, Rand.Continues.refl rng, List.Forall₂.nil⟩
  | cons u rest ih =>
    intro rng hfair
    obtain ⟨j, hj, hv⟩ := hfair rng.fpos
    obtain ⟨ts1, rng1, hrun, hcont, hne1, hmem⟩ :=
      pick_returns u defender hne (j - rng.fpos) [] rng
        (by rw [Nat.add_sub_cancel' hj]; exact hv)
    obtain ⟨rest1, rng2, ⟨F2, hrun2⟩, hcont2, hall⟩ := ih rng1 (hfair.of_continues hcont)
    refine ⟨{ u with Targets := ts1 } :: rest1, rng2,
      ⟨Nat.max (j - rng.fpos + 1) F2, ?_⟩, hcont.trans hcont2, List.Forall₂.cons ⟨?_, ?_⟩ hall⟩
    · intro fuel hfuel
      have h1 := hrun fuel (le_trans (Nat.le_max_left _ _) hfuel)
      have h2 := hrun2 fuel (le_trans (Nat.le_max_right _ _) hfuel)
      simp only [PickTargets.loop, h1, h2]
    · refine ⟨rfl, hne1, ?_⟩
      intro t ht
      rcases hmem t ht with h | h
      · exact absurd h (List.not_mem_nil _)
      · exact h
    · intro last hlast hzero
      have h1 := hrun (j - rng.fpos + 1) (le_refl _)
      rw [pick_single u defender last hlast hzero (j - rng.fpos) [] rng] at h1
      simp only [Except.ok.injEq, Prod.mk.injEq] at h1
      show ts1.length = 1
      rw [← h1.1]
      simp

/-- C14 (as amended): for every acting fleet, every opposing fleet that is not empty
and every fair random source, `PickTargets` returns once the fuel is enough; every
acting unit keeps its fields and gets a target list of length `≥ 1` whose indices lie
in `[0, number of opposing units)`, of length exactly 1 when its type has no rapid
fire against the type of the last opposing unit; and rapid fire is zero for every
pair other than Cruiser against LightFighter or RocketLauncher. -/
theorem PickTargets_assigns (attacker defender : Fleet) (rng : Rand)
    (hne : defender.Units ≠ []) (hfair : rng.Fair) :
    (∃ attacker1 rng1,
      Returns (fun fuel => PickTargets fuel attacker defender rng) (attacker1, rng1) ∧
      attacker1.Lost = attacker.Lost ∧
      List.Forall₂ (Picked defender.Units) attacker.Units attacker1.Units) ∧
    ∀ a b : UnitType,
      rapidFire a b = 0 ↔ ¬ (a = Cruiser ∧ (b = LightFighter ∨ b = RocketLauncher)) := by
  refine ⟨?_, rapidFire_eq_zero_iff⟩
  obtain ⟨acting1, rng1, ⟨F, hrun⟩, -, hall⟩ :=
    PickTargets_loop_picks defender hne attacker.Units rng hfair
  refine ⟨{ attacker with Units := acting1 }, rng1, ⟨F, fun fuel hfuel => ?_⟩, rfl, hall⟩
  have h : PickTargets.loop fuel defender attacker.Units rng = .ok (acting1, rng1) :=
    hrun fuel hfuel
  simp only [PickTargets, h]

/-- C14, witness: a Cruiser and a Battleship pick targets in a fleet of two
RocketLaunchers under the source whose every draw is `0.95`. -/
theorem PickTargets_assigns_witness :
    ∃ attacker1 rng1,
      Returns (fun fuel => PickTargets fuel
        ⟨[MakeUnit Cruiser, MakeUnit Battleship], ⟨0, 0, 0⟩⟩
        ⟨[MakeUnit RocketLauncher, MakeUnit RocketLauncher], ⟨0, 0, 0⟩⟩
        (Rand.constant Draw.high 0)) (attacker1, rng1) ∧
      attacker1.Lost = ⟨0, 0, 0⟩ ∧
      List.Forall₂ (Picked [MakeUnit RocketLauncher, MakeUnit RocketLauncher])
        [MakeUnit Cruiser, MakeUnit Battleship] attacker1.Units :=
  (PickTargets_assigns ⟨[MakeUnit Cruiser, MakeUnit Battleship], ⟨0, 0, 0⟩⟩
    ⟨[MakeUnit RocketLauncher, MakeUnit RocketLauncher], ⟨0, 0, 0⟩⟩
    (Rand.constant Draw.high 0) (by simp) (Rand.constant_high_fair 0)).1

/-- C14, counterexample: a Cruiser picks targets in a fleet of one RocketLauncher (not
empty) under the source whose every draw is `0`.  Every rapid-fire roll succeeds
(`0 < 0.9`), and whatever the fuel, `PickTargets` does not return. -/
theorem PickTargets_never_returns_counterexample :
    [MakeUnit RocketLauncher] ≠ [] ∧
      ∀ fuel, PickTargets fuel ⟨[MakeUnit Cruiser], ⟨0, 0, 0⟩⟩
        ⟨[MakeUnit RocketLauncher], ⟨0, 0, 0⟩⟩ (Rand.constant Draw.zero 0)
          = .error Fault.outOfFuel := by
  refine ⟨by simp, fun fuel => ?_⟩
  have h := pick_cruiser_never_ends ⟨0, 0, 0⟩ fuel [] 0 0
  simp only [PickTargets, PickTargets.loop, Rand.constant, h]

end C14

section Safety

theorem Meets.imp {α : Type} {r : Except Fault α} {post post1 : α → Prop}
    {fault fault1 : Fault → Prop} (h : Meets r post fault)
    (hp : ∀ a, post a → post1 a) (hf : ∀ e, fault e → fault1 e) : Meets r post1 fault1 := by
  cases r with
  | ok a => exact hp a h
  | error e => exact hf e h

theorem Worn.same (u : Unit) : Worn u u := ⟨le_refl _, rfl, rfl⟩

theorem Worn.chain {u v w : Unit} (h1 : Worn u v) (h2 : Worn v w) : Worn u w :=
  ⟨le_trans h2.1 h1.1, h2.2.1.trans h1.2.1, h2.2.2.trans h1.2.2⟩

theorem Retargeted.worn {len : Nat} {u v : Unit} (h : Retargeted len u v) : Worn u v := by
  rw [h.1]; exact ⟨le_refl _, rfl, rfl⟩

/-- One shot wears its target. -/
theorem shot_worn (u target : Unit) (rng : Rand) :
    Worn target (AttackTargets.shot u target rng).1 := by
  simp only [AttackTargets.shot]
  split_ifs with h1 h2 h3 h4 h5 h6 <;> refine ⟨?_, rfl, rfl⟩ <;> simp <;> omega

theorem forall₂_worn_trans {l1 l2 l3 : List Unit} (h1 : List.Forall₂ Worn l1 l2)
    (h2 : List.Forall₂ Worn l2 l3) : List.Forall₂ Worn l1 l3 := by
  induction h1 generalizing l3 with
  | nil => cases h2; exact List.Forall₂.nil
  | cons h _ ih =>
    cases h2 with
    | cons h3 h4 => exact List.Forall₂.cons (h.chain h3) (ih h4)

theorem forall₂_worn_refl (l : List Unit) : List.Forall₂ Worn l l := by
  induction l with
  | nil => exact List.Forall₂.nil
  | cons u rest ih => exact List.Forall₂.cons (Worn.same u) ih

/-- Replacing the unit at one index by a copy that a shot wore keeps the list worn. -/
theorem forall₂_worn_set {orig units : List Unit} (h : List.Forall₂ Worn orig units)
    (i : Nat) (target x : Unit) (hget : units[i]? = some target) (hx : Worn target x) :
    List.Forall₂ Worn orig (units.set i x) := by
  induction h generalizing i with
  | nil => simp at hget
  | cons h0 hrest ih =>
    cases i with
    | zero =>
      simp only [List.getElem?_cons_zero, Option.some.injEq] at hget
      rw [List.set_cons_zero]
      exact List.Forall₂.cons (h0.chain (hget ▸ hx)) hrest
    | succ i =>
      simp only [List.getElem?_cons_succ] at hget
      rw [List.set_cons_succ]
      exact List.Forall₂.cons h0 (ih i hget)

/-- The loop over the targets of one unit wears the fleet under fire. -/
theorem volley_wears (orig : List Unit) (u : Unit) (ts : List Int) :
    ∀ (units : List Unit) (rng : Rand),
      (∀ t ∈ ts, 0 ≤ t ∧ t < (units.length : Int)) → List.Forall₂ Worn orig units →
      ∃ units1 rng1, AttackTargets.volley u ts units rng = .ok (units1, rng1) ∧
        List.Forall₂ Worn orig units1 ∧ rng.Continues rng1 := by
  induction ts with
  | nil => intro units rng _ h; exact ⟨units, rng, rfl, h, Rand.Continues.refl rng⟩
  | cons t rest ih =>
    intro units rng hin h
    obtain ⟨ht0, ht1⟩ := hin t (List.mem_cons_self _ _)
    have hlt : t.toNat < units.length := by omega
    have hget : units[t.toNat]? = some units[t.toNat] := List.getElem?_eq_getElem hlt
    simp only [AttackTargets.volley, if_pos ht0, hget]
    obtain ⟨units1, rng1, hrun, hw, hcont⟩ := ih
      (units.set t.toNat (AttackTargets.shot u units[t.toNat] rng).1)
      (AttackTargets.shot u units[t.toNat] rng).2
      (by
        intro t1 ht1m
        rw [List.length_set]
        exact hin t1 (List.mem_cons_of_mem _ ht1m))
      (forall₂_worn_set h t.toNat _ _ hget (shot_worn u _ rng))
    exact ⟨units1, rng1, hrun, hw, (shot_continues u _ rng).trans hcont⟩

/-- The loop of `AttackTargets` over the acting units wears the fleet under fire. -/
theorem AttackTargets_loop_wears (orig : List Unit) (acting : List Unit) :
    ∀ (units : List Unit) (rng : Rand),
      TargetsInRange acting units → List.Forall₂ Worn orig units →
      ∃ units1 rng1, AttackTargets.loop acting units rng = .ok (units1, rng1) ∧
        List.Forall₂ Worn orig units1 ∧ rng.Continues rng1 := by
  induction acting with
  | nil => intro units rng _ h; exact ⟨units, rng, rfl, h, Rand.Continues.refl rng⟩
  | cons u rest ih =>
    intro units rng hin h
    obtain ⟨units1, rng1, hrun, hw, hcont⟩ :=
      volley_wears orig u u.Targets units rng (hin u (List.mem_cons_self _ _)) h
    have hlen : units1.length = units.length := by
      rw [← List.Forall₂.length_eq hw, List.Forall₂.length_eq h]
    obtain ⟨units2, rng2, hrun2, hw2, hcont2⟩ := ih units1 rng1
      (by
        intro v hv t ht
        rw [hlen]
        exact hin v (List.mem_cons_of_mem _ hv) t ht)
      hw
    refine ⟨units2, rng2, ?_, hw2, hcont.trans hcont2⟩
    simp only [AttackTargets.loop, hrun, hrun2]


/-- The target loop of one unit, for every source and every amount of fuel: a result
continues the source and holds at least one target, every new one in range; the loop
stops only for want of fuel, or in `rand.Intn(0)` when the opposing fleet is empty. -/
theorem pick_meets (u : Unit) (defender : Fleet) :
    ∀ (fuel : Nat) (ts : List Int) (rng : Rand),
      Meets (PickTargets.pick u defender fuel ts rng)
        (fun r => rng.Continues r.2 ∧ r.1 ≠ [] ∧
          ∀ t ∈ r.1, t ∈ ts ∨ (0 ≤ t ∧ t < (defender.Units.length : Int)))
        (fun e => e = Fault.outOfFuel ∨
          (e = Fault.invalidArgument ∧ defender.Units = [])) := by
  intro fuel
  induction fuel with
  | zero => intro ts rng; exact Or.inl rfl
  | succ fuel ih =>
    intro ts rng
    by_cases hempty : defender.Units = []
    · have : PickTargets.pick u defender (fuel + 1) ts rng = .error Fault.invalidArgument := by
        simp [PickTargets.pick, Rand.Intn, hempty]
      rw [this]
      exact Or.inr ⟨rfl, hempty⟩
    · have hlen : 0 < defender.Units.length := List.length_pos.2 hempty
      have hlenz : ¬ ((defender.Units.length : Int) ≤ 0) := by omega
      obtain ⟨last, hlast⟩ : ∃ last, defender.Units.getLast? = some last := by
        cases hd : defender.Units with
        | nil => exact absurd hd hempty
        | cons x xs => exact ⟨_, List.getLast?_eq_getLast _ (by simp)⟩
      have hrange : 0 ≤ (rng.ints rng.ipos : Int) % (defender.Units.length : Int) ∧
          (rng.ints rng.ipos : Int) % (defender.Units.length : Int)
            < (defender.Units.length : Int) :=
        ⟨Int.emod_nonneg _ (by omega), Int.emod_lt_of_pos _ (by omega)⟩
      by_cases hroll : (rng.floats rng.fpos).val < rapidFire u.Typ last.Typ
      · have hstep : PickTargets.pick u defender (fuel + 1) ts rng =
            PickTargets.pick u defender fuel
              (ts ++ [(rng.ints rng.ipos : Int) % (defender.Units.length : Int)])
              { rng with fpos := rng.fpos + 1, ipos := rng.ipos + 1 } := by
          simp [PickTargets.pick, Rand.Intn, hlenz, hlast, PickAnotherAttacker, Rand.Float64,
            hroll]
        rw [hstep]
        refine (ih _ _).imp ?_ (fun e he => he)
        rintro r ⟨hcont, hne, hmem⟩
        refine ⟨⟨hcont.1, hcont.2⟩, hne, fun t ht => ?_⟩
        rcases hmem t ht with h | h
        · rcases List.mem_append.1 h with h1 | h1
          · exact Or.inl h1
          · rw [List.mem_singleton.1 h1]; exact Or.inr hrange
        · exact Or.inr h
      · have hstep : PickTargets.pick u defender (fuel + 1) ts rng =
            .ok (ts ++ [(rng.ints rng.ipos : Int) % (defender.Units.length : Int)],
              { rng with fpos := rng.fpos + 1, ipos := rng.ipos + 1 }) := by
          simp [PickTargets.pick, Rand.Intn, hlenz, hlast, PickAnotherAttacker, Rand.Float64,
            hroll]
        rw [hstep]
        refine ⟨⟨rfl, rfl⟩, by simp, fun t ht => ?_⟩
        rcases List.mem_append.1 ht with h1 | h1
        · exact Or.inl h1
        · rw [List.mem_singleton.1 h1]; exact Or.inr hrange

/-- The loop of `PickTargets`, for every source and every amount of fuel. -/
theorem PickTargets_loop_meets (fuel : Nat) (defender : Fleet) (acting : List Unit) :
    ∀ rng : Rand,
      Meets (PickTargets.loop fuel defender acting rng)
        (fun r => rng.Continues r.2 ∧
          List.Forall₂ (Retargeted defender.Units.length) acting r.1)
        (fun e => e = Fault.outOfFuel ∨
          (e = Fault.invalidArgument ∧ acting ≠ [] ∧ defender.Units = [])) := by
  induction acting with
  | nil => intro rng; exact ⟨Rand.Continues.refl rng, List.Forall₂.nil⟩
  | cons u rest ih =>
    intro rng
    have h1 := pick_meets u defender fuel [] rng
    unfold PickTargets.loop
    cases hp : PickTargets.pick u defender fuel [] rng with
    | error e =>
      rw [hp] at h1
      rcases h1 with h | ⟨h, hempty⟩
      · exact Or.inl h
      · exact Or.inr ⟨h, by simp, hempty⟩
    | ok r =>
      rw [hp] at h1
      obtain ⟨targets, rng1⟩ := r
      obtain ⟨hcont, hne, hmem⟩ := h1
      have h2 := ih rng1
      dsimp only
      cases hl : PickTargets.loop fuel defender rest rng1 with
      | error e =>
        rw [hl] at h2
        rcases h2 with h | ⟨h, -, hempty⟩
        · exact Or.inl h
        · exact Or.inr ⟨h, by simp, hempty⟩
      | ok r2 =>
        rw [hl] at h2
        obtain ⟨rest1, rng2⟩ := r2
        obtain ⟨hcont2, hall⟩ := h2
        refine ⟨hcont.trans hcont2, List.Forall₂.cons ⟨rfl, hne, fun t ht => ?_⟩ hall⟩
        rcases hmem t ht with h | h
        · exact absurd h (List.not_mem_nil _)
        · exact h

theorem forall₂_retargeted_worn {len : Nat} {l1 l2 : List Unit}
    (h : List.Forall₂ (Retargeted len) l1 l2) : List.Forall₂ Worn l1 l2 :=
  h.imp (fun _ _ hr => hr.worn)

/-- `Process`, for every source and every amount of fuel: both fleets come out worn,
with their `Lost` untouched; the call stops only for want of fuel, or in
`rand.Intn(0)` when an acting fleet that is not empty faces an empty fleet. -/
theorem Process_meets (fuel : Nat) (attacker defender : Fleet) (rng : Rand) :
    Meets (Process fuel attacker defender rng)
      (fun r => rng.Continues r.2.2 ∧
        List.Forall₂ Worn attacker.Units r.1.Units ∧ r.1.Lost = attacker.Lost ∧
        List.Forall₂ Worn defender.Units r.2.1.Units ∧ r.2.1.Lost = defender.Lost)
      (fun e => e = Fault.outOfFuel ∨
        (e = Fault.invalidArgument ∧ attacker.Units ≠ [] ∧ defender.Units = [])) := by
  have h1 := PickTargets_loop_meets fuel defender attacker.Units rng
  unfold Process PickTargets
  cases hp : PickTargets.loop fuel defender attacker.Units rng with
  | error e => rw [hp] at h1; exact h1
  | ok r =>
    rw [hp] at h1
    obtain ⟨acting1, rng1⟩ := r
    obtain ⟨hcont, hall⟩ := h1
    obtain ⟨units1, rng2, hrun, hw, hcont1⟩ :=
      AttackTargets_loop_wears defender.Units acting1 defender.Units rng1
        (Retargeted.targetsInRange hall defender.Units rfl) (forall₂_worn_refl _)
    simp only [AttackTargets, hrun]
    exact ⟨hcont.trans hcont1, forall₂_retargeted_worn hall, rfl, hw, rfl⟩

theorem forall₂_nil_iff {l1 l2 : List Unit} (h : List.Forall₂ Worn l1 l2) :
    l2 = [] ↔ l1 = [] := by
  cases h <;> simp

/-- One round, for every source and every amount of fuel: a result is a `RoundStep`;
the round stops only for want of fuel, or in `rand.Intn(0)` when exactly one of the
two fleets is empty. -/
theorem Round_meets (fuel : Nat) (b : Battle) :
    Meets (Round fuel b) (RoundStep b)
      (fun e => e = Fault.outOfFuel ∨
        (e = Fault.invalidArgument ∧ ¬ (b.attacker.Units = [] ↔ b.defender.Units = []))) := by
  have h1 := Process_meets fuel b.attacker b.defender b.rng
  unfold Round
  cases hp : Process fuel b.attacker b.defender b.rng with
  | error e =>
    rw [hp] at h1
    rcases h1 with h | ⟨h, ha, hd⟩
    · exact Or.inl h
    · exact Or.inr ⟨h, fun hiff => ha (hiff.2 hd)⟩
  | ok r =>
    rw [hp] at h1
    obtain ⟨attacker1, defender1, rng1⟩ := r
    obtain ⟨hcont, hwa, hla, hwd, hld⟩ := h1
    have h2 := Process_meets fuel defender1 attacker1 rng1
    dsimp only
    cases hq : Process fuel defender1 attacker1 rng1 with
    | error e =>
      rw [hq] at h2
      rcases h2 with h | ⟨h, hd, ha⟩
      · exact Or.inl h
      · refine Or.inr ⟨h, fun hiff => ?_⟩
        have ha0 : b.attacker.Units = [] := (forall₂_nil_iff hwa).1 ha
        have hd0 : b.defender.Units = [] := hiff.1 ha0
        exact hd ((forall₂_nil_iff hwd).2 hd0)
    | ok r2 =>
      rw [hq] at h2
      obtain ⟨defender2, attacker2, rng2⟩ := r2
      obtain ⟨hcont2, hwd2, hld2, hwa2, hla2⟩ := h2
      refine ⟨attacker2.Units, defender2.Units, forall₂_worn_trans hwa hwa2,
        forall₂_worn_trans hwd hwd2, ?_, ?_, rfl, hcont.trans hcont2⟩
      · show RemoveDeadUnits attacker2 = RemoveDeadUnits ⟨attacker2.Units, b.attacker.Lost⟩
        have : attacker2.Lost = b.attacker.Lost := hla2.trans hla
        rw [← this]
      · show RemoveDeadUnits defender2 = RemoveDeadUnits ⟨defender2.Units, b.defender.Lost⟩
        have : defender2.Lost = b.defender.Lost := hld2.trans hld
        rw [← this]

end Safety

section C17

/-- C17: one round step, for every random source.  Whenever `Round` returns, each fleet
after the round is a worn copy of the fleet before it (`midA`, `midD`: per unit, hull
not greater, weapon power and type the same) from which the units without hull were
removed and in which the shields were restored: a surviving unit has a hull of at most
its hull before the round, and its weapon power and type.  Under a fair source, with
two fleets that are not empty, the round does return once the fuel is enough. -/
theorem Round_hull_never_regenerates (b : Battle) :
    (∀ fuel b1, Round fuel b = .ok b1 →
      ∃ midA midD : List Unit,
        List.Forall₂ Worn b.attacker.Units midA ∧
        b1.attacker.Units = (midA.filter (fun u => decide (u.Hull > 0))).map restoreShields ∧
        List.Forall₂ Worn b.defender.Units midD ∧
        b1.defender.Units = (midD.filter (fun u => decide (u.Hull > 0))).map restoreShields) ∧
    (b.attacker.Units ≠ [] → b.defender.Units ≠ [] → b.rng.Fair →
      ∃ b1, Returns (fun fuel => Round fuel b) b1) := by
  constructor
  · intro fuel b1 h
    have hm := Round_meets fuel b
    rw [h] at hm
    obtain ⟨midA, midD, hwa, hwd, ha, hd, -, -⟩ := hm
    refine ⟨midA, midD, hwa, ?_, hwd, ?_⟩
    · rw [ha]; exact RemoveDeadUnits_units ⟨midA, b.attacker.Lost⟩
    · rw [hd]; exact RemoveDeadUnits_units ⟨midD, b.defender.Lost⟩
  · intro ha hd hfair
    obtain ⟨b1, hret, -, -⟩ := Round_returns b ha hd hfair
    exact ⟨b1, hret⟩

end C17

section C19

/-- The three returns of the round loop of `SimulateCombat` cover exactly the break
of the round loop of `SimulateFight`: the two loops make the same rounds. -/
theorem SimulateCombat_loop_same_battle (fuel : Nat) :
    ∀ (left i : Nat) (b : Battle),
      (SimulateCombat.loop fuel left i b).map Prod.snd = SimulateFight.loop fuel left b := by
  intro left
  induction left with
  | zero => intro i b; rfl
  | succ left ih =>
    intro i b
    unfold SimulateCombat.loop SimulateFight.loop
    cases hr : Round fuel b with
    | error e => rfl
    | ok b1 =>
      dsimp only
      by_cases hA : b1.attacker.Units.length = 0 <;> by_cases hD : b1.defender.Units.length = 0
      · simp [hA, hD, Except.map]
      · have hD1 : b1.defender.Units.length > 0 := Nat.pos_of_ne_zero hD
        simp [hA, hD, hD1, Except.map]
      · have hA1 : b1.attacker.Units.length > 0 := Nat.pos_of_ne_zero hA
        simp [hA, hD, hA1, Except.map]
      · simp only [hA, hD, false_and, and_false, or_self, if_false]
        exact ih (i + 1) b1

/-- C19: for every pair of fleets, every random source and every amount of fuel,
`SimulateCombat` and `SimulateFight` end alike: they stop with the same fault, or they
return the same battle, that is the same number of rounds, the same two fleets (units,
hull, shield, `Lost`) and the same state of the random source.  Only the first
component of the result, tag or ratio, differs. -/
theorem SimulateCombat_SimulateFight_same_battle (fuel : Nat) (attacker defender : Fleet)
    (rng : Rand) :
    (SimulateCombat fuel attacker defender rng).map Prod.snd =
      (SimulateFight fuel attacker defender rng).map Prod.snd := by
  have h := SimulateCombat_loop_same_battle fuel 6 0 ⟨attacker, defender, rng, 0⟩
  unfold SimulateCombat SimulateFight
  rw [h]
  cases SimulateFight.loop fuel 6 ⟨attacker, defender, rng, 0⟩ <;> rfl

end C19

section C18

/-- The round loop of `SimulateCombat` never panics from a battle in which both fleets
hold a unit or both are empty: it returns or stops for want of fuel. -/
theorem SimulateCombat_loop_meets (fuel : Nat) :
    ∀ (left i : Nat) (b : Battle), (b.attacker.Units = [] ↔ b.defender.Units = []) →
      Meets (SimulateCombat.loop fuel left i b) (fun _ => True)
        (fun e => e = Fault.outOfFuel) := by
  intro left
  induction left with
  | zero => intro i b _; trivial
  | succ left ih =>
    intro i b hiff
    have hm := Round_meets fuel b
    unfold SimulateCombat.loop
    cases hr : Round fuel b with
    | error e =>
      rw [hr] at hm
      rcases hm with h | ⟨-, h⟩
      · exact h
      · exact absurd hiff h
    | ok b1 =>
      dsimp only
      by_cases hA : b1.attacker.Units.length = 0 <;> by_cases hD : b1.defender.Units.length = 0
      · simp [hA, hD, Meets]
      · have hD1 : b1.defender.Units.length > 0 := Nat.pos_of_ne_zero hD
        simp [hA, hD, hD1, Meets]
      · have hA1 : b1.attacker.Units.length > 0 := Nat.pos_of_ne_zero hA
        simp [hA, hD, hA1, Meets]
      · simp only [hA, hD, false_and, and_false, if_false]
        refine ih (i + 1) b1 ⟨fun h => ?_, fun h => ?_⟩
        · exact absurd (by rw [h]; rfl) hA
        · exact absurd (by rw [h]; rfl) hD

/-- C18: for two fleets that are not empty and every random source, whatever the fuel,
neither `SimulateCombat` nor `SimulateFight` stops with a panic: no `rand.Intn(0)`
(a call of `PickTargets` with an acting unit and an empty opposing fleet) and no index
out of range (`defender.Units[len-1]`, `defender.Units[t]`).  A run can stop only for
want of fuel; under a fair source both return once the fuel is enough. -/
theorem battle_loops_index_safe (attacker defender : Fleet) (rng : Rand)
    (ha : attacker.Units ≠ []) (hd : defender.Units ≠ []) :
    (∀ fuel e, SimulateCombat fuel attacker defender rng = .error e → e = Fault.outOfFuel) ∧
    (∀ fuel e, SimulateFight fuel attacker defender rng = .error e → e = Fault.outOfFuel) ∧
    (rng.Fair → ∃ enough, ∀ fuel, enough ≤ fuel →
      (∃ r, SimulateCombat fuel attacker defender rng = .ok r) ∧
      (∃ r, SimulateFight fuel attacker defender rng = .ok r)) := by
  have hiff : attacker.Units = [] ↔ defender.Units = [] :=
    ⟨fun h => absurd h ha, fun h => absurd h hd⟩
  have hcombat : ∀ fuel e, SimulateCombat fuel attacker defender rng = .error e →
      e = Fault.outOfFuel := by
    intro fuel e he
    have hm := SimulateCombat_loop_meets fuel 6 0 ⟨attacker, defender, rng, 0⟩ hiff
    unfold SimulateCombat at he
    rw [he] at hm
    exact hm
  have hsame := fun fuel => SimulateCombat_loop_same_battle fuel 6 0 ⟨attacker, defender, rng, 0⟩
  refine ⟨hcombat, ?_, ?_⟩
  · intro fuel e he
    have h := hsame fuel
    unfold SimulateFight at he
    cases hl : SimulateFight.loop fuel 6 ⟨attacker, defender, rng, 0⟩ with
    | ok b => rw [hl] at he; exact absurd he (by simp)
    | error e1 =>
      rw [hl] at he h
      simp only [Except.error.injEq] at he
      cases hc : SimulateCombat.loop fuel 6 0 ⟨attacker, defender, rng, 0⟩ with
      | ok r => rw [hc] at h; exact absurd h (by simp [Except.map])
      | error e2 =>
        rw [hc] at h
        simp only [Except.map, Except.error.injEq] at h
        rw [← he, ← h]
        exact hcombat fuel e2 hc
  · intro hfair
    obtain ⟨r, F, hrun⟩ :=
      SimulateCombat_loop_returns 6 0 ⟨attacker, defender, rng, 0⟩ ha hd hfair
    refine ⟨F, fun fuel hfuel => ⟨⟨r, hrun fuel hfuel⟩, ?_⟩⟩
    have h := hsame fuel
    have hc : SimulateCombat.loop fuel 6 0 ⟨attacker, defender, rng, 0⟩ = .ok r := hrun fuel hfuel
    rw [hc] at h
    simp only [Except.map] at h
    exact ⟨(Ratio.ofInts r.2.defender.Lost.Total r.2.attacker.Lost.Total, r.2),
      by simp only [SimulateFight, ← h]⟩

/-- C18, witness: one Battleship against one LightFighter under the source whose every
draw is `0`. -/
theorem battle_loops_index_safe_witness :
    (∀ fuel e, SimulateCombat fuel ⟨[MakeUnit Battleship], ⟨0, 0, 0⟩⟩
        ⟨[MakeUnit LightFighter], ⟨0, 0, 0⟩⟩ (Rand.constant Draw.zero 0) = .error e →
      e = Fault.outOfFuel) ∧
    (∀ fuel e, SimulateFight fuel ⟨[MakeUnit Battleship], ⟨0, 0, 0⟩⟩
        ⟨[MakeUnit LightFighter], ⟨0, 0, 0⟩⟩ (Rand.constant Draw.zero 0) = .error e →
      e = Fault.outOfFuel) :=
  ⟨(battle_loops_index_safe ⟨[MakeUnit Battleship], ⟨0, 0, 0⟩⟩
      ⟨[MakeUnit LightFighter], ⟨0, 0, 0⟩⟩ (Rand.constant Draw.zero 0) (by simp) (by simp)).1,
   (battle_loops_index_safe ⟨[MakeUnit Battleship], ⟨0, 0, 0⟩⟩
      ⟨[MakeUnit LightFighter], ⟨0, 0, 0⟩⟩ (Rand.constant Draw.zero 0) (by simp)
      (by simp)).2.1⟩

end C18

section Duel

/-- One round of a Battleship against a RocketLauncher under the source whose every
draw is `0.95`: the RocketLauncher is destroyed and removed, the Battleship loses
shield only, which the cleanup restores. -/
theorem Round_battleship_rocketlauncher :
    Round 1 ⟨⟨[MakeUnit Battleship], ⟨0, 0, 0⟩⟩, ⟨[MakeUnit RocketLauncher], ⟨0, 0, 0⟩⟩,
        Rand.constant Draw.high 0, 0⟩
      = .ok { attacker := ⟨[{ MakeUnit Battleship with Targets := [0] }], ⟨0, 0, 0⟩⟩
              defender := ⟨[], ⟨2000, 0, 0⟩⟩
              rng := { Rand.constant Draw.high 0 with fpos := 3, ipos := 2 }
              rounds := 1 } := by
  have hd1 : Int.tdiv 40 100 = 0 := by decide
  have hd2 : Int.tdiv 400 100 = 4 := by decide
  have hfirst : Process 1 ⟨[MakeUnit Battleship], ⟨0, 0, 0⟩⟩
      ⟨[MakeUnit RocketLauncher], ⟨0, 0, 0⟩⟩ (Rand.constant Draw.high 0)
      = .ok (⟨[{ MakeUnit Battleship with Targets := [0] }], ⟨0, 0, 0⟩⟩,
          ⟨[destroyed RocketLauncher], ⟨0, 0, 0⟩⟩,
          { Rand.constant Draw.high 0 with fpos := 2, ipos := 1 }) := by
    norm_num [Process, PickTargets, PickTargets.loop, PickTargets.pick, PickAnotherAttacker,
      Rand.Intn, Rand.Float64, Rand.constant, AttackTargets, AttackTargets.loop,
      AttackTargets.volley, AttackTargets.shot, MakeUnit, destroyed, initial_hull, shields,
      weaponry, rapidFire, Draw.high, hd1]
  have hsecond : Process 1 ⟨[destroyed RocketLauncher], ⟨0, 0, 0⟩⟩
      ⟨[{ MakeUnit Battleship with Targets := [0] }], ⟨0, 0, 0⟩⟩
      { Rand.constant Draw.high 0 with fpos := 2, ipos := 1 }
      = .ok (⟨[{ destroyed RocketLauncher with Targets := [0] }], ⟨0, 0, 0⟩⟩,
          ⟨[{ MakeUnit Battleship with Targets := [0], Shields := 240 }], ⟨0, 0, 0⟩⟩,
          { Rand.constant Draw.high 0 with fpos := 3, ipos := 2 }) := by
    norm_num [Process, PickTargets, PickTargets.loop, PickTargets.pick, PickAnotherAttacker,
      Rand.Intn, Rand.Float64, Rand.constant, AttackTargets, AttackTargets.loop,
      AttackTargets.volley, AttackTargets.shot, MakeUnit, destroyed, initial_hull, shields,
      weaponry, rapidFire, Draw.high, hd2]
  simp only [Round, hfirst, hsecond]
  simp [RemoveDeadUnits, RemoveDeadUnits.loop, MakeUnit, destroyed, initial_hull, shields,
    weaponry, UnitCosts, Resources.Add]

/-- The fitness battle of a Battleship against a RocketLauncher under the source whose
every draw is `0.95` ends after one round; the attacker lost nothing, so the ratio is
`+Inf`. -/
theorem SimulateFight_battleship_rocketlauncher :
    SimulateFight 1 ⟨[MakeUnit Battleship], ⟨0, 0, 0⟩⟩ ⟨[MakeUnit RocketLauncher], ⟨0, 0, 0⟩⟩
        (Rand.constant Draw.high 0)
      = .ok (Ratio.posInf,
          { attacker := ⟨[{ MakeUnit Battleship with Targets := [0] }], ⟨0, 0, 0⟩⟩
            defender := ⟨[], ⟨2000, 0, 0⟩⟩
            rng := { Rand.constant Draw.high 0 with fpos := 3, ipos := 2 }
            rounds := 1 }) := by
  simp only [SimulateFight, SimulateFight.loop, Round_battleship_rocketlauncher,
    List.length_nil, or_true, if_true]
  simp [Resources.Total, Ratio.ofInts]

end Duel

section C15

theorem Store.set_of_ne (s : Store) (x y : Cell) (r : Resources) (h : y ≠ x) :
    (s.set x r) y = s y := by
  simp [Store.set, h]

theorem Store.set_same (s : Store) (x : Cell) (r : Resources) : (s.set x r) x = r := by
  simp [Store.set]

/-- The call through a pointer writes to the variable behind the pointer only. -/
theorem MakeFleetByAlloc_ref_frame (x y : Cell) (s s1 : Store) (composition : List UnitType)
    (allocation : List ℚ) (fleet : Fleet) (hxy : y ≠ x)
    (h : MakeFleetByAlloc.ref x s composition allocation = .ok (fleet, s1)) :
    s1 y = s y := by
  unfold MakeFleetByAlloc.ref at h
  cases hm : MakeFleetByAlloc (s x) composition allocation with
  | error e => rw [hm] at h; exact absurd h (by simp)
  | ok r =>
    rw [hm] at h
    obtain ⟨f, r1⟩ := r
    simp only [Except.ok.injEq, Prod.mk.injEq] at h
    rw [← h.2]
    exact Store.set_of_ne s x y r1 hxy

/-- The call through a pointer leaves in the variable what the fleet builder leaves of
the budget. -/
theorem MakeFleetByAlloc_ref_ok (x : Cell) (s : Store) (composition : List UnitType)
    (allocation : List ℚ) (fleet : Fleet) (r : Resources)
    (h : MakeFleetByAlloc (s x) composition allocation = .ok (fleet, r)) :
    MakeFleetByAlloc.ref x s composition allocation = .ok (fleet, s.set x r) := by
  simp only [MakeFleetByAlloc.ref, h]

/-- C15: whenever `DoCombat` returns, for every store, pair of genomes, random source and
amount of fuel, the package variables `AttackerResources` and `DefenderResources` hold
what they held before the call: the fleets are built through pointers to the local
copies `ares` and `dres`.  `MakeFleetByAlloc` does write through the pointer it is
handed: called on `AttackerResources` itself with the allocation `[0, 0, 0, 1]` it
leaves `{39840, 7441680, 8420160}` there. -/
theorem DoCombat_leaves_budgets (fuel : Nat) (s : Store) (atkComp : AttackerAlloc)
    (defComp : DefenderAlloc) (rng : Rand) (ratio : Ratio) (s1 : Store) (rng1 : Rand)
    (h : DoCombat fuel s atkComp defComp rng = .ok (ratio, s1, rng1)) :
    (s1 Cell.AttackerResources = s Cell.AttackerResources ∧
      s1 Cell.DefenderResources = s Cell.DefenderResources) ∧
    ∃ fleet s2, MakeFleetByAlloc.ref Cell.AttackerResources Store.initial
        AttackerComposition [0, 0, 0, 1] = .ok (fleet, s2) ∧
      s2 Cell.AttackerResources = ⟨39840, 7441680, 8420160⟩ ∧
      Store.initial Cell.AttackerResources = ⟨22449840, 14911680, 8420160⟩ := by
  constructor
  · unfold DoCombat at h
    cases ha : MakeFleetByAlloc.ref Cell.ares (s.set Cell.ares (s Cell.AttackerResources))
        AttackerComposition atkComp.vals with
    | error e => simp only [ha] at h; exact absurd h (by simp)
    | ok r =>
      obtain ⟨attacker, s2⟩ := r
      simp only [ha] at h
      cases hb : MakeFleetByAlloc.ref Cell.dres (s2.set Cell.dres (s2 Cell.DefenderResources))
          DefenderComposition defComp.vals with
      | error e => simp only [hb] at h; exact absurd h (by simp)
      | ok r2 =>
        obtain ⟨defender, s4⟩ := r2
        simp only [hb] at h
        cases hf : SimulateFight fuel attacker defender rng with
        | error e => simp only [hf] at h; exact absurd h (by simp)
        | ok r3 =>
          obtain ⟨ratio3, b⟩ := r3
          simp only [hf, Except.ok.injEq, Prod.mk.injEq] at h
          obtain ⟨-, hs, -⟩ := h
          subst hs
          have h2A := MakeFleetByAlloc_ref_frame Cell.ares Cell.AttackerResources _ _ _ _ _
            (by decide) ha
          have h2D := MakeFleetByAlloc_ref_frame Cell.ares Cell.DefenderResources _ _ _ _ _
            (by decide) ha
          have h4A := MakeFleetByAlloc_ref_frame Cell.dres Cell.AttackerResources _ _ _ _ _
            (by decide) hb
          have h4D := MakeFleetByAlloc_ref_frame Cell.dres Cell.DefenderResources _ _ _ _ _
            (by decide) hb
          rw [Store.set_of_ne _ _ _ _ (by decide)] at h2A h2D h4A h4D
          exact ⟨h4A.trans h2A, h4D.trans h2D⟩
  · have hn : (⟨22449840, 14911680, 8420160⟩ : Resources).MaxAllocation (UnitCosts Battleship)
        = 498 := by
      rw [MaxAllocation_eq_quota _ _ (by simp [Resources.NonNeg])
        (by norm_num [Resources.Exact]) (UnitCosts_exact _)]
      norm_num [Resources.quota, UnitCosts, min, Int.floor_eq_iff, MaxInt32]
    have hrun := MakeFleetByAlloc_last_slot_run ⟨22449840, 14911680, 8420160⟩
      [LightFighter, HeavyFighter, Cruiser] Battleship (by simp [Resources.NonNeg])
      (by norm_num [Resources.Exact])
    rw [hn] at hrun
    have hrem : (⟨22449840, 14911680, 8420160⟩ : Resources).minus 498 (UnitCosts Battleship)
        = ⟨39840, 7441680, 8420160⟩ := by decide
    rw [hrem] at hrun
    have e1 : [LightFighter, HeavyFighter, Cruiser] ++ [Battleship] = AttackerComposition := rfl
    have e2 : List.replicate [LightFighter, HeavyFighter, Cruiser].length (0 : ℚ) ++ [1]
        = [0, 0, 0, 1] := rfl
    have e3 : Store.initial Cell.AttackerResources = ⟨22449840, 14911680, 8420160⟩ := rfl
    rw [e1, e2, ← e3] at hrun
    exact ⟨_, _, MakeFleetByAlloc_ref_ok _ _ _ _ _ _ hrun, Store.set_same _ _ _, e3⟩


/-- A run of `DoCombat` from the runs of its three calls: the locals `ares` and `dres`
receive the budgets and then what the fleet builder leaves of them. -/
theorem DoCombat_run (fuel : Nat) (s : Store) (atkComp : AttackerAlloc)
    (defComp : DefenderAlloc) (rng : Rand) (attacker defender : Fleet) (r1 r2 : Resources)
    (ratio : Ratio) (b : Battle)
    (ha : MakeFleetByAlloc (s Cell.AttackerResources) AttackerComposition atkComp.vals
      = .ok (attacker, r1))
    (hd : MakeFleetByAlloc (s Cell.DefenderResources) DefenderComposition defComp.vals
      = .ok (defender, r2))
    (hf : SimulateFight fuel attacker defender rng = .ok (ratio, b)) :
    DoCombat fuel s atkComp defComp rng
      = .ok (ratio,
          (((s.set Cell.ares (s Cell.AttackerResources)).set Cell.ares r1).set
            Cell.dres (s Cell.DefenderResources)).set Cell.dres r2,
          b.rng) := by
  have h1 : (s.set Cell.ares (s Cell.AttackerResources)) Cell.ares = s Cell.AttackerResources :=
    Store.set_same _ _ _
  have h2 : ((s.set Cell.ares (s Cell.AttackerResources)).set Cell.ares r1)
      Cell.DefenderResources = s Cell.DefenderResources := by
    rw [Store.set_of_ne _ _ _ _ (by decide), Store.set_of_ne _ _ _ _ (by decide)]
  have h3 : (((s.set Cell.ares (s Cell.AttackerResources)).set Cell.ares r1).set Cell.dres
      (s Cell.DefenderResources)) Cell.dres = s Cell.DefenderResources := Store.set_same _ _ _
  simp only [DoCombat, MakeFleetByAlloc.ref, h1, ha, h2, h3, hd, hf]

/-- The store in which `DoCombat` leaves `Store.duel`: both locals are spent. -/
theorem DoCombat_duel :
    DoCombat 1 Store.duel ⟨[0, 0, 0, 1], rfl⟩ ⟨[1, 0, 0, 0, 0], rfl⟩ (Rand.constant Draw.high 0)
      = .ok (Ratio.posInf,
          (((Store.duel.set Cell.ares ⟨45000, 15000, 0⟩).set Cell.ares ⟨0, 0, 0⟩).set
            Cell.dres ⟨2000, 0, 0⟩).set Cell.dres ⟨0, 0, 0⟩,
          { Rand.constant Draw.high 0 with fpos := 3, ipos := 2 }) := by
  have hn : (⟨45000, 15000, 0⟩ : Resources).MaxAllocation (UnitCosts Battleship) = 1 := by
    rw [MaxAllocation_eq_quota _ _ (by simp [Resources.NonNeg])
      (by norm_num [Resources.Exact]) (UnitCosts_exact _)]
    norm_num [Resources.quota, UnitCosts, min, Int.floor_eq_iff, MaxInt32]
  have hatk := MakeFleetByAlloc_last_slot_run ⟨45000, 15000, 0⟩
    [LightFighter, HeavyFighter, Cruiser] Battleship (by simp [Resources.NonNeg])
    (by norm_num [Resources.Exact])
  rw [hn] at hatk
  have hrem : (⟨45000, 15000, 0⟩ : Resources).minus 1 (UnitCosts Battleship) = ⟨0, 0, 0⟩ := by
    decide
  have e1 : [LightFighter, HeavyFighter, Cruiser] ++ [Battleship] = AttackerComposition := rfl
  have e2 : List.replicate [LightFighter, HeavyFighter, Cruiser].length (0 : ℚ) ++ [1]
      = (⟨[0, 0, 0, 1], rfl⟩ : AttackerAlloc).vals := rfl
  have e3 : List.replicate (Int.toNat 1) (MakeUnit Battleship) = [MakeUnit Battleship] := rfl
  have e4 : (⟨45000, 15000, 0⟩ : Resources) = Store.duel Cell.AttackerResources := rfl
  rw [hrem, e1, e2, e3] at hatk
  have hn2 : (⟨2000, 0, 0⟩ : Resources).MaxAllocation (UnitCosts RocketLauncher) = 1 := by
    rw [MaxAllocation_eq_quota _ _ (by simp [Resources.NonNeg])
      (by norm_num [Resources.Exact]) (UnitCosts_exact _)]
    norm_num [Resources.quota, UnitCosts, min, Int.floor_eq_iff, MaxInt32]
  have hdef := MakeFleetByAlloc_first_slot_run ⟨2000, 0, 0⟩ RocketLauncher
    [LightLaser, HeavyLaser, IonCannon, GaussCannon] (by simp [Resources.NonNeg])
    (by norm_num [Resources.Exact])
  rw [hn2] at hdef
  have hrem2 : (⟨2000, 0, 0⟩ : Resources).minus 1 (UnitCosts RocketLauncher) = ⟨0, 0, 0⟩ := by
    decide
  have e5 : RocketLauncher :: [LightLaser, HeavyLaser, IonCannon, GaussCannon]
      = DefenderComposition := rfl
  have e6 : (1 : ℚ) :: List.replicate [LightLaser, HeavyLaser, IonCannon, GaussCannon].length 0
      = (⟨[1, 0, 0, 0, 0], rfl⟩ : DefenderAlloc).vals := rfl
  have e7 : List.replicate (Int.toNat 1) (MakeUnit RocketLauncher) = [MakeUnit RocketLauncher] :=
    rfl
  rw [hrem2, e5, e6, e7] at hdef
  exact DoCombat_run 1 Store.duel ⟨[0, 0, 0, 1], rfl⟩ ⟨[1, 0, 0, 0, 0], rfl⟩
    (Rand.constant Draw.high 0) _ _ _ _ _ _ hatk hdef SimulateFight_battleship_rocketlauncher

/-- C15, witness: `DoCombat` on the store `Store.duel`, which builds one Battleship and
one RocketLauncher, under the source whose every draw is `0.95`. -/
theorem DoCombat_leaves_budgets_witness :
    ∃ s1 : Store,
      DoCombat 1 Store.duel ⟨[0, 0, 0, 1], rfl⟩ ⟨[1, 0, 0, 0, 0], rfl⟩
          (Rand.constant Draw.high 0)
        = .ok (Ratio.posInf, s1, { Rand.constant Draw.high 0 with fpos := 3, ipos := 2 }) ∧
      s1 Cell.AttackerResources = Store.duel Cell.AttackerResources ∧
      s1 Cell.DefenderResources = Store.duel Cell.DefenderResources :=
  ⟨_, DoCombat_duel,
    (DoCombat_leaves_budgets 1 Store.duel ⟨[0, 0, 0, 1], rfl⟩ ⟨[1, 0, 0, 0, 0], rfl⟩
      (Rand.constant Draw.high 0) _ _ _ DoCombat_duel).1⟩

end C15

section C16

theorem perm_set_cons {α : Type} (t : List α) (n : Nat) (b x : α) (h : t[n]? = some b) :
    (b :: t.set n x).Perm (x :: t) := by
  induction t generalizing n with
  | nil => simp at h
  | cons y t ih =>
    cases n with
    | zero =>
      simp only [List.getElem?_cons_zero, Option.some.injEq] at h
      rw [List.set_cons_zero, h]
      exact List.Perm.swap x b t
    | succ n =>
      simp only [List.getElem?_cons_succ] at h
      rw [List.set_cons_succ]
      exact (List.Perm.swap y b _).trans (((ih n h).cons y).trans (List.Perm.swap x y t))

/-- Writing two entries of a list into each other's place permutes the list. -/
theorem set_set_perm {α : Type} (x : List α) (n m : Nat) (a b : α)
    (ha : x[n]? = some a) (hb : x[m]? = some b) : ((x.set n b).set m a).Perm x := by
  induction x generalizing n m with
  | nil => simp at ha
  | cons y t ih =>
    cases n with
    | zero =>
      simp only [List.getElem?_cons_zero, Option.some.injEq] at ha
      cases m with
      | zero =>
        simp only [List.getElem?_cons_zero, Option.some.injEq] at hb
        simp [← ha, ← hb]
      | succ m =>
        simp only [List.getElem?_cons_succ] at hb
        rw [List.set_cons_zero, List.set_cons_succ, ← ha]
        exact perm_set_cons t m b y hb
    | succ n =>
      simp only [List.getElem?_cons_succ] at ha
      cases m with
      | zero =>
        simp only [List.getElem?_cons_zero, Option.some.injEq] at hb
        rw [List.set_cons_succ, List.set_cons_zero, ← hb]
        exact perm_set_cons t n a y ha
      | succ m =>
        simp only [List.getElem?_cons_succ] at hb
        rw [List.set_cons_succ, List.set_cons_succ]
        exact (ih n m ha hb).cons y

theorem forall₂_getElem? {α β : Type} {R : α → β → Prop} {xs : List α} {ys : List β}
    (h : List.Forall₂ R xs ys) (n : Nat) (a : α) (b : β)
    (ha : xs[n]? = some a) (hb : ys[n]? = some b) : R a b := by
  induction h generalizing n with
  | nil => simp at ha
  | cons h0 _ ih =>
    cases n with
    | zero =>
      simp only [List.getElem?_cons_zero, Option.some.injEq] at ha hb
      rw [← ha, ← hb]; exact h0
    | succ n =>
      simp only [List.getElem?_cons_succ] at ha hb
      exact ih n ha hb

theorem forall₂_set {α β : Type} {R : α → β → Prop} {xs : List α} {ys : List β}
    (h : List.Forall₂ R xs ys) (n : Nat) (a : α) (b : β) (hab : R a b) :
    List.Forall₂ R (xs.set n a) (ys.set n b) := by
  induction h generalizing n with
  | nil => exact List.Forall₂.nil
  | cons h0 hrest ih =>
    cases n with
    | zero => exact List.Forall₂.cons hab hrest
    | succ n => exact List.Forall₂.cons h0 (ih n)

/-- What a swap that returned did. -/
theorem swapAt_eq {α : Type} (x x1 : List α) (i j : Int) (h : swapAt x i j = .ok x1) :
    ∃ a b, x[i.toNat]? = some a ∧ x[j.toNat]? = some b ∧
      x1 = (x.set i.toNat b).set j.toNat a := by
  unfold swapAt at h
  split_ifs at h with hij
  cases ha : x[i.toNat]? with
  | none => simp [ha] at h
  | some a =>
    cases hb : x[j.toNat]? with
    | none => simp [ha, hb] at h
    | some b =>
      simp only [ha, hb, Except.ok.injEq] at h
      exact ⟨a, b, rfl, rfl, h.symm⟩

theorem swapAt_ok {α : Type} (x : List α) (i j : Int)
    (hi : 0 ≤ i ∧ i < (x.length : Int)) (hj : 0 ≤ j ∧ j < (x.length : Int)) :
    ∃ x1, swapAt x i j = .ok x1 := by
  have h1 : i.toNat < x.length := by omega
  have h2 : j.toNat < x.length := by omega
  refine ⟨(x.set i.toNat x[j.toNat]).set j.toNat x[i.toNat], ?_⟩
  simp [swapAt, hi.1, hj.1, List.getElem?_eq_getElem h1, List.getElem?_eq_getElem h2]

/-- One `Swap` with indices in range returns and keeps every score with its index. -/
theorem Scores_Swap_keeps (data : List Ratio) (s : Scores) (i j : Int)
    (hpair : List.Forall₂ (ScoreOf data) s.Float64Slice s.idx)
    (hi : 0 ≤ i ∧ i < (s.idx.length : Int)) (hj : 0 ≤ j ∧ j < (s.idx.length : Int)) :
    ∃ s1, s.Swap i j = .ok s1 ∧
      List.Forall₂ (ScoreOf data) s1.Float64Slice s1.idx ∧
      s1.idx.Perm s.idx ∧ s1.Float64Slice.Perm s.Float64Slice := by
  have hlen : s.Float64Slice.length = s.idx.length := List.Forall₂.length_eq hpair
  obtain ⟨v1, hv⟩ := swapAt_ok s.Float64Slice i j (by rw [hlen]; exact hi) (by rw [hlen]; exact hj)
  obtain ⟨k1, hk⟩ := swapAt_ok s.idx i j hi hj
  obtain ⟨a, b, ha, hb, hv1⟩ := swapAt_eq _ _ _ _ hv
  obtain ⟨c, d, hc, hd, hk1⟩ := swapAt_eq _ _ _ _ hk
  refine ⟨⟨v1, k1⟩, by simp only [Scores.Swap, hv, hk], ?_, ?_, ?_⟩
  · show List.Forall₂ (ScoreOf data) v1 k1
    rw [hv1, hk1]
    exact forall₂_set (forall₂_set hpair _ _ _ (forall₂_getElem? hpair _ _ _ hb hd)) _ _ _
      (forall₂_getElem? hpair _ _ _ ha hc)
  · show k1.Perm s.idx
    rw [hk1]; exact set_set_perm _ _ _ _ _ hc hd
  · show v1.Perm s.Float64Slice
    rw [hv1]; exact set_set_perm _ _ _ _ _ ha hb

theorem NewScores_pairs (data : List Ratio) :
    List.Forall₂ (ScoreOf data) (NewScores data).Float64Slice (NewScores data).idx := by
  rw [List.forall₂_iff_get]
  refine ⟨by simp [NewScores], fun i h1 h2 => ?_⟩
  have hi : i < data.length := h1
  simp [NewScores, ScoreOf, List.getElem?_eq_getElem hi]

/-- C16: every sequence of `Swap` calls with indices in range, applied to
`NewScores(data)`, returns a `Scores` value in which the score at each position is the
entry of `data` at the index that `idx` holds at that position, `idx` is a permutation
of `0 .. len-1` and the scores are a permutation of `data`.  `sort.Sort` only calls
`Len`, `Less` and `Swap`; when it leaves the scores ascending, `idx[k]` is therefore
the original index of the `k`-th smallest score. -/
theorem Scores_swaps_keep_pairing (data : List Ratio) (swaps : List (Int × Int))
    (hin : ∀ p ∈ swaps, (0 ≤ p.1 ∧ p.1 < (data.length : Int)) ∧
      (0 ≤ p.2 ∧ p.2 < (data.length : Int))) :
    ∃ s, (NewScores data).swaps swaps = .ok s ∧
      List.Forall₂ (ScoreOf data) s.Float64Slice s.idx ∧
      s.idx.Perm ((List.range data.length).map Int.ofNat) ∧
      s.Float64Slice.Perm data := by
  have key : ∀ (swaps : List (Int × Int)) (s0 : Scores),
      (∀ p ∈ swaps, (0 ≤ p.1 ∧ p.1 < (s0.idx.length : Int)) ∧
        (0 ≤ p.2 ∧ p.2 < (s0.idx.length : Int))) →
      List.Forall₂ (ScoreOf data) s0.Float64Slice s0.idx →
      ∃ s, s0.swaps swaps = .ok s ∧ List.Forall₂ (ScoreOf data) s.Float64Slice s.idx ∧
        s.idx.Perm s0.idx ∧ s.Float64Slice.Perm s0.Float64Slice := by
    intro swaps
    induction swaps with
    | nil => intro s0 _ h; exact ⟨s0, rfl, h, List.Perm.refl _, List.Perm.refl _⟩
    | cons p rest ih =>
      intro s0 hin0 h
      obtain ⟨hp1, hp2⟩ := hin0 p (List.mem_cons_self _ _)
      obtain ⟨s1, hs1, hpair1, hperm1, hvals1⟩ := Scores_Swap_keeps data s0 p.1 p.2 h hp1 hp2
      obtain ⟨s, hs, hpair, hperm, hvals⟩ := ih s1
        (by
          intro q hq
          rw [hperm1.length_eq]
          exact hin0 q (List.mem_cons_of_mem _ hq))
        hpair1
      exact ⟨s, by simp only [Scores.swaps, hs1, hs], hpair, hperm.trans hperm1,
        hvals.trans hvals1⟩
  exact key swaps (NewScores data) (by simpa [NewScores] using hin) (NewScores_pairs data)

/-- C16, witness: three scores and the swaps `(0, 2)`, `(1, 0)`. -/
theorem Scores_swaps_keep_pairing_witness :
    ∃ s, (NewScores [Ratio.finite 3, Ratio.posInf, Ratio.finite 1]).swaps [(0, 2), (1, 0)]
        = .ok s ∧
      List.Forall₂ (ScoreOf [Ratio.finite 3, Ratio.posInf, Ratio.finite 1])
        s.Float64Slice s.idx ∧
      s.idx.Perm ((List.range
        [Ratio.finite 3, Ratio.posInf, Ratio.finite 1].length).map Int.ofNat) ∧
      s.Float64Slice.Perm [Ratio.finite 3, Ratio.posInf, Ratio.finite 1] :=
  Scores_swaps_keep_pairing [Ratio.finite 3, Ratio.posInf, Ratio.finite 1] [(0, 2), (1, 0)]
    (by
      intro p hp
      simp only [List.mem_cons, List.mem_singleton, List.not_mem_nil, or_false] at hp
      rcases hp with rfl | rfl <;> simp)

end C16

section C11

/-- With every draw `0.5` no field mutates and the blend of `{0, 0, 0, 1}` with itself
is `{0, 0, 0, 1}`, in `float64` arithmetic. -/
theorem avg_half (rng : Rand) (hf : rng.floats = fun _ => Draw.half) :
    avg fl64 [0, 0, 0, 1] [0, 0, 0, 1] rng
      = .ok ([0, 0, 0, 1], { rng with fpos := rng.fpos + 12 }) := by
  have h2 : fl64 2⁻¹ = 2⁻¹ := by simpa using fl64_half
  norm_num [avg, avg.loop, Rand.Float64, hf, Draw.half, fl64_thousandth, fl64_999, fl64_one,
    fl64_half, fl64_zero, h2]

theorem reproduceAtk_loop_half (n : Nat) (out : List AttackerAlloc) (rng : Rand)
    (hf : rng.floats = fun _ => Draw.half) (hi : rng.ints = fun _ => 0) :
    reproduceAtk.loop fl64 reproduceAtk.population n out rng
      = .ok (out ++ List.replicate n ⟨[0, 0, 0, 1], rfl⟩,
          { rng with fpos := rng.fpos + 12 * n, ipos := rng.ipos + 2 * n }) := by
  induction n generalizing out rng with
  | zero => simp [reproduceAtk.loop]
  | succ n ih =>
    have hlast : elemAt reproduceAtk.population 99 = .ok ⟨[0, 0, 0, 1], rfl⟩ := rfl
    have hnew : NewAttackerAlloc [0, 0, 0, 1] = .ok ⟨[0, 0, 0, 1], rfl⟩ := rfl
    have e : (99 : Int) - ((0 : ℕ) : Int) % 20 = 99 := by decide
    simp only [reproduceAtk.loop, Rand.Intn, hi, if_neg (show ¬ ((20 : Int) ≤ 0) by decide),
      e, hlast]
    rw [avg_half ⟨rng.floats, fun _ => 0, rng.fpos, rng.ipos + 1 + 1⟩ hf]
    simp only [hnew]
    rw [ih _ ⟨rng.floats, fun _ => 0, rng.fpos + 12, rng.ipos + 1 + 1⟩ hf rfl]
    simp only [List.append_assoc, List.singleton_append, ← List.replicate_succ]
    congr 2
    simp only [Rand.mk.injEq, true_and]
    constructor <;> ring

/-- C11: `reproduceAtk` does not read the ranking.  For a population in which the
twenty best-ranked genomes are all `{1, 1, 1, 1}`, and a source of randomness that
never mutates, every new genome is `{0, 0, 0, 1}`, the blend of the genome at index
`99` with itself: the parents are taken from the indices `80 .. 99` of the population
and not from the indices that the ranking holds at its positions `80 .. 99`.  The
result of `reproduceAtk`, and that of `reproduceDef`, is the same for every ranking. -/
theorem reproduce_ignores_ranking :
    (∀ k : Nat, 80 ≤ k → k < 100 → ∃ i, reproduceAtk.ranking.idx[k]? = some i ∧
      elemAt reproduceAtk.population i = .ok ⟨[1, 1, 1, 1], rfl⟩) ∧
    (∃ rng1, reproduceAtk fl64 reproduceAtk.population reproduceAtk.ranking
        (Rand.constant Draw.half 0) = .ok (List.replicate 100 ⟨[0, 0, 0, 1], rfl⟩, rng1)) ∧
    (∀ (fl : ℚ → ℚ) (atkComp : List AttackerAlloc) (s s1 : Scores) (rng : Rand),
      reproduceAtk fl atkComp s rng = reproduceAtk fl atkComp s1 rng) ∧
    (∀ (fl : ℚ → ℚ) (defComp : List DefenderAlloc) (s s1 : Scores) (rng : Rand),
      reproduceDef fl defComp s rng = reproduceDef fl defComp s1 rng) := by
  refine ⟨?_, ?_, fun _ _ _ _ _ => rfl, fun _ _ _ _ _ => rfl⟩
  · intro k h1 h2
    interval_cases k <;> exact ⟨_, rfl, rfl⟩
  · exact ⟨_, reproduceAtk_loop_half 100 [] (Rand.constant Draw.half 0) rfl rfl⟩

end C11

section Crossover

/-- One pass of the loop of `avg` writes the field that the crossover rule gives for
the next draws of the source, and consumes one draw or three. -/
theorem avg_loop_step (fl : ℚ → ℚ) (l r : ℚ) (left right out : List ℚ) (rng : Rand) :
    ∃ c, 1 ≤ c ∧ c ≤ 3 ∧
      avg.loop fl (l :: left) (r :: right) out rng
        = avg.loop fl left right
            (out ++ [crossover fl l r (rng.floats rng.fpos).val (rng.floats (rng.fpos + 1)).val
              (rng.floats (rng.fpos + 2)).val])
            { rng with fpos := rng.fpos + c } := by
  by_cases h1 : (rng.floats rng.fpos).val < fl (1 / 1000)
  · exact ⟨1, le_refl 1, by norm_num,
      by simp only [avg.loop, crossover, Rand.Float64, if_pos h1]⟩
  · by_cases h2 : (rng.floats rng.fpos).val > fl (999 / 1000)
    · exact ⟨1, le_refl 1, by norm_num,
        by simp only [avg.loop, crossover, Rand.Float64, if_neg h1, if_pos h2]⟩
    · exact ⟨3, by norm_num, le_refl 3,
        by simp only [avg.loop, crossover, Rand.Float64, if_neg h1, if_neg h2, Nat.add_assoc,
          Nat.reduceAdd]⟩

theorem avg_loop_rule (fl : ℚ → ℚ) (left : List ℚ) :
    ∀ (right out : List ℚ) (rng : Rand), left.length = right.length →
      ∃ res rng1, avg.loop fl left right out rng = (out ++ res, rng1) ∧
        res.length = left.length ∧
        ∀ (i : Nat) (l r : ℚ), left[i]? = some l → right[i]? = some r →
          ∃ k, rng.fpos + i ≤ k ∧ k ≤ rng.fpos + 3 * i ∧
            res[i]? = some (crossover fl l r (rng.floats k).val (rng.floats (k + 1)).val
              (rng.floats (k + 2)).val) := by
  induction left with
  | nil =>
    intro right out rng h
    cases right with
    | nil => exact ⟨[], rng, by simp [avg.loop], rfl, fun i l r hl _ => by simp at hl⟩
    | cons r right => simp at h
  | cons l left ih =>
    intro right out rng h
    cases right with
    | nil => simp at h
    | cons r right =>
      obtain ⟨c, hc1, hc3, hstep⟩ := avg_loop_step fl l r left right out rng
      obtain ⟨res, rng1, hrun, hlen, hfields⟩ := ih right
        (out ++ [crossover fl l r (rng.floats rng.fpos).val (rng.floats (rng.fpos + 1)).val
          (rng.floats (rng.fpos + 2)).val])
        { rng with fpos := rng.fpos + c } (by simpa using h)
      refine ⟨_ :: res, rng1, by rw [hstep, hrun, List.append_assoc]; rfl, by simp [hlen], ?_⟩
      intro i a b ha hb
      cases i with
      | zero =>
        simp only [List.getElem?_cons_zero, Option.some.injEq] at ha hb
        exact ⟨rng.fpos, by omega, by omega, by rw [← ha, ← hb, List.getElem?_cons_zero]⟩
      | succ i =>
        simp only [List.getElem?_cons_succ] at ha hb
        obtain ⟨k, hk1, hk2, hk⟩ := hfields i a b ha hb
        exact ⟨k, by simp only at hk1; omega, by simp only at hk2; omega,
          by simpa only [List.getElem?_cons_succ] using hk⟩

end Crossover

section C12

/-- C12, counterexample: in `float64` arithmetic identical parents do not give the
child back.  The parents' field is `0.1`, every draw of the source is `0.2`, so no
mutation is triggered and `p = 0.2`; the child's field is `0.10000000000000002`, one
unit in the last place above `0.1`. -/
theorem avg_identical_parents_counterexample :
    fl64 (1 / 10) = 3602879701896397 / 36028797018963968 ∧
    avg fl64 [3602879701896397 / 36028797018963968] [3602879701896397 / 36028797018963968]
        (Rand.constant Draw.fifth 0)
      = .ok ([7205759403792795 / 72057594037927936], ⟨fun _ => Draw.fifth, fun _ => 0, 3, 0⟩) ∧
    (7205759403792795 / 72057594037927936 : ℚ) ≠ 3602879701896397 / 36028797018963968 := by
  have h1 : fl64 (3602879701896397 / 18014398509481984 + 3602879701896397 / 18014398509481984)
      = 3602879701896397 / 9007199254740992 :=
    fl64_near _ (-2) 7205759403792794 _ (by norm_num) (by norm_num) (by norm_num) (by norm_num)
      (by norm_num)
  have h2 : fl64 (3602879701896397 / 9007199254740992 / 2)
      = 3602879701896397 / 18014398509481984 :=
    fl64_near _ (-3) 7205759403792794 _ (by norm_num) (by norm_num) (by norm_num) (by norm_num)
      (by norm_num)
  have h3 : fl64 (3602879701896397 / 18014398509481984 * (3602879701896397 / 36028797018963968))
      = 1441151880758559 / 72057594037927936 :=
    fl64_near _ (-6) 5764607523034236 _ (by norm_num) (by norm_num) (by norm_num) (by norm_num)
      (by norm_num)
  have h4 : fl64 (1 - 3602879701896397 / 18014398509481984)
      = 3602879701896397 / 4503599627370496 := by
    rw [fl64_of_binade _ (-1) 7205759403792794 (by norm_num) (by norm_num)
      (roundEven_tie _ 7205759403792793 7205759403792794 (by norm_num) (Or.inr ⟨rfl, by decide⟩))]
    norm_num
  have h5 : fl64 (3602879701896397 / 4503599627370496 * (3602879701896397 / 36028797018963968))
      = 1441151880758559 / 18014398509481984 :=
    fl64_near _ (-4) 5764607523034236 _ (by norm_num) (by norm_num) (by norm_num) (by norm_num)
      (by norm_num)
  have h6 : fl64 (1441151880758559 / 72057594037927936 + 1441151880758559 / 18014398509481984)
      = 7205759403792795 / 72057594037927936 :=
    fl64_near _ (-4) 7205759403792795 _ (by norm_num) (by norm_num) (by norm_num) (by norm_num)
      (by norm_num)
  refine ⟨?_, ?_, by norm_num⟩
  · exact fl64_near _ (-4) 7205759403792794 _ (by norm_num) (by norm_num) (by norm_num) (by norm_num)
      (by norm_num)
  · simp only [avg, avg.loop, Rand.Float64, Rand.constant, Draw.fifth, fl64_thousandth,
      fl64_999, h1, h2, h3, h4, h5, h6]
    norm_num

/-- C12, amended: for parents of equal length `avg` returns a child of that length, and
field `i` of the child is what the crossover rule gives for `left[i]`, `right[i]` and
three consecutive draws `mc`, `u1`, `u2` of the source, of which the first comes after
`i` to `3 * i` earlier draws.  The rule: if `mc < 0.001` the field is `0.001`, if
`mc > 0.999` it is `0.999`, whatever the parents; otherwise it is
`p*left[i] + (1-p)*right[i]` with `p = (u1+u2)/2`, the result of each operation rounded.
In exact arithmetic identical parents `x` without mutation give the field `x`. -/
theorem avg_crossover_rule (fl : ℚ → ℚ) (left right : List ℚ) (rng : Rand)
    (h : left.length = right.length) :
    (∃ out rng1, avg fl left right rng = .ok (out, rng1) ∧ out.length = left.length ∧
      ∀ (i : Nat) (l r : ℚ), left[i]? = some l → right[i]? = some r →
        ∃ k, rng.fpos + i ≤ k ∧ k ≤ rng.fpos + 3 * i ∧
          out[i]? = some (crossover fl l r (rng.floats k).val (rng.floats (k + 1)).val
            (rng.floats (k + 2)).val)) ∧
    (∀ l r mc u1 u2 : ℚ, mc < fl (1 / 1000) → crossover fl l r mc u1 u2 = fl (1 / 1000)) ∧
    (∀ l r mc u1 u2 : ℚ, ¬ mc < fl (1 / 1000) → mc > fl (999 / 1000) →
      crossover fl l r mc u1 u2 = fl (999 / 1000)) ∧
    (∀ l r mc u1 u2 : ℚ, ¬ mc < fl (1 / 1000) → ¬ mc > fl (999 / 1000) →
      crossover fl l r mc u1 u2
        = fl (fl (fl (fl (u1 + u2) / 2) * l) + fl (fl (1 - fl (fl (u1 + u2) / 2)) * r))) ∧
    (∀ x mc u1 u2 : ℚ, 1 / 1000 ≤ mc → mc ≤ 999 / 1000 → crossover id x x mc u1 u2 = x) := by
  refine ⟨?_, ?_, ?_, ?_, ?_⟩
  · obtain ⟨res, rng1, hrun, hlen, hfields⟩ := avg_loop_rule fl left right [] rng h
    exact ⟨res, rng1, by simp only [avg, h, ne_eq, not_true_eq_false, if_false, hrun,
      List.nil_append], hlen, hfields⟩
  · intro l r mc u1 u2 h1
    simp only [crossover, if_pos h1]
  · intro l r mc u1 u2 h1 h2
    simp only [crossover, if_neg h1, if_pos h2]
  · intro l r mc u1 u2 h1 h2
    simp only [crossover, if_neg h1, if_neg h2]
  · intro x mc u1 u2 h1 h2
    simp only [crossover, id, if_neg (not_lt.mpr h1), if_neg (not_lt.mpr h2)]
    ring

/-- C12, witness: parents `{0.5}` and `{0.25}` in exact arithmetic, every draw `0.5`. -/
theorem avg_crossover_rule_witness :
    ∃ out rng1, avg id [1 / 2] [1 / 4] (Rand.constant Draw.half 0) = .ok (out, rng1) ∧
      out.length = 1 ∧
      ∃ k, k ≤ 0 ∧ out[0]? = some (crossover id (1 / 2) (1 / 4)
        ((Rand.constant Draw.half 0).floats k).val
        ((Rand.constant Draw.half 0).floats (k + 1)).val
        ((Rand.constant Draw.half 0).floats (k + 2)).val) := by
  obtain ⟨⟨out, rng1, hrun, hlen, hfields⟩, _⟩ :=
    avg_crossover_rule id [1 / 2] [1 / 4] (Rand.constant Draw.half 0) rfl
  obtain ⟨k, _, hk, hout⟩ := hfields 0 (1 / 2) (1 / 4) rfl rfl
  exact ⟨out, rng1, hrun, hlen, k, hk, hout⟩

end C12

section C20

/-- C20, counterexample: in `float64` arithmetic a child's field can lie above both
parents' fields.  The parents' fields are `0.19999999999999998` and `0.2`, two
neighbouring `float64` values, every draw of the source is `0.2`, so no mutation is
triggered; the child's field is `0.20000000000000004`. -/
theorem avg_between_parents_counterexample :
    fl64 (7205759403792793 / 36028797018963968) = 7205759403792793 / 36028797018963968 ∧
    fl64 (3602879701896397 / 18014398509481984) = 3602879701896397 / 18014398509481984 ∧
    avg fl64 [7205759403792793 / 36028797018963968] [3602879701896397 / 18014398509481984]
        (Rand.constant Draw.fifth 0)
      = .ok ([7205759403792795 / 36028797018963968], ⟨fun _ => Draw.fifth, fun _ => 0, 3, 0⟩) ∧
    Max.max (7205759403792793 / 36028797018963968 : ℚ) (3602879701896397 / 18014398509481984) < 7205759403792795 / 36028797018963968 := by
  have h1 : fl64 (3602879701896397 / 18014398509481984 + 3602879701896397 / 18014398509481984)
      = 3602879701896397 / 9007199254740992 :=
    fl64_near _ (-2) 7205759403792794 _ (by norm_num) (by norm_num) (by norm_num) (by norm_num)
      (by norm_num)
  have h2 : fl64 (3602879701896397 / 9007199254740992 / 2)
      = 3602879701896397 / 18014398509481984 :=
    fl64_near _ (-3) 7205759403792794 _ (by norm_num) (by norm_num) (by norm_num) (by norm_num)
      (by norm_num)
  have h3 : fl64 (3602879701896397 / 18014398509481984 * (7205759403792793 / 36028797018963968))
      = 5764607523034235 / 144115188075855872 :=
    fl64_near _ (-5) 5764607523034235 _ (by norm_num) (by norm_num) (by norm_num) (by norm_num)
      (by norm_num)
  have h4 : fl64 (1 - 3602879701896397 / 18014398509481984)
      = 3602879701896397 / 4503599627370496 := by
    rw [fl64_of_binade _ (-1) 7205759403792794 (by norm_num) (by norm_num)
      (roundEven_tie _ 7205759403792793 7205759403792794 (by norm_num) (Or.inr ⟨rfl, by decide⟩))]
    norm_num
  have h5 : fl64 (3602879701896397 / 4503599627370496 * (3602879701896397 / 18014398509481984))
      = 1441151880758559 / 9007199254740992 :=
    fl64_near _ (-3) 5764607523034236 _ (by norm_num) (by norm_num) (by norm_num) (by norm_num)
      (by norm_num)
  have h6 : fl64 (5764607523034235 / 144115188075855872 + 1441151880758559 / 9007199254740992)
      = 7205759403792795 / 36028797018963968 :=
    fl64_near _ (-3) 7205759403792795 _ (by norm_num) (by norm_num) (by norm_num) (by norm_num)
      (by norm_num)
  refine ⟨?_, ?_, ?_, by norm_num⟩
  · exact fl64_near _ (-3) 7205759403792793 _ (by norm_num) (by norm_num) (by norm_num) (by norm_num)
      (by norm_num)
  · exact fl64_near _ (-3) 7205759403792794 _ (by norm_num) (by norm_num) (by norm_num) (by norm_num)
      (by norm_num)
  · simp only [avg, avg.loop, Rand.Float64, Rand.constant, Draw.fifth, fl64_thousandth,
      fl64_999, h1, h2, h3, h4, h5, h6]
    norm_num

theorem avg_range (fl : ℚ → ℚ) (hfl : Rounding fl) (left right : List ℚ) (rng : Rand)
    (hl : ∀ x ∈ left, 0 ≤ x ∧ x ≤ 1) (hr : ∀ x ∈ right, 0 ≤ x ∧ x ≤ 1)
    (h : left.length = right.length) :
    ∃ out rng1, avg fl left right rng = .ok (out, rng1) ∧ out.length = left.length ∧
      (∀ x ∈ out, 0 ≤ x ∧ x ≤ 1) ∧
      ∀ (i : Nat) (l r : ℚ), left[i]? = some l → right[i]? = some r →
        ∃ k, rng.fpos + i ≤ k ∧ k ≤ rng.fpos + 3 * i ∧
          out[i]? = some (crossover fl l r (rng.floats k).val (rng.floats (k + 1)).val
            (rng.floats (k + 2)).val) := by
  obtain ⟨res, rng1, hrun, hlen, hfields⟩ := avg_loop_rule fl left right [] rng h
  refine ⟨res, rng1, by simp only [avg, h, ne_eq, not_true_eq_false, if_false, hrun,
    List.nil_append], hlen, ?_, hfields⟩
  intro x hx
  obtain ⟨i, hi, hxi⟩ := List.getElem_of_mem hx
  have hil : i < left.length := by omega
  have hir : i < right.length := by omega
  obtain ⟨k, _, _, hk⟩ := hfields i left[i] right[i] (List.getElem?_eq_getElem hil)
    (List.getElem?_eq_getElem hir)
  rw [List.getElem?_eq_getElem hi, Option.some.injEq, hxi] at hk
  rw [hk]
  exact crossover_range hfl _ _ _ _ _ (hl _ (List.getElem_mem hil)) (hr _ (List.getElem_mem hir))
    ⟨(rng.floats (k + 1)).nonneg, (rng.floats (k + 1)).lt_one⟩
    ⟨(rng.floats (k + 2)).nonneg, (rng.floats (k + 2)).lt_one⟩

/-- C20, amended: for parents whose fields lie in `[0, 1]` and every source of
randomness, `avg` aborts when the lengths differ and returns when they are equal; it
then returns a child of the same length whose fields lie in `[0, 1]`, in `float64`
arithmetic as in exact arithmetic.  In exact arithmetic each field whose mutation roll
`mc` lies in `[0.001, 0.999]` lies between the two parents' fields. -/
theorem avg_child_in_range (left right : List ℚ) (rng : Rand)
    (hl : ∀ x ∈ left, 0 ≤ x ∧ x ≤ 1) (hr : ∀ x ∈ right, 0 ≤ x ∧ x ≤ 1) :
    (left.length ≠ right.length →
      ∀ fl, avg fl left right rng = .error Fault.lengthMismatch) ∧
    (left.length = right.length →
      (∃ out rng1, avg fl64 left right rng = .ok (out, rng1) ∧ out.length = left.length ∧
        ∀ x ∈ out, 0 ≤ x ∧ x ≤ 1) ∧
      (∃ out rng1, avg id left right rng = .ok (out, rng1) ∧ out.length = left.length ∧
        (∀ x ∈ out, 0 ≤ x ∧ x ≤ 1) ∧
        ∀ (i : Nat) (l r : ℚ), left[i]? = some l → right[i]? = some r →
          ∃ c k, out[i]? = some c ∧ rng.fpos + i ≤ k ∧ k ≤ rng.fpos + 3 * i ∧
            (1 / 1000 ≤ (rng.floats k).val → (rng.floats k).val ≤ 999 / 1000 →
              Min.min l r ≤ c ∧ c ≤ Max.max l r))) := by
  refine ⟨fun h fl => by simp only [avg, h, ne_eq, not_false_eq_true, if_true], fun h => ⟨?_, ?_⟩⟩
  · obtain ⟨out, rng1, hrun, hlen, hrange, _⟩ := avg_range fl64 Rounding_fl64 left right rng hl hr h
    exact ⟨out, rng1, hrun, hlen, hrange⟩
  · obtain ⟨out, rng1, hrun, hlen, hrange, hfields⟩ :=
      avg_range id Rounding_id left right rng hl hr h
    refine ⟨out, rng1, hrun, hlen, hrange, ?_⟩
    intro i l r hli hri
    obtain ⟨k, hk1, hk2, hk⟩ := hfields i l r hli hri
    exact ⟨_, k, hk, hk1, hk2, fun hlo hhi => crossover_between l r _ _ _ hlo hhi
      ⟨(rng.floats (k + 1)).nonneg, (rng.floats (k + 1)).lt_one⟩
      ⟨(rng.floats (k + 2)).nonneg, (rng.floats (k + 2)).lt_one⟩⟩

/-- C20, witness: the genomes `{0.25, 1}` and `{0.75, 0}`, every draw `0.5`. -/
theorem avg_child_in_range_witness :
    ∃ out rng1, avg fl64 [1 / 4, 1] [3 / 4, 0] (Rand.constant Draw.half 0) = .ok (out, rng1) ∧
      out.length = 2 ∧ ∀ x ∈ out, 0 ≤ x ∧ x ≤ 1 :=
  ((avg_child_in_range [1 / 4, 1] [3 / 4, 0] (Rand.constant Draw.half 0)
    (by intro x hx; simp only [List.mem_cons, List.mem_singleton, List.not_mem_nil,
          or_false] at hx
        rcases hx with rfl | rfl <;> norm_num)
    (by intro x hx; simp only [List.mem_cons, List.mem_singleton, List.not_mem_nil,
          or_false] at hx
        rcases hx with rfl | rfl <;> norm_num)).2 rfl).1

end C20

section Aggregator

theorem addAt_ok (fl : ℚ → ℚ) (x : List Ratio) (i : Int) (v : Ratio) (h0 : 0 ≤ i)
    (h1 : i.toNat < x.length) :
    ∃ x1, addAt fl x i v = .ok x1 ∧ x1.length = x.length ∧
      ∀ (k : Nat) (a : Ratio), x[k]? = some a →
        x1[k]? = some (if i = (k : Int) then Ratio.add fl a v else a) := by
  refine ⟨x.set i.toNat (Ratio.add fl x[i.toNat] v), ?_, by simp, ?_⟩
  · simp [addAt, h0, List.getElem?_eq_getElem h1]
  · intro k a hk
    rw [List.getElem?_set]
    by_cases hik : i = (k : Int)
    · have e : i.toNat = k := by omega
      have hx : x[i.toNat]? = some a := by rw [e]; exact hk
      rw [List.getElem?_eq_getElem h1, Option.some.injEq] at hx
      rw [if_pos e, if_pos h1, if_pos hik, hx]
    · have e : ¬ i.toNat = k := by omega
      rw [if_neg e, if_neg hik, hk]

/-- The aggregator adds to each score the results of its row, or column, in the order
in which they are delivered. -/
theorem aggregate_spec (fl : ℚ → ℚ) (rs : List result) :
    ∀ (A0 D0 : List Ratio),
      (∀ r ∈ rs, (0 ≤ r.i ∧ r.i.toNat < A0.length) ∧ (0 ≤ r.j ∧ r.j.toNat < D0.length)) →
      ∃ A D, step.aggregate fl rs A0 D0 = .ok (A, D) ∧ A.length = A0.length ∧
        D.length = D0.length ∧
        (∀ (k : Nat) (a : Ratio), A0[k]? = some a →
          A[k]? = some (((rs.filter fun r => r.i = (k : Int)).map result.score).foldl
            (Ratio.add fl) a)) ∧
        (∀ (k : Nat) (a : Ratio), D0[k]? = some a →
          D[k]? = some (((rs.filter fun r => r.j = (k : Int)).map result.score).foldl
            (Ratio.add fl) a)) := by
  induction rs with
  | nil =>
    intro A0 D0 _
    exact ⟨A0, D0, rfl, rfl, rfl, fun k a h => by simpa using h, fun k a h => by simpa using h⟩
  | cons r rest ih =>
    intro A0 D0 hin
    obtain ⟨⟨hi0, hi1⟩, ⟨hj0, hj1⟩⟩ := hin r (List.mem_cons_self _ _)
    obtain ⟨A1, hA1, hlenA, hgetA⟩ := addAt_ok fl A0 r.i r.score hi0 hi1
    obtain ⟨D1, hD1, hlenD, hgetD⟩ := addAt_ok fl D0 r.j r.score hj0 hj1
    obtain ⟨A, D, hrun, hA, hD, hrow, hcol⟩ := ih A1 D1 (by
      intro q hq
      rw [hlenA, hlenD]
      exact hin q (List.mem_cons_of_mem _ hq))
    refine ⟨A, D, by simp only [step.aggregate, hA1, hD1, hrun], by rw [hA, hlenA],
      by rw [hD, hlenD], ?_, ?_⟩
    · intro k a hk
      rw [hrow k _ (hgetA k a hk), List.filter_cons]
      by_cases h : r.i = (k : Int)
      · simp [h]
      · simp [h]
    · intro k a hk
      rw [hcol k _ (hgetD k a hk), List.filter_cons]
      by_cases h : r.j = (k : Int)
      · simp [h]
      · simp [h]

theorem results_in_range (score : Int → Int → Ratio) (r : result)
    (h : r ∈ step.results score) :
    (0 ≤ r.i ∧ r.i.toNat < 100) ∧ (0 ≤ r.j ∧ r.j.toNat < 100) := by
  simp only [step.results, step.tasks, List.mem_map, List.mem_flatMap, List.mem_range] at h
  obtain ⟨t, ⟨a, ha, b, hb, rfl⟩, rfl⟩ := h
  simp only [Int.ofNat_eq_coe, Int.toNat_ofNat]
  omega

/-- The score arrays after the results `delivered`, which name genomes in range. -/
theorem scores_spec (fl : ℚ → ℚ) (delivered : List result)
    (hin : ∀ r ∈ delivered, (0 ≤ r.i ∧ r.i.toNat < 100) ∧ (0 ≤ r.j ∧ r.j.toNat < 100)) :
    ∃ A D, step.scores fl delivered = .ok (A, D) ∧ A.length = 100 ∧ D.length = 100 ∧
      ∀ i : Nat, i < 100 →
        A[i]? = some (Ratio.sum fl ((delivered.filter fun r => r.i = (i : Int)).map
          result.score)) ∧
        D[i]? = some (Ratio.sum fl ((delivered.filter fun r => r.j = (i : Int)).map
          result.score)) := by
  obtain ⟨A, D, hrun, hA, hD, hrow, hcol⟩ := aggregate_spec fl delivered
    (List.replicate 100 (Ratio.finite 0)) (List.replicate 100 (Ratio.finite 0))
    (by simpa using hin)
  refine ⟨A, D, hrun, by simpa using hA, by simpa using hD, fun i hi => ⟨?_, ?_⟩⟩
  · exact hrow i _ (by rw [List.getElem?_replicate, if_pos hi])
  · exact hcol i _ (by rw [List.getElem?_replicate, if_pos hi])

end Aggregator

section Rows

/-- In exact arithmetic the order of two summands does not matter. -/
theorem Ratio.add_exact_comm (a b c : Ratio) :
    Ratio.add id (Ratio.add id a b) c = Ratio.add id (Ratio.add id a c) b := by
  cases a <;> cases b <;> cases c <;> simp [Ratio.add, add_right_comm]

/-- In exact arithmetic a sum does not depend on the order of the summands. -/
theorem Ratio.sum_perm (xs ys : List Ratio) (h : xs.Perm ys) :
    Ratio.sum id xs = Ratio.sum id ys :=
  List.Perm.foldl_eq' h (fun x _ y _ z => Ratio.add_exact_comm z x y) _

theorem filter_range_eq (m j : Nat) (hj : j < m) :
    (List.range m).filter (fun b : Nat => decide ((b : Int) = (j : Int))) = [j] := by
  induction m with
  | zero => omega
  | succ m ih =>
    rw [List.range_succ, List.filter_append]
    by_cases h : j < m
    · rw [ih h]
      have : ¬ (m = j) := by omega
      simp [this]
    · have hjm : j = m := by omega
      subst hjm
      have : (List.range j).filter (fun b : Nat => decide ((b : Int) = (j : Int))) = [] := by
        rw [List.filter_eq_nil_iff]
        intro a ha
        have := List.mem_range.mp ha
        simp only [decide_eq_true_eq]
        omega
      rw [this]
      simp

/-- The results of the row `i`, in the order of the tasks. -/
theorem results_row (score : Int → Int → Ratio) (i : Nat) (hi : i < 100) :
    ((step.results score).filter fun r => r.i = (i : Int)).map result.score
      = (List.range 100).map fun j : Nat => score i j := by
  have key : ∀ n : Nat,
      ((((List.range n).flatMap fun a : Nat => (List.range 100).map fun b : Nat =>
          (⟨Int.ofNat a, Int.ofNat b⟩ : task)).map fun t =>
          (⟨t.i, t.j, score t.i t.j⟩ : result)).filter fun r => r.i = (i : Int)).map result.score
        = if i < n then (List.range 100).map fun j : Nat => score i j else [] := by
    intro n
    induction n with
    | zero => simp
    | succ n ih =>
      rw [List.range_succ, List.flatMap_append, List.map_append, List.filter_append,
        List.map_append, ih, List.flatMap_singleton, List.map_map, List.filter_map,
        List.map_map]
      by_cases h : i < n
      · have hne : ∀ a ∈ List.range 100, ¬ (((fun r : result => decide (r.i = (i : Int))) ∘
            ((fun t : task => (⟨t.i, t.j, score t.i t.j⟩ : result)) ∘
              fun b : Nat => (⟨Int.ofNat n, Int.ofNat b⟩ : task))) a = true) := by
          intro a _
          simp only [Function.comp, Int.ofNat_eq_coe, decide_eq_true_eq]
          omega
        rw [List.filter_eq_nil_iff.mpr hne, if_pos h, if_pos (by omega)]
        simp
      · by_cases h2 : i = n
        · subst h2
          have hall : ∀ a ∈ List.range 100, (((fun r : result => decide (r.i = (i : Int))) ∘
              ((fun t : task => (⟨t.i, t.j, score t.i t.j⟩ : result)) ∘
                fun b : Nat => (⟨Int.ofNat i, Int.ofNat b⟩ : task))) a = true) := by
            intro a _
            simp only [Function.comp, Int.ofNat_eq_coe, decide_eq_true_eq]
          rw [List.filter_eq_self.mpr hall, if_neg h, if_pos (by omega)]
          simp [Function.comp]
        · have hne : ∀ a ∈ List.range 100, ¬ (((fun r : result => decide (r.i = (i : Int))) ∘
              ((fun t : task => (⟨t.i, t.j, score t.i t.j⟩ : result)) ∘
                fun b : Nat => (⟨Int.ofNat n, Int.ofNat b⟩ : task))) a = true) := by
            intro a _
            simp only [Function.comp, Int.ofNat_eq_coe, decide_eq_true_eq]
            omega
          rw [List.filter_eq_nil_iff.mpr hne, if_neg h, if_neg (by omega)]
          simp
  have := key 100
  rw [if_pos hi] at this
  exact this

/-- The results of the column `j`, in the order of the tasks. -/
theorem results_column (score : Int → Int → Ratio) (j : Nat) (hj : j < 100) :
    ((step.results score).filter fun r => r.j = (j : Int)).map result.score
      = (List.range 100).map fun k : Nat => score k j := by
  have key : ∀ n : Nat,
      ((((List.range n).flatMap fun a : Nat => (List.range 100).map fun b : Nat =>
          (⟨Int.ofNat a, Int.ofNat b⟩ : task)).map fun t =>
          (⟨t.i, t.j, score t.i t.j⟩ : result)).filter fun r => r.j = (j : Int)).map result.score
        = (List.range n).map fun k : Nat => score k j := by
    intro n
    induction n with
    | zero => simp
    | succ n ih =>
      rw [List.range_succ, List.flatMap_append, List.map_append, List.filter_append,
        List.map_append, ih, List.flatMap_singleton, List.map_map, List.filter_map,
        List.map_map, List.map_append]
      have e : (List.range 100).filter ((fun r : result => decide (r.j = (j : Int))) ∘
          ((fun t : task => (⟨t.i, t.j, score t.i t.j⟩ : result)) ∘
            fun b : Nat => (⟨Int.ofNat n, Int.ofNat b⟩ : task))) = [j] := by
        rw [← filter_range_eq 100 j hj]
        rfl
      rw [e]
      simp [Function.comp]
  exact key 100

end Rows

section C13

theorem sum_zeros (fl : ℚ → ℚ) (v : ℚ) (hv : fl (v + 0) = v) (n : Nat) :
    (List.replicate n (Ratio.finite 0)).foldl (Ratio.add fl) (Ratio.finite v)
      = Ratio.finite v := by
  induction n with
  | zero => rfl
  | succ n ih => rw [List.replicate_succ, List.foldl_cons, Ratio.add, hv, ih]

theorem sample_row :
    (List.range 100).map (fun j : Nat => step.sample 0 j)
      = [Ratio.finite (3602879701896397 / 36028797018963968),
          Ratio.finite (3602879701896397 / 18014398509481984),
          Ratio.finite (5404319552844595 / 18014398509481984)]
        ++ List.replicate 97 (Ratio.finite 0) := by
  rfl

/-- C13, counterexample: in `float64` arithmetic the scores depend on the order of
delivery.  Every attacker scores `0.1`, `0.2`, `0.3` against the defenders `0`, `1`, `2`
and `0` against the others.  When the results arrive in the order of the tasks the
score of the attacker `0` is `0.6000000000000001`; when they arrive in the opposite
order it is `0.6`. -/
theorem step_scores_order_counterexample :
    (step.results step.sample).reverse.Perm (step.results step.sample) ∧
    (∃ A D, step.scores fl64 (step.results step.sample) = .ok (A, D) ∧
      A[0]? = some (Ratio.finite (1351079888211149 / 2251799813685248))) ∧
    (∃ A D, step.scores fl64 (step.results step.sample).reverse = .ok (A, D) ∧
      A[0]? = some (Ratio.finite (5404319552844595 / 9007199254740992))) ∧
    (1351079888211149 / 2251799813685248 : ℚ) ≠ 5404319552844595 / 9007199254740992 := by
  have a1 : fl64 (0 + 3602879701896397 / 36028797018963968)
      = 3602879701896397 / 36028797018963968 :=
    fl64_near _ (-4) 7205759403792794 _ (by norm_num) (by norm_num) (by norm_num) (by norm_num)
      (by norm_num)
  have a2 : fl64 (3602879701896397 / 36028797018963968 + 3602879701896397 / 18014398509481984)
      = 1351079888211149 / 4503599627370496 := by
    rw [fl64_of_binade _ (-2) 5404319552844596 (by norm_num) (by norm_num)
      (roundEven_tie _ 5404319552844595 5404319552844596 (by norm_num) (Or.inr ⟨rfl, by decide⟩))]
    norm_num
  have a3 : fl64 (1351079888211149 / 4503599627370496 + 5404319552844595 / 18014398509481984)
      = 1351079888211149 / 2251799813685248 := by
    rw [fl64_of_binade _ (-1) 5404319552844596 (by norm_num) (by norm_num)
      (roundEven_tie _ 5404319552844595 5404319552844596 (by norm_num) (Or.inr ⟨rfl, by decide⟩))]
    norm_num
  have a4 : fl64 (1351079888211149 / 2251799813685248 + 0)
      = 1351079888211149 / 2251799813685248 :=
    fl64_near _ (-1) 5404319552844596 _ (by norm_num) (by norm_num) (by norm_num) (by norm_num)
      (by norm_num)
  have b1 : fl64 (0 + 5404319552844595 / 18014398509481984)
      = 5404319552844595 / 18014398509481984 :=
    fl64_near _ (-2) 5404319552844595 _ (by norm_num) (by norm_num) (by norm_num) (by norm_num)
      (by norm_num)
  have b2 : fl64 (5404319552844595 / 18014398509481984 + 3602879701896397 / 18014398509481984)
      = 1 / 2 :=
    fl64_near _ (-1) 4503599627370496 _ (by norm_num) (by norm_num) (by norm_num) (by norm_num)
      (by norm_num)
  have b3 : fl64 (1 / 2 + 3602879701896397 / 36028797018963968)
      = 5404319552844595 / 9007199254740992 :=
    fl64_near _ (-1) 5404319552844595 _ (by norm_num) (by norm_num) (by norm_num) (by norm_num)
      (by norm_num)
  have b0 : fl64 (0 + 0) = 0 := by rw [add_zero, fl64_zero]
  refine ⟨List.reverse_perm _, ?_, ?_, by norm_num⟩
  · obtain ⟨A, D, hrun, _, _, hsum⟩ := scores_spec fl64 (step.results step.sample)
      (results_in_range step.sample)
    refine ⟨A, D, hrun, ?_⟩
    rw [(hsum 0 (by norm_num)).1]
    have hrow := results_row step.sample 0 (by norm_num)
    simp only [Nat.cast_zero] at hrow ⊢
    rw [hrow, sample_row, Ratio.sum, List.foldl_append]
    simp only [List.foldl_cons, List.foldl_nil, Ratio.add, a1, a2, a3]
    rw [sum_zeros fl64 _ a4]
  · obtain ⟨A, D, hrun, _, _, hsum⟩ := scores_spec fl64 (step.results step.sample).reverse
      (fun r hr => results_in_range step.sample r (List.mem_reverse.mp hr))
    refine ⟨A, D, hrun, ?_⟩
    rw [(hsum 0 (by norm_num)).1]
    have hrow := results_row step.sample 0 (by norm_num)
    simp only [Nat.cast_zero] at hrow ⊢
    rw [List.filter_reverse, List.map_reverse, hrow, sample_row, Ratio.sum,
      List.reverse_append, List.reverse_replicate, List.foldl_append, sum_zeros fl64 0 b0]
    simp only [List.reverse_cons, List.reverse_nil, List.nil_append, List.cons_append,
      List.foldl_cons, List.foldl_nil, Ratio.add, b1, b2, b3]

/-- C13, amended: when every pairing delivers its result once, in whatever order, the
aggregator returns two arrays of 100 scores; the attacker score of the genome `i` is
the sum of the results of the row `i`, and the defender score of the genome `i` the sum
of the results of the column `i`, each added from left to right in the order of
delivery.  In exact arithmetic these are the sums over all the pairings of the row and
of the column, whatever the order of delivery. -/
theorem step_scores_sums (score : Int → Int → Ratio) (delivered : List result)
    (h : delivered.Perm (step.results score)) :
    (∀ fl : ℚ → ℚ, ∃ A D, step.scores fl delivered = .ok (A, D) ∧ A.length = 100 ∧
      D.length = 100 ∧
      ∀ i : Nat, i < 100 →
        A[i]? = some (Ratio.sum fl ((delivered.filter fun r => r.i = (i : Int)).map
          result.score)) ∧
        D[i]? = some (Ratio.sum fl ((delivered.filter fun r => r.j = (i : Int)).map
          result.score))) ∧
    (∃ A D, step.scores id delivered = .ok (A, D) ∧
      ∀ i : Nat, i < 100 →
        A[i]? = some (Ratio.sum id ((List.range 100).map fun j : Nat => score i j)) ∧
        D[i]? = some (Ratio.sum id ((List.range 100).map fun k : Nat => score k i))) := by
  have hin : ∀ r ∈ delivered, (0 ≤ r.i ∧ r.i.toNat < 100) ∧ (0 ≤ r.j ∧ r.j.toNat < 100) :=
    fun r hr => results_in_range score r (h.mem_iff.mp hr)
  refine ⟨fun fl => scores_spec fl delivered hin, ?_⟩
  obtain ⟨A, D, hrun, _, _, hsum⟩ := scores_spec id delivered hin
  refine ⟨A, D, hrun, fun i hi => ⟨?_, ?_⟩⟩
  · rw [(hsum i hi).1, Ratio.sum_perm _ _ ((h.filter _).map _), results_row score i hi]
  · rw [(hsum i hi).2, Ratio.sum_perm _ _ ((h.filter _).map _), results_column score i hi]

/-- C13, witness: the results of the example, delivered in the opposite order of the
tasks. -/
theorem step_scores_sums_witness :
    ∃ A D, step.scores id (step.results step.sample).reverse = .ok (A, D) ∧
      ∀ i : Nat, i < 100 →
        A[i]? = some (Ratio.sum id ((List.range 100).map fun j : Nat => step.sample i j)) ∧
        D[i]? = some (Ratio.sum id ((List.range 100).map fun k : Nat => step.sample k i)) :=
  (step_scores_sums step.sample (step.results step.sample).reverse (List.reverse_perm _)).2

end C13

end Ogame
